import Mathlib

/-! sqlc: parameter resolution and named placeholders

A shallow embedding of `resolveCatalogRefs` (`internal/compiler/resolve.go`)
and of `NamedParameters` (`internal/sql/rewrite/parameters.go`), with the
data they work on.

* Go maps keyed by a string or an int are total functions into `Option`
  (a missing key is `none`); assignment `m[k] = v` is function update.
* A Go call has three outcomes here: it returns a value, it returns an error
  value (`return nil, err`), or it panics.
* Pointers of the input that the source dereferences without a nil test
  (`ref.ref`, `n.Func`, `n.Args`, `rv.Alias.Aliasname`, the elements of
  `fun.Args`, `arg.Type`) are taken to be non-nil; pointers the source tests
  against nil are `Option`s, and so is the local `defaultTable`, which the
  source itself leaves nil when no range variable names a relation.
* A nil slice and an empty slice differ (`fun.Args == nil`): the argument
  slice of a function is an `Option` of a list.
-/

set_option autoImplicit false

namespace Sqlc

/-! ## Outcomes -/

/-- Error values the resolver hands back: `*sqlerr.Error`, the result of
`fmt.Errorf`, or an error produced by a helper outside this file. -/
inductive GoError where
  | sqlerr (Code : String) (Message : String) (Location : Int)
  | errorf (msg : String)
  | external (msg : String)
  deriving DecidableEq, Repr

/-- Outcome of a Go call: a value, an error value, or a panic. -/
inductive Result (α : Type) where
  | ok (a : α)
  | error (e : GoError)
  | panic (msg : String)
  deriving DecidableEq, Repr

/-- Sequencing of outcomes: an error or a panic ends the computation. -/
def Result.bind {α β : Type} (r : Result α) (f : α → Result β) : Result β :=
  match r with
  | .ok a => f a
  | .error e => .error e
  | .panic m => .panic m

/-- The message of Go's nil-pointer run-time panic. -/
def nilDeref : String := "runtime error: invalid memory address or nil pointer dereference"

/-! ## Go maps -/

/-- A Go map: `m k = none` when `k` is not a key. -/
abbrev GoMap (κ V : Type) := κ → Option V

/-- The empty map literal. -/
def GoMap.empty {κ V : Type} : GoMap κ V := fun _ => none

/-- The assignment `m[k] = v`. -/
def GoMap.set {κ V : Type} [DecidableEq κ] (m : GoMap κ V) (k : κ) (v : V) : GoMap κ V :=
  fun k' => if k' = k then some v else m k'

/-! ## AST and catalog types (the fields the source reads or writes) -/

/-- The type `ast.TableName`. -/
structure TableName where
  Schema : String
  Name : String
  deriving DecidableEq, Repr

/-- The type `ast.TypeName`. -/
structure TypeName where
  Schema : String
  Name : String
  deriving DecidableEq, Repr

/-- The type `ast.FuncName`. -/
structure FuncName where
  Schema : String
  Name : String
  deriving DecidableEq, Repr

/-- The type `pg.RangeVar`: `Relname` and `Alias` are nil-able. -/
structure RangeVar where
  Schemaname : Option String
  Relname : Option String
  Alias : Option String
  deriving DecidableEq, Repr

/-- The type `pg.ParamRef`. -/
structure ParamRef where
  Number : Int
  Location : Int
  deriving DecidableEq, Repr

mutual
/-- The interface `ast.Node`, with the node kinds the two source files inspect. -/
inductive Node where
  | nil
  | String (Str : String)
  | A_Const (Val : Node) (Location : Int)
  | ColumnRef (Fields : NodeList) (Location : Int)
  | ParamRef (Number : Int) (Location : Int)
  | NamedArgExpr (Name : Option String) (Arg : Node) (Location : Int)
  | A_Expr (Name : NodeList) (Lexpr : Node) (Rexpr : Node) (Location : Int)
  | FuncCall (Func : FuncName) (Args : NodeList) (Location : Int)
  | TypeCast (Arg : Node) (TypeName : Option TypeName) (Location : Int)
  | ResTarget (Name : Option String) (Val : Node) (Location : Int)
  | List (Items : NodeList)
  | limitOffset
  | limitCount
  | other (kind : String) (children : NodeList)
/-- The items of an `ast.List`. -/
inductive NodeList where
  | nil
  | cons (head : Node) (tail : NodeList)
end

/-- The items of a list as a Lean list. -/
def NodeList.toList : NodeList → List Node
  | .nil => []
  | .cons h t => h :: t.toList

/-- A Lean list as the items of an `ast.List`. -/
def NodeList.ofList : List Node → NodeList
  | [] => .nil
  | h :: t => .cons h (NodeList.ofList t)

mutual
/-- Modelled from the spec: `astutils.Search` (with `astutils.Walk`), which is
not among the source files. It collects, in depth-first pre-order, the nodes
of the subtree that satisfy the test. -/
def Search (f : Node → Bool) : Node → List Node
  | .nil => []
  | .String s => if f (.String s) then [.String s] else []
  | .A_Const v l => (if f (.A_Const v l) then [.A_Const v l] else []) ++ Search f v
  | .ColumnRef fs l => (if f (.ColumnRef fs l) then [.ColumnRef fs l] else []) ++ SearchList f fs
  | .ParamRef n l => if f (.ParamRef n l) then [.ParamRef n l] else []
  | .NamedArgExpr nm a l =>
      (if f (.NamedArgExpr nm a l) then [.NamedArgExpr nm a l] else []) ++ Search f a
  | .A_Expr nm lx rx l =>
      (if f (.A_Expr nm lx rx l) then [.A_Expr nm lx rx l] else [])
        ++ SearchList f nm ++ Search f lx ++ Search f rx
  | .FuncCall fn as l =>
      (if f (.FuncCall fn as l) then [.FuncCall fn as l] else []) ++ SearchList f as
  | .TypeCast a t l => (if f (.TypeCast a t l) then [.TypeCast a t l] else []) ++ Search f a
  | .ResTarget nm v l => (if f (.ResTarget nm v l) then [.ResTarget nm v l] else []) ++ Search f v
  | .List is => (if f (.List is) then [.List is] else []) ++ SearchList f is
  | .limitOffset => if f .limitOffset then [.limitOffset] else []
  | .limitCount => if f .limitCount then [.limitCount] else []
  | .other k cs => (if f (.other k cs) then [.other k cs] else []) ++ SearchList f cs
/-- The search of `Search` over the items of a list, in order. -/
def SearchList (f : Node → Bool) : NodeList → List Node
  | .nil => []
  | .cons h t => Search f h ++ SearchList f t
end

/-- Modelled from the spec: `stringSlice`, which is not among the source files.
The name components of a column reference: the strings among its fields. -/
def stringSlice : NodeList → List String
  | .nil => []
  | .cons (.String s) t => s :: stringSlice t
  | .cons _ t => stringSlice t

namespace catalog

/-- The type `catalog.Column`. -/
structure Column where
  Name : String
  Type_ : TypeName
  IsNotNull : Bool
  IsArray : Bool
  deriving DecidableEq, Repr

/-- The type `catalog.Table`. -/
structure Table where
  Rel : TableName
  Columns : List Column
  deriving DecidableEq, Repr

/-- The type `catalog.Argument`. -/
structure Argument where
  Name : String
  Type_ : TypeName
  deriving DecidableEq, Repr

/-- The type `catalog.Function`; `Args = none` is the nil slice. -/
structure Function where
  Name : String
  Args : Option (List Argument)
  ReturnType : TypeName
  deriving DecidableEq, Repr

end catalog

/-- The catalog as the resolver sees it: the two look-ups it calls. -/
structure Catalog where
  GetTable : TableName → Except GoError catalog.Table
  GetFuncN : FuncName → Nat → Except GoError catalog.Function

/-- The compiler's `Column`. -/
structure Column where
  Name : String
  DataType : String
  NotNull : Bool
  IsArray : Bool
  Table : Option TableName
  deriving DecidableEq, Repr

/-- The compiler's `Parameter`; `Column = none` is the nil pointer. -/
structure Parameter where
  Number : Int
  Column : Option Column
  deriving DecidableEq, Repr

/-- The compiler's `paramRef`: one placeholder occurrence. -/
structure paramRef where
  parent : Node
  rv : Option RangeVar
  ref : ParamRef
  name : String

/-- Helpers of the compiler package that are not among the source files,
taken as parameters. -/
structure Helpers where
  parseTableName : RangeVar → Except GoError TableName
  toColumn : TypeName → Result Column

/-! ## `resolve.go` -/

/-- The function `dataType`. -/
def dataType (n : TypeName) : String :=
  if n.Schema ≠ "" then n.Schema ++ "." ++ n.Name else n.Name

/-- The closure `parameterName` of `resolveCatalogRefs`. -/
def parameterName (names : GoMap Int String) (n : Int) (defaultName : String) : String :=
  match names n with
  | some r => r
  | none => defaultName

/-- The variables `aliasMap`, `defaultTable` and `tables`. -/
structure Refs where
  aliasMap : GoMap String TableName
  defaultTable : Option TableName
  tables : List TableName

/-- The loop over the range variables (lines 35-51). -/
def collectTables (h : Helpers) : List RangeVar → Refs → Result Refs
  | [], st => .ok st
  | rv :: rest, st =>
    match rv.Relname with
    | none => collectTables h rest st
    | some _ =>
      match h.parseTableName rv with
      | .error e => .error e
      | .ok fqn =>
        let st1 : Refs :=
          { aliasMap := st.aliasMap
            defaultTable := match st.defaultTable with
              | none => some fqn
              | some d => some d
            tables := st.tables ++ [fqn] }
        match rv.Alias with
        | none => collectTables h rest st1
        | some al => collectTables h rest { st1 with aliasMap := st1.aliasMap.set al fqn }

/-- The variable `typeMap`: schema, then table, then column name. -/
abbrev TypeMap := GoMap String (GoMap String (GoMap String catalog.Column))

/-- The loop that fills `typeMap` (lines 53-67); tables the catalog does not
return are skipped. -/
def buildTypeMap (c : Catalog) : List TableName → TypeMap → TypeMap
  | [], tm => tm
  | fqn :: rest, tm =>
    match c.GetTable fqn with
    | .error _ => buildTypeMap c rest tm
    | .ok table =>
      let inner : GoMap String (GoMap String catalog.Column) :=
        match tm fqn.Schema with
        | some m => m
        | none => GoMap.empty
      let cols : GoMap String catalog.Column :=
        table.Columns.foldl (fun m col => m.set col.Name col) GoMap.empty
      buildTypeMap c rest (tm.set fqn.Schema (inner.set fqn.Name cols))

/-- The expression `typeMap[schema][name][key]`. -/
def TypeMap.lookup (tm : TypeMap) (schema name key : String) : Option catalog.Column :=
  match tm schema with
  | none => none
  | some m =>
    match m name with
    | none => none
    | some cm => cm key

/-- The choice of `search` (lines 123-134). -/
def searchTables (aliasMap : GoMap String TableName) (tables : List TableName)
    (alias_ : String) : List TableName :=
  if alias_ ≠ "" then
    match aliasMap alias_ with
    | some original => [original]
    | none => tables.foldl (fun search fqn => if fqn.Name = alias_ then [fqn] else search) tables
  else tables

/-- The variables `key`, `found` and `a` during the loop over `search`. -/
structure SearchState where
  key : String
  found : Nat
  a : List Parameter

/-- The parameter appended for a match (lines 143-152); `key` is the
value of `key` after the rename of lines 140-142. -/
def columnParameter (names : GoMap Int String) (ref : paramRef) (key : String)
    (c : catalog.Column) (table : TableName) : Parameter :=
  { Number := ref.ref.Number
    Column := some { Name := parameterName names ref.ref.Number key
                     DataType := dataType c.Type_
                     NotNull := c.IsNotNull
                     IsArray := c.IsArray
                     Table := some table } }

/-- The loop over `search` (lines 137-154). -/
def searchLoop (tm : TypeMap) (names : GoMap Int String) (ref : paramRef) :
    List TableName → SearchState → SearchState
  | [], st => st
  | table :: rest, st =>
    match tm.lookup table.Schema table.Name st.key with
    | some c =>
      let key := if ref.name ≠ "" then ref.name else st.key
      searchLoop tm names ref rest
        { key := key
          found := st.found + 1
          a := st.a ++ [columnParameter names ref key c table] }
    | none => searchLoop tm names ref rest st

/-- The synthesized function for a call the catalog does not know
(lines 175-187): one argument of type "any" per call argument; appending to
the nil slice zero times leaves it nil. -/
def fallbackFunction (fn : FuncName) (items : List Node) : catalog.Function :=
  { Name := fn.Name
    Args := match items with
      | [] => none
      | _ :: _ => some (items.map (fun _ => { Name := "", Type_ := { Schema := "", Name := "any" } }))
    ReturnType := { Schema := "", Name := "any" } }

/-- The switch on one call argument (lines 190-207): `none` when the
position is skipped by `continue`, otherwise the value of `defaultName`.
The switch has no default case, so an item that is neither a placeholder
nor a named-argument wrapper is not skipped. -/
def argDefaultName (ref : paramRef) (fn : catalog.Function) : Node → Option String
  | .ParamRef number _ =>
    if number ≠ ref.ref.Number then none else some fn.Name
  | .NamedArgExpr nm (.ParamRef number _) _ =>
    if number ≠ ref.ref.Number then none
    else
      match nm with
      | some label => some label
      | none => some fn.Name
  | .NamedArgExpr _ _ _ => none
  | _ => some fn.Name

/-- The parameter appended for position `i` (lines 209-235), or the arity
error. -/
def argParameter (names : GoMap Int String) (ref : paramRef) (fn : catalog.Function)
    (i : Nat) (defaultName : String) : Except GoError Parameter :=
  match fn.Args with
  | none =>
    .ok { Number := ref.ref.Number
          Column := some { Name := parameterName names ref.ref.Number defaultName
                           DataType := "any"
                           NotNull := false
                           IsArray := false
                           Table := none } }
  | some args =>
    match args.get? i with
    | none => .error (.errorf ("incorrect number of arguments to " ++ fn.Name))
    | some arg =>
      let name := if arg.Name = "" then defaultName else arg.Name
      .ok { Number := ref.ref.Number
            Column := some { Name := parameterName names ref.ref.Number name
                             DataType := dataType arg.Type_
                             NotNull := true
                             IsArray := false
                             Table := none } }

/-- The loop over the call arguments (lines 189-236); `i` is the index of
the head of the remaining items. -/
def funcArgsLoop (names : GoMap Int String) (ref : paramRef) (fn : catalog.Function) :
    Nat → List Node → List Parameter → Result (List Parameter)
  | _, [], a => .ok a
  | i, item :: rest, a =>
    match argDefaultName ref fn item with
    | none => funcArgsLoop names ref fn (i + 1) rest a
    | some defaultName =>
      match argParameter names ref fn i defaultName with
      | .error e => .error e
      | .ok p => funcArgsLoop names ref fn (i + 1) rest (a ++ [p])

/-- The test passed to `astutils.Search` at line 96. -/
def isColumnRef : Node → Bool
  | .ColumnRef _ _ => true
  | _ => false

/-- The switch on the number of name components (lines 113-121): the pair
of `key` and `alias`, or the panic of the default case. -/
def keyAlias (items : List String) : Result (String × String) :=
  match items with
  | [k] => .ok (k, "")
  | [al, k] => .ok (k, al)
  | _ => .panic ("too many field items: " ++ toString items.length)

/-- The case of a column reference at the head of the search result
(lines 110-170). -/
def resolveColumnRef (names : GoMap Int String) (refs : Refs) (tm : TypeMap)
    (a : List Parameter) (ref : paramRef) (fields : NodeList) (leftLocation : Int) :
    Result (List Parameter) :=
  match keyAlias (stringSlice fields) with
  | .panic m => .panic m
  | .error e => .error e
  | .ok (key, alias_) =>
    let search := searchTables refs.aliasMap refs.tables alias_
    let st := searchLoop tm names ref search { key := key, found := 0, a := a }
    if st.found = 0 then
      .error (.sqlerr "42703" ("column \"" ++ st.key ++ "\" does not exist") leftLocation)
    else if st.found > 1 then
      .error (.sqlerr "42703" ("column reference \"" ++ st.key ++ "\" is ambiguous")
        leftLocation)
    else .ok st.a

/-- The case `*pg.A_Expr` (lines 93-170). -/
def resolveAExpr (names : GoMap Int String) (refs : Refs) (tm : TypeMap)
    (a : List Parameter) (ref : paramRef) (lexpr : Node) (location : Int) :
    Result (List Parameter) :=
  match Search isColumnRef lexpr with
  | [] => .error (.sqlerr "XXXXX" "no column reference found" location)
  | .ColumnRef fields leftLocation :: _ =>
    resolveColumnRef names refs tm a ref fields leftLocation
  | _ :: _ => .ok a

/-- The function a call is resolved against (lines 173-188): the catalog's,
or the synthesized one when the catalog returns an error. -/
def resolvedFunction (c : Catalog) (func : FuncName) (items : List Node) : catalog.Function :=
  match c.GetFuncN func items.length with
  | .ok f => f
  | .error _ => fallbackFunction func items

/-- The case `*ast.FuncCall` (lines 172-236). -/
def resolveFuncCall (c : Catalog) (names : GoMap Int String) (a : List Parameter)
    (ref : paramRef) (func : FuncName) (args : NodeList) : Result (List Parameter) :=
  funcArgsLoop names ref (resolvedFunction c func args.toList) 0 args.toList a

/-- The table a result target is looked up in (lines 245-254): reading the
default table comes first and panics when there is none. -/
def resTargetTable (h : Helpers) (refs : Refs) (ref : paramRef) : Result TableName :=
  match refs.defaultTable with
  | none => .panic nilDeref
  | some dt =>
    match ref.rv with
    | none => .ok dt
    | some rv =>
      match h.parseTableName rv with
      | .error e => .error e
      | .ok fqn => .ok fqn

/-- The case `*pg.ResTarget` (lines 238-272). -/
def resolveResTarget (h : Helpers) (names : GoMap Int String) (refs : Refs) (tm : TypeMap)
    (a : List Parameter) (ref : paramRef) (name : Option String) (location : Int) :
    Result (List Parameter) :=
  match name with
  | none => .error (.errorf "*pg.ResTarget has nil name")
  | some key =>
    match resTargetTable h refs ref with
    | .panic m => .panic m
    | .error e => .error e
    | .ok fqn =>
      match tm.lookup fqn.Schema fqn.Name key with
      | some col =>
        .ok (a ++ [{ Number := ref.ref.Number
                     Column := some { Name := parameterName names ref.ref.Number key
                                      DataType := dataType col.Type_
                                      NotNull := col.IsNotNull
                                      IsArray := col.IsArray
                                      Table := some { Schema := fqn.Schema
                                                      Name := fqn.Name } } }])
      | none =>
        .error (.sqlerr "42703" ("column \"" ++ key ++ "\" does not exist") location)

/-- The case `*pg.TypeCast` (lines 274-283). -/
def resolveTypeCast (h : Helpers) (names : GoMap Int String) (a : List Parameter)
    (ref : paramRef) (typeName : Option TypeName) : Result (List Parameter) :=
  match typeName with
  | none => .error (.errorf "*pg.TypeCast has nil type name")
  | some tn =>
    match h.toColumn tn with
    | .panic m => .panic m
    | .error e => .error e
    | .ok col =>
      .ok (a ++ [{ Number := ref.ref.Number
                   Column := some { col with
                     Name := parameterName names ref.ref.Number col.Name } }])

/-- The body of the loop over the occurrences (lines 71-290): the value of
`a` after the occurrence `ref`, an error value, or a panic. -/
def resolveRef (c : Catalog) (h : Helpers) (names : GoMap Int String) (refs : Refs)
    (tm : TypeMap) (a : List Parameter) (ref : paramRef) : Result (List Parameter) :=
  match ref.parent with
  | .limitOffset =>
    .ok (a ++ [{ Number := ref.ref.Number
                 Column := some { Name := parameterName names ref.ref.Number "offset"
                                  DataType := "integer"
                                  NotNull := true
                                  IsArray := false
                                  Table := none } }])
  | .limitCount =>
    .ok (a ++ [{ Number := ref.ref.Number
                 Column := some { Name := parameterName names ref.ref.Number "limit"
                                  DataType := "integer"
                                  NotNull := true
                                  IsArray := false
                                  Table := none } }])
  | .A_Expr _ lexpr _ location => resolveAExpr names refs tm a ref lexpr location
  | .FuncCall func args _ => resolveFuncCall c names a ref func args
  | .ResTarget name _ location => resolveResTarget h names refs tm a ref name location
  | .TypeCast _ typeName _ => resolveTypeCast h names a ref typeName
  | .ParamRef _ _ => .ok (a ++ [{ Number := ref.ref.Number, Column := none }])
  | _ => .ok a

/-- The loop over the occurrences (lines 70-292). -/
def resolveLoop (c : Catalog) (h : Helpers) (names : GoMap Int String) (refs : Refs)
    (tm : TypeMap) : List paramRef → List Parameter → Result (List Parameter)
  | [], a => .ok a
  | ref :: rest, a =>
    match resolveRef c h names refs tm a ref with
    | .ok a1 => resolveLoop c h names refs tm rest a1
    | .error e => .error e
    | .panic m => .panic m

/-- The function `resolveCatalogRefs`. -/
def resolveCatalogRefs (c : Catalog) (h : Helpers) (rvs : List RangeVar)
    (args : List paramRef) (names : GoMap Int String) : Result (List Parameter) :=
  match collectTables h rvs { aliasMap := GoMap.empty, defaultTable := none, tables := [] } with
  | .error e => .error e
  | .panic m => .panic m
  | .ok refs =>
    resolveLoop c h names refs (buildTypeMap c refs.tables GoMap.empty) args []

/-! ## `parameters.go` -/

/-- The type `source.Edit`. -/
structure Edit where
  Location : Int
  Old : String
  New : String
  deriving DecidableEq, Repr

/-- The type `ast.RawStmt`. -/
structure RawStmt where
  Stmt : Node
  StmtLocation : Int

/-- Modelled from the spec: `astutils.Join`, which is not among the source
files. The strings among the items of a list, joined by the separator. -/
def Join (list : NodeList) (sep : String) : String :=
  sep.intercalate (stringSlice list)

/-- Modelled from the spec: `named.IsParamFunc`, which is not among the source
files. The call-style marker: a call of the function `arg` of schema `sqlc`. -/
def IsParamFunc : Node → Bool
  | .FuncCall fn _ _ => decide (fn.Schema = "sqlc") && decide (fn.Name = "arg")
  | _ => false

/-- Modelled from the spec: `named.IsParamSign`, which is not among the source
files. The sign marker: an expression whose operator name is `@`. -/
def IsParamSign : Node → Bool
  | .A_Expr nm _ _ _ => decide (Join nm "." = "@")
  | _ => false

/-- The function `isNamedParamSignCast`. -/
def isNamedParamSignCast : Node → Bool
  | .A_Expr nm _ (.TypeCast _ _ _) _ => decide (Join nm "." = "@")
  | _ => false

/-- The type `stringWalker`. -/
structure stringWalker where
  Str : String
  IsConst : Bool
  deriving DecidableEq, Repr

/-- The method `Visit` of `stringWalker`; the visitor it returns is itself. -/
def stringWalker.Visit (s : stringWalker) (node : Node) : stringWalker :=
  let s1 : stringWalker :=
    match node with
    | .A_Const _ _ => { s with IsConst := true }
    | _ => s
  match node with
  | .String str => { s1 with Str := s1.Str ++ str }
  | _ => s1

mutual
/-- Modelled from the spec: `astutils.Walk` with a `stringWalker`, which is not
among the source files. The visitor sees the node, then the children in the
order of `Search`. -/
def Walk (s : stringWalker) : Node → stringWalker
  | .nil => s
  | .String str => s.Visit (.String str)
  | .A_Const v l => Walk (s.Visit (.A_Const v l)) v
  | .ColumnRef fs l => WalkList (s.Visit (.ColumnRef fs l)) fs
  | .ParamRef n l => s.Visit (.ParamRef n l)
  | .NamedArgExpr nm a l => Walk (s.Visit (.NamedArgExpr nm a l)) a
  | .A_Expr nm lx rx l =>
      Walk (Walk (WalkList (s.Visit (.A_Expr nm lx rx l)) nm) lx) rx
  | .FuncCall fn as l => WalkList (s.Visit (.FuncCall fn as l)) as
  | .TypeCast a t l => Walk (s.Visit (.TypeCast a t l)) a
  | .ResTarget nm v l => Walk (s.Visit (.ResTarget nm v l)) v
  | .List is => WalkList (s.Visit (.List is)) is
  | .limitOffset => s.Visit .limitOffset
  | .limitCount => s.Visit .limitCount
  | .other k cs => WalkList (s.Visit (.other k cs)) cs
/-- The walk of `Walk` over the items of a list, in order. -/
def WalkList (s : stringWalker) : NodeList → stringWalker
  | .nil => s
  | .cons h t => WalkList (Walk s h) t
end

/-- The function `flatten`. -/
def flatten (root : Node) : String × Bool :=
  let sw := Walk { Str := "", IsConst := false } root
  (sw.Str, sw.IsConst)

/-- The value of a Go `int` (64 bits, two's complement) for the integer `x`:
the result of an addition or subtraction of Go wraps around. -/
def wrapInt (x : Int) : Int :=
  (x + 9223372036854775808) % 18446744073709551616 - 9223372036854775808

/-- The variables `args`, `argn` and `edits` of `NamedParameters`. The map
`args` is the list of its entries in the order of assignment; a key is
assigned once, so the keys are distinct. -/
structure Rewrite where
  args : List (String × Int)
  argn : Int
  edits : List Edit

/-- The expression `args[param]`: zero when the key is missing. -/
def Rewrite.get (st : Rewrite) (param : String) : Int :=
  match st.args.lookup param with
  | some num => num
  | none => 0

/-- The number of the placeholder for `param` (lines 61-73, 92-106 and
118-130, the same in the three cases): the one `args` holds, or else the next
value of `argn`, which is then assigned. The counter `argn` is at most the
number of markers of the statement, so `argn + 1` does not wrap. -/
def Rewrite.number (st : Rewrite) (param : String) : Int × Rewrite :=
  match st.args.lookup param with
  | some num => (num, st)
  | none =>
    (st.argn + 1,
      { args := st.args ++ [(param, st.argn + 1)], argn := st.argn + 1, edits := st.edits })

/-- The case `named.IsParamFunc` of the callback (lines 58-86): the node that
replaces the call, and the variables afterwards. -/
def applyParamFunc (stmtLocation : Int) (st : Rewrite) (args : NodeList) (location : Int) :
    Node × Rewrite :=
  let param := (flatten (.List args)).1
  let isConst := (flatten (.List args)).2
  let r := st.number param
  let old := if isConst then "sqlc.arg('" ++ param ++ "')" else "sqlc.arg(" ++ param ++ ")"
  (.ParamRef r.1 location,
    { r.2 with edits := r.2.edits ++ [{ Location := wrapInt (location - stmtLocation)
                                        Old := old
                                        New := "$" ++ toString (r.2.get param) }] })

/-- The case `isNamedParamSignCast` of the callback (lines 88-113): the cast,
its argument replaced, takes the place of the expression. -/
def applySignCast (stmtLocation : Int) (st : Rewrite) (location : Int)
    (castArg : Node) (castType : Option TypeName) (castLocation : Int) : Node × Rewrite :=
  let param := (flatten castArg).1
  let r := st.number param
  (.TypeCast (.ParamRef r.1 location) castType castLocation,
    { r.2 with edits := r.2.edits ++ [{ Location := wrapInt (location - stmtLocation)
                                        Old := "@" ++ param
                                        New := "$" ++ toString (r.2.get param) }] })

/-- The case `named.IsParamSign` of the callback (lines 115-137). -/
def applySign (stmtLocation : Int) (st : Rewrite) (location : Int) (rexpr : Node) :
    Node × Rewrite :=
  let param := (flatten rexpr).1
  let r := st.number param
  (.ParamRef r.1 location,
    { r.2 with edits := r.2.edits ++ [{ Location := wrapInt (location - stmtLocation)
                                        Old := "@" ++ param
                                        New := "$" ++ toString (r.2.get param) }] })

mutual
/-- The call of `astutils.Apply` with the callback of lines 54-142
(`astutils.Apply` itself is modelled from the spec): the callback sees a node
before its children; at a match the node is replaced and its subtree is not
entered; otherwise the children are rewritten in the order of `Search`. -/
def applyNode (stmtLocation : Int) : Node → Rewrite → Node × Rewrite
  | .nil, st => (.nil, st)
  | .String str, st => (.String str, st)
  | .A_Const v l, st =>
      let r := applyNode stmtLocation v st
      (.A_Const r.1 l, r.2)
  | .ColumnRef fs l, st =>
      let r := applyList stmtLocation fs st
      (.ColumnRef r.1 l, r.2)
  | .ParamRef n l, st => (.ParamRef n l, st)
  | .NamedArgExpr nm a l, st =>
      let r := applyNode stmtLocation a st
      (.NamedArgExpr nm r.1 l, r.2)
  | .A_Expr nm lx rx l, st =>
      if isNamedParamSignCast (.A_Expr nm lx rx l) then
        match rx with
        | .TypeCast castArg castType castLocation =>
          applySignCast stmtLocation st l castArg castType castLocation
        | _ => (.A_Expr nm lx rx l, st)
      else if IsParamSign (.A_Expr nm lx rx l) then applySign stmtLocation st l rx
      else
        let r1 := applyList stmtLocation nm st
        let r2 := applyNode stmtLocation lx r1.2
        let r3 := applyNode stmtLocation rx r2.2
        (.A_Expr r1.1 r2.1 r3.1 l, r3.2)
  | .FuncCall fn as l, st =>
      if IsParamFunc (.FuncCall fn as l) then applyParamFunc stmtLocation st as l
      else
        let r := applyList stmtLocation as st
        (.FuncCall fn r.1 l, r.2)
  | .TypeCast a t l, st =>
      let r := applyNode stmtLocation a st
      (.TypeCast r.1 t l, r.2)
  | .ResTarget nm v l, st =>
      let r := applyNode stmtLocation v st
      (.ResTarget nm r.1 l, r.2)
  | .List is, st =>
      let r := applyList stmtLocation is st
      (.List r.1, r.2)
  | .limitOffset, st => (.limitOffset, st)
  | .limitCount, st => (.limitCount, st)
  | .other k cs, st =>
      let r := applyList stmtLocation cs st
      (.other k r.1, r.2)
/-- The rewriting of `applyNode` over the items of a list, in order. -/
def applyList (stmtLocation : Int) : NodeList → Rewrite → NodeList × Rewrite
  | .nil, st => (.nil, st)
  | .cons h t, st =>
      let r1 := applyNode stmtLocation h st
      let r2 := applyList stmtLocation t r1.2
      (.cons r1.1 r2.1, r2.2)
end

/-- The loop of lines 144-147: the map from ordinal to name. Go ranges over
`args` in no fixed order; the numbers of distinct keys are distinct, so the
order does not show in the result. -/
def invertArgs (args : List (String × Int)) : GoMap Int String :=
  args.foldl (fun m kv => m.set kv.2 kv.1) GoMap.empty

/-- The three results of `NamedParameters`. -/
structure Normalized where
  stmt : RawStmt
  named : GoMap Int String
  edits : List Edit

/-- The function `NamedParameters`. The statement node itself passes none of
the tests, so the two searches and the rewriting start at `Stmt`. -/
def NamedParameters (raw : RawStmt) : Normalized :=
  let foundFunc := Search IsParamFunc raw.Stmt
  let foundSign := Search IsParamSign raw.Stmt
  if foundFunc.length + foundSign.length = 0 then
    { stmt := raw, named := GoMap.empty, edits := [] }
  else
    let r := applyNode raw.StmtLocation raw.Stmt { args := [], argn := 0, edits := [] }
    { stmt := { Stmt := r.1, StmtLocation := raw.StmtLocation }
      named := invertArgs r.2.args
      edits := r.2.edits }

/-! ## Vocabulary of the statements -/

/-- Applying a function to the value of an outcome. -/
def Result.map {α β : Type} (f : α → β) : Result α → Result β
  | .ok a => .ok (f a)
  | .error e => .error e
  | .panic m => .panic m

/-- The column named `key` of the table the catalog returns for `fqn`: the
last one of that name, as a later entry of `Columns` overwrites an earlier
one in the column map; `none` when the catalog does not return the table. -/
def columnOf (c : Catalog) (fqn : TableName) (key : String) : Option catalog.Column :=
  match c.GetTable fqn with
  | .error _ => none
  | .ok table => table.Columns.reverse.find? (fun col => col.Name = key)

/-- The state before the loop over the range variables. -/
def Refs.init : Refs := { aliasMap := GoMap.empty, defaultTable := none, tables := [] }

/-- The referenced tables: the value of `tables` after the loop over the
range variables (empty when that loop fails). -/
def referencedTables (h : Helpers) (rvs : List RangeVar) : List TableName :=
  match collectTables h rvs Refs.init with
  | .ok refs => refs.tables
  | _ => []

/-- The table an alias stands for: the value of `aliasMap[q]` after the loop
over the range variables. -/
def aliasedTable (h : Helpers) (rvs : List RangeVar) (q : String) : Option TableName :=
  match collectTables h rvs Refs.init with
  | .ok refs => refs.aliasMap q
  | _ => none

/-- The candidate table list of a column reference with qualifier `q`
(`""` for an unqualified reference): the value of `search`. -/
def candidateTables (h : Helpers) (rvs : List RangeVar) (q : String) : List TableName :=
  match collectTables h rvs Refs.init with
  | .ok refs => searchTables refs.aliasMap refs.tables q
  | _ => []

/-- The default table: the value of `defaultTable` after the loop over the
range variables (none when that loop fails). -/
def defaultTableOf (h : Helpers) (rvs : List RangeVar) : Option TableName :=
  match collectTables h rvs Refs.init with
  | .ok refs => refs.defaultTable
  | _ => none

/-- The syntaxes of a named placeholder: the call with a quoted constant,
the call with a bare name, the sign with a cast, the bare sign. -/
inductive MarkerKind where
  | quotedCall
  | bareCall
  | signCast
  | sign
  deriving DecidableEq, Repr

/-- A matched marker: its syntax, its flattened name and its source
location. -/
structure Marker where
  kind : MarkerKind
  param : String
  location : Int
  deriving DecidableEq, Repr

/-- The original text of a marker, as the claims word it. -/
def Marker.oldText (m : Marker) : String :=
  match m.kind with
  | .quotedCall => "sqlc.arg('" ++ m.param ++ "')"
  | .bareCall => "sqlc.arg(" ++ m.param ++ ")"
  | .signCast => "@" ++ m.param
  | .sign => "@" ++ m.param

mutual
/-- The outermost matched markers of a subtree, in traversal order: a node
that matches one of the three tests is a marker and its subtree is not
searched further; the other nodes contribute the markers of their
children. -/
def markers : Node → List Marker
  | .nil => []
  | .String _ => []
  | .A_Const v _ => markers v
  | .ColumnRef fs _ => markersList fs
  | .ParamRef _ _ => []
  | .NamedArgExpr _ a _ => markers a
  | .A_Expr nm lx rx l =>
      if isNamedParamSignCast (.A_Expr nm lx rx l) then
        match rx with
        | .TypeCast castArg _ _ =>
          [{ kind := .signCast, param := (flatten castArg).1, location := l }]
        | _ => []
      else if IsParamSign (.A_Expr nm lx rx l) then
        [{ kind := .sign, param := (flatten rx).1, location := l }]
      else markersList nm ++ markers lx ++ markers rx
  | .FuncCall fn as l =>
      if IsParamFunc (.FuncCall fn as l) then
        [{ kind := if (flatten (.List as)).2 then .quotedCall else .bareCall
           param := (flatten (.List as)).1
           location := l }]
      else markersList as
  | .TypeCast a _ _ => markers a
  | .ResTarget _ v _ => markers v
  | .List is => markersList is
  | .limitOffset => []
  | .limitCount => []
  | .other _ cs => markersList cs
/-- The markers of the items of a list, in order. -/
def markersList : NodeList → List Marker
  | .nil => []
  | .cons h t => markers h ++ markersList t
end

/-- The flattened names of the matched markers of a statement, in traversal
order. -/
def markerNames (n : Node) : List String := (markers n).map (fun m => m.param)

mutual
/-- The statement with each outermost matched marker replaced by the
placeholder whose number `ord` gives for the marker's name (for the sign
with a cast, the cast around that placeholder), at the marker's location. -/
def substitute (ord : String → Int) : Node → Node
  | .nil => .nil
  | .String str => .String str
  | .A_Const v l => .A_Const (substitute ord v) l
  | .ColumnRef fs l => .ColumnRef (substituteList ord fs) l
  | .ParamRef n l => .ParamRef n l
  | .NamedArgExpr nm a l => .NamedArgExpr nm (substitute ord a) l
  | .A_Expr nm lx rx l =>
      if isNamedParamSignCast (.A_Expr nm lx rx l) then
        match rx with
        | .TypeCast castArg castType castLocation =>
          .TypeCast (.ParamRef (ord (flatten castArg).1) l) castType castLocation
        | _ => .A_Expr nm lx rx l
      else if IsParamSign (.A_Expr nm lx rx l) then .ParamRef (ord (flatten rx).1) l
      else .A_Expr (substituteList ord nm) (substitute ord lx) (substitute ord rx) l
  | .FuncCall fn as l =>
      if IsParamFunc (.FuncCall fn as l) then .ParamRef (ord (flatten (.List as)).1) l
      else .FuncCall fn (substituteList ord as) l
  | .TypeCast a t l => .TypeCast (substitute ord a) t l
  | .ResTarget nm v l => .ResTarget nm (substitute ord v) l
  | .List is => .List (substituteList ord is)
  | .limitOffset => .limitOffset
  | .limitCount => .limitCount
  | .other k cs => .other k (substituteList ord cs)
/-- The substitution of `substitute` over the items of a list. -/
def substituteList (ord : String → Int) : NodeList → NodeList
  | .nil => .nil
  | .cons h t => .cons (substitute ord h) (substituteList ord t)
end

/-- The distinct names of a list, in the order of their first occurrence. -/
def firstOccurrences (ns : List String) : List String :=
  ns.foldl (fun acc x => if x ∈ acc then acc else acc ++ [x]) []

/-- The ordinal of a name: one more than the number of distinct names whose
first occurrence comes before its own. -/
def ordinalOf (ns : List String) (x : String) : Int :=
  ((firstOccurrences ns).indexOf x : Int) + 1

/-- The edit of a marker in a statement that starts at `stmtLocation` and
whose names have the ordinals `ord`. -/
def Marker.edit (stmtLocation : Int) (ord : String → Int) (m : Marker) : Edit :=
  { Location := wrapInt (m.location - stmtLocation)
    Old := m.oldText
    New := "$" ++ toString (ord m.param) }

/-- The variables after a marker has been handled: its name is numbered and
its edit appended. -/
def Rewrite.record (stmtLocation : Int) (st : Rewrite) (m : Marker) : Rewrite :=
  { (st.number m.param).2 with
    edits := (st.number m.param).2.edits ++
      [{ Location := wrapInt (m.location - stmtLocation)
         Old := m.oldText
         New := "$" ++ toString ((st.number m.param).2.get m.param) }] }

/-- The names of a list paired with consecutive numbers from `n` on. -/
def numberedFrom : Int → List String → List (String × Int)
  | _, [] => []
  | n, k :: ks => (k, n) :: numberedFrom (n + 1) ks

/-- The ordinals `ord` are those the map `args` of `st` holds. -/
def Agrees (ord : String → Int) (st : Rewrite) : Prop :=
  ∀ x n, st.args.lookup x = some n → ord x = n

/-- The nodes of a subtree, in traversal order. -/
def nodes (n : Node) : List Node := Search (fun _ => true) n

/-- The catalog finds a function under its number of arguments: what
`GetFuncN` returns for the count `n` declares `n` arguments (a nil slice has
none). -/
def Catalog.arityExact (c : Catalog) : Prop :=
  ∀ fn n f, c.GetFuncN fn n = .ok f →
    (match f.Args with
      | some fargs => fargs.length
      | none => 0) = n

/-- The strings among a list of nodes, concatenated in order. -/
def strings : List Node → String
  | [] => ""
  | .String str :: rest => str ++ strings rest
  | _ :: rest => strings rest

/-- Whether a list of nodes has a constant. -/
def anyConst : List Node → Bool
  | [] => false
  | .A_Const _ _ :: _ => true
  | _ :: rest => anyConst rest

/-- The name a subtree bears: the strings among its nodes, in traversal
order. -/
def flatName (n : Node) : String := strings (nodes n)

/-- A subtree is a quoted constant when one of its nodes is a constant. -/
def quoted (n : Node) : Bool := anyConst (nodes n)

mutual
/-- The outermost matched markers of a subtree, in traversal order, described
without the walker of `flatten`: the name of a marker is the text of the
strings in its name-bearing subtree (the arguments of the call, the argument
of the cast, the right operand of the sign), and a call marker is quoted
when that subtree has a constant. -/
def markersOf : Node → List Marker
  | .nil => []
  | .String _ => []
  | .A_Const v _ => markersOf v
  | .ColumnRef fs _ => markersOfList fs
  | .ParamRef _ _ => []
  | .NamedArgExpr _ a _ => markersOf a
  | .A_Expr nm lx rx l =>
      if isNamedParamSignCast (.A_Expr nm lx rx l) then
        match rx with
        | .TypeCast castArg _ _ =>
          [{ kind := .signCast, param := flatName castArg, location := l }]
        | _ => []
      else if IsParamSign (.A_Expr nm lx rx l) then
        [{ kind := .sign, param := flatName rx, location := l }]
      else markersOfList nm ++ markersOf lx ++ markersOf rx
  | .FuncCall fn as l =>
      if IsParamFunc (.FuncCall fn as l) then
        [{ kind := if quoted (.List as) then .quotedCall else .bareCall
           param := flatName (.List as)
           location := l }]
      else markersOfList as
  | .TypeCast a _ _ => markersOf a
  | .ResTarget _ v _ => markersOf v
  | .List is => markersOfList is
  | .limitOffset => []
  | .limitCount => []
  | .other _ cs => markersOfList cs
/-- The markers of the items of a list, in order. -/
def markersOfList : NodeList → List Marker
  | .nil => []
  | .cons h t => markersOf h ++ markersOfList t
end

/-! ## Example inputs -/

/-- A `parseTableName` that reads the schema and the relation name of a range
variable, and a `toColumn` that types a cast by its type name. -/
def exHelpers : Helpers :=
  { parseTableName := fun rv =>
      .ok { Schema := rv.Schemaname.getD "", Name := rv.Relname.getD "" }
    toColumn := fun tn =>
      .ok { Name := "", DataType := dataType tn, NotNull := true, IsArray := false,
            Table := none } }

/-- A catalog with the tables `t1 (id int4 not null)`,
`t2 (id int4 not null, note text)`, `t3 (foo text)` and
`t4 (tags pg_catalog.text[])`, and the functions `f (a int4, text)` and
`q (x int4)`; a function is found under its name and its number of
arguments. -/
def exCatalog : Catalog :=
  { GetTable := fun fqn =>
      if fqn.Name = "t1" then
        .ok { Rel := fqn
              Columns := [{ Name := "id", Type_ := { Schema := "", Name := "int4" },
                            IsNotNull := true, IsArray := false }] }
      else if fqn.Name = "t2" then
        .ok { Rel := fqn
              Columns := [{ Name := "id", Type_ := { Schema := "", Name := "int4" },
                            IsNotNull := true, IsArray := false },
                          { Name := "note", Type_ := { Schema := "", Name := "text" },
                            IsNotNull := false, IsArray := false }] }
      else if fqn.Name = "t3" then
        .ok { Rel := fqn
              Columns := [{ Name := "foo", Type_ := { Schema := "", Name := "text" },
                            IsNotNull := false, IsArray := false }] }
      else if fqn.Name = "t4" then
        .ok { Rel := fqn
              Columns := [{ Name := "tags", Type_ := { Schema := "pg_catalog", Name := "text" },
                            IsNotNull := false, IsArray := true }] }
      else .error (.external "relation does not exist")
    GetFuncN := fun fn n =>
      if fn.Name = "f" ∧ n = 2 then
        .ok { Name := "f"
              Args := some [{ Name := "a", Type_ := { Schema := "", Name := "int4" } },
                            { Name := "", Type_ := { Schema := "", Name := "text" } }]
              ReturnType := { Schema := "", Name := "bool" } }
      else if fn.Name = "q" ∧ n = 1 then
        .ok { Name := "q"
              Args := some [{ Name := "x", Type_ := { Schema := "", Name := "int4" } }]
              ReturnType := { Schema := "", Name := "bool" } }
      else .error (.external "function does not exist") }

/-- The range variable of `FROM rel` (no alias). -/
def exTable (rel : String) : RangeVar := { Schemaname := none, Relname := some rel, Alias := none }

/-- The expression `fields = $n`, the fields being the name components of
the column reference on the left. -/
def exEq (fields : List String) (n : Int) : Node :=
  .A_Expr (.cons (.String "=") .nil)
    (.ColumnRef (NodeList.ofList (fields.map Node.String)) 7) (.ParamRef n 12) 7

/-- The occurrence of `$n` under `parent`, with the per-occurrence rename
`name` (`""` for none). -/
def exRef (parent : Node) (n : Int) (name : String) : paramRef :=
  { parent := parent, rv := none, ref := { Number := n, Location := 12 }, name := name }

/-- The rename map with the single entry `n ↦ name`. -/
def exNames (n : Int) (name : String) : GoMap Int String := GoMap.set GoMap.empty n name

/-- The call `fn (items)`. -/
def exCall (fn : String) (items : List Node) : Node :=
  .FuncCall { Schema := "", Name := fn } (NodeList.ofList items) 3

/-- The parent kinds that fall to the default case of the switch over the
parent (line 288): every kind without a case of its own. -/
def unsupportedParent : Node → Bool
  | .limitOffset => false
  | .limitCount => false
  | .A_Expr _ _ _ _ => false
  | .FuncCall _ _ _ => false
  | .ResTarget _ _ _ => false
  | .TypeCast _ _ _ => false
  | .ParamRef _ _ => false
  | _ => true

/-- The test for a function-call parent. -/
def isFuncCall : Node → Bool
  | .FuncCall _ _ _ => true
  | _ => false

/-- The occurrence of `$n` as the value of the result target named `name`,
with the associated range variable `rv`. -/
def exTarget (name : String) (n : Int) (rv : Option RangeVar) : paramRef :=
  { parent := .ResTarget (some name) (.ParamRef n 12) 5, rv := rv,
    ref := { Number := n, Location := 12 }, name := "" }

/-- The occurrence of `$n` under the cast `$n::int4`. -/
def exCast (n : Int) : paramRef :=
  { parent := .TypeCast (.ParamRef n 12) (some { Schema := "", Name := "int4" }) 14,
    rv := none, ref := { Number := n, Location := 12 }, name := "" }

/-- The expression `@name::int4` at `location`. -/
def exSignCast (name : String) (location : Int) : Node :=
  .A_Expr (.cons (.String "@") .nil) .nil
    (.TypeCast (.ColumnRef (.cons (.String name) .nil) (location + 1))
      (some { Schema := "", Name := "int4" }) (location + 1)) location

/-- The expression `@name` at `location`. -/
def exSign (name : String) (location : Int) : Node :=
  .A_Expr (.cons (.String "@") .nil) .nil
    (.ColumnRef (.cons (.String name) .nil) (location + 1)) location

/-- The call `sqlc.arg(name)` at `location`, the name bare or quoted. -/
def exArg (name : String) (quoted : Bool) (location : Int) : Node :=
  .FuncCall { Schema := "sqlc", Name := "arg" }
    (.cons (if quoted then .A_Const (.String name) (location + 9)
      else .ColumnRef (.cons (.String name) .nil) (location + 9)) .nil) location

/-- The expression `col = value`. -/
def exCompare (col : String) (value : Node) : Node :=
  .A_Expr (.cons (.String "=") .nil) (.ColumnRef (.cons (.String col) .nil) 0) value 0

/-- The statement with the given expressions, starting at offset 10 of its
file. -/
def exStmt (exprs : List Node) : RawStmt :=
  { Stmt := .other "SelectStmt" (NodeList.ofList exprs), StmtLocation := 10 }

/-! ## Structure of the loops -/

theorem searchLoop_acc (tm : TypeMap) (names : GoMap Int String) (ref : paramRef)
    (l : List TableName) (k : String) (f : Nat) (a : List Parameter) :
    searchLoop tm names ref l { key := k, found := f, a := a } =
      { key := (searchLoop tm names ref l { key := k, found := 0, a := [] }).key
        found := f + (searchLoop tm names ref l { key := k, found := 0, a := [] }).found
        a := a ++ (searchLoop tm names ref l { key := k, found := 0, a := [] }).a } := by
  induction l generalizing k f a with
  | nil => simp [searchLoop]
  | cons t rest ih =>
    simp only [searchLoop]
    cases hl : tm.lookup t.Schema t.Name k with
    | none => simpa using ih k f a
    | some col =>
      simp only []
      rw [ih _ (f + 1) _, ih _ (0 + 1) _]
      simp [Nat.add_assoc, Nat.add_comm]

theorem funcArgsLoop_acc (names : GoMap Int String) (ref : paramRef) (fn : catalog.Function)
    (i : Nat) (items : List Node) (a : List Parameter) :
    funcArgsLoop names ref fn i items a =
      (funcArgsLoop names ref fn i items []).map (fun b => a ++ b) := by
  induction items generalizing i a with
  | nil => simp [funcArgsLoop, Result.map]
  | cons item rest ih =>
    simp only [funcArgsLoop]
    cases hd : argDefaultName ref fn item with
    | none => simpa using ih (i + 1) a
    | some d =>
      cases hp : argParameter names ref fn i d with
      | error e => simp [hp, Result.map]
      | ok p =>
        simp only [hp]
        rw [ih (i + 1) (a ++ [p]), ih (i + 1) ([] ++ [p])]
        cases funcArgsLoop names ref fn (i + 1) rest [] <;> simp [Result.map]

theorem resolveColumnRef_acc (names : GoMap Int String) (refs : Refs) (tm : TypeMap)
    (a : List Parameter) (ref : paramRef) (fields : NodeList) (loc : Int) :
    resolveColumnRef names refs tm a ref fields loc =
      (resolveColumnRef names refs tm [] ref fields loc).map (fun b => a ++ b) := by
  unfold resolveColumnRef
  cases hk : keyAlias (stringSlice fields) with
  | panic m => simp [Result.map]
  | error e => simp [Result.map]
  | ok ka =>
    obtain ⟨key, al⟩ := ka
    simp only []
    rw [searchLoop_acc]
    by_cases h0 : (searchLoop tm names ref (searchTables refs.aliasMap refs.tables al)
        { key := key, found := 0, a := [] }).found = 0
    · simp [h0, Result.map]
    · by_cases h1 : (searchLoop tm names ref (searchTables refs.aliasMap refs.tables al)
          { key := key, found := 0, a := [] }).found > 1
      · simp [h0, h1, Result.map]
      · simp [h0, h1, Result.map]

theorem resolveRef_acc (c : Catalog) (h : Helpers) (names : GoMap Int String) (refs : Refs)
    (tm : TypeMap) (a : List Parameter) (ref : paramRef) :
    resolveRef c h names refs tm a ref =
      (resolveRef c h names refs tm [] ref).map (fun b => a ++ b) := by
  unfold resolveRef
  cases ref.parent with
  | A_Expr nm lx rx loc =>
    simp only [resolveAExpr]
    cases hs : Search isColumnRef lx with
    | nil => simp [Result.map]
    | cons x xs =>
      cases x <;> simp [Result.map]
      exact resolveColumnRef_acc names refs tm a ref _ _
  | FuncCall fn args loc =>
    simp only [resolveFuncCall]
    exact funcArgsLoop_acc names ref _ 0 _ a
  | ResTarget name v loc =>
    simp only [resolveResTarget]
    cases name with
    | none => simp [Result.map]
    | some key =>
      simp only []
      cases resTargetTable h refs ref with
      | panic m => simp [Result.map]
      | error e => simp [Result.map]
      | ok fqn =>
        simp only []
        cases tm.lookup fqn.Schema fqn.Name key <;> simp [Result.map]
  | TypeCast arg tn loc =>
    simp only [resolveTypeCast]
    cases tn with
    | none => simp [Result.map]
    | some t =>
      simp only []
      cases h.toColumn t <;> simp [Result.map]
  | _ => simp [Result.map]

theorem resolveLoop_append (c : Catalog) (h : Helpers) (names : GoMap Int String)
    (refs : Refs) (tm : TypeMap) (xs ys : List paramRef) (a : List Parameter) :
    resolveLoop c h names refs tm (xs ++ ys) a =
      (resolveLoop c h names refs tm xs a).bind (resolveLoop c h names refs tm ys) := by
  induction xs generalizing a with
  | nil => simp [resolveLoop, Result.bind]
  | cons x rest ih =>
    simp only [List.cons_append, resolveLoop]
    cases resolveRef c h names refs tm a x with
    | ok a1 => simpa using ih a1
    | error e => simp [Result.bind]
    | panic m => simp [Result.bind]

theorem resolveLoop_acc (c : Catalog) (h : Helpers) (names : GoMap Int String)
    (refs : Refs) (tm : TypeMap) (xs : List paramRef) (a : List Parameter) :
    resolveLoop c h names refs tm xs a =
      (resolveLoop c h names refs tm xs []).map (fun b => a ++ b) := by
  induction xs generalizing a with
  | nil => simp [resolveLoop, Result.map]
  | cons x rest ih =>
    simp only [resolveLoop]
    rw [resolveRef_acc c h names refs tm a x]
    cases resolveRef c h names refs tm [] x with
    | ok b =>
      simp only [Result.map]
      rw [ih (a ++ b), ih b]
      cases resolveLoop c h names refs tm rest [] <;> simp [Result.map]
    | error e => simp [Result.map]
    | panic m => simp [Result.map]

/-- The result on a concatenation: the occurrences are resolved in order, the
first error or panic ends the call, and the lists are appended. -/
theorem resolveCatalogRefs_append (c : Catalog) (h : Helpers) (rvs : List RangeVar)
    (names : GoMap Int String) (xs ys : List paramRef) :
    resolveCatalogRefs c h rvs (xs ++ ys) names =
      (resolveCatalogRefs c h rvs xs names).bind (fun a =>
        (resolveCatalogRefs c h rvs ys names).map (fun b => a ++ b)) := by
  unfold resolveCatalogRefs
  cases collectTables h rvs
      { aliasMap := GoMap.empty, defaultTable := none, tables := [] } with
  | error e => simp [Result.bind]
  | panic m => simp [Result.bind]
  | ok refs =>
    simp only []
    rw [resolveLoop_append]
    cases resolveLoop c h names refs (buildTypeMap c refs.tables GoMap.empty) xs [] with
    | ok a =>
      simp only [Result.bind]
      exact resolveLoop_acc c h names refs _ ys a
    | error e => simp [Result.bind]
    | panic m => simp [Result.bind]

/-- After occurrences that resolved to `a`, the call on one more occurrence
(and whatever follows it) continues from the outcome of that occurrence
alone. -/
theorem resolveCatalogRefs_occurrence (c : Catalog) (h : Helpers) (rvs : List RangeVar)
    (names : GoMap Int String) (pre post : List paramRef) (ref : paramRef)
    (a : List Parameter) (hpre : resolveCatalogRefs c h rvs pre names = .ok a) :
    resolveCatalogRefs c h rvs (pre ++ ref :: post) names =
      (resolveCatalogRefs c h rvs [ref] names).bind (fun b =>
        (resolveCatalogRefs c h rvs post names).map (fun d => a ++ (b ++ d))) := by
  have e1 : pre ++ ref :: post = pre ++ ([ref] ++ post) := by simp
  rw [e1, resolveCatalogRefs_append, hpre, resolveCatalogRefs_append]
  cases resolveCatalogRefs c h rvs [ref] names with
  | ok b =>
    cases resolveCatalogRefs c h rvs post names <;> simp [Result.bind, Result.map]
  | error e => simp [Result.bind, Result.map]
  | panic m => simp [Result.bind, Result.map]

/-- The call on a single occurrence, once the range variables are read. -/
theorem resolveCatalogRefs_single (c : Catalog) (h : Helpers) (rvs : List RangeVar)
    (names : GoMap Int String) (ref : paramRef) (refs : Refs)
    (hrefs : collectTables h rvs Refs.init = .ok refs) :
    resolveCatalogRefs c h rvs [ref] names =
      resolveRef c h names refs (buildTypeMap c refs.tables GoMap.empty) [] ref := by
  unfold resolveCatalogRefs
  have hr : collectTables h rvs
      { aliasMap := GoMap.empty, defaultTable := none, tables := [] } = .ok refs := hrefs
  rw [hr]
  simp only [resolveLoop]
  cases resolveRef c h names refs (buildTypeMap c refs.tables GoMap.empty) [] ref <;> rfl

/-! ## The column map and the catalog -/

theorem columns_foldl_set (cols : List catalog.Column) (m0 : GoMap String catalog.Column)
    (k : String) :
    (cols.foldl (fun m col => m.set col.Name col) m0) k =
      match cols.reverse.find? (fun col => col.Name = k) with
      | some col => some col
      | none => m0 k := by
  induction cols generalizing m0 with
  | nil => simp
  | cons x xs ih =>
    simp only [List.foldl_cons, List.reverse_cons, List.find?_append]
    rw [ih]
    cases hx : xs.reverse.find? (fun col => col.Name = k) with
    | some col => simp
    | none =>
      by_cases hk : x.Name = k
      · simp [GoMap.set, hk]
      · have hk2 : ¬ k = x.Name := fun e => hk e.symm
        simp [GoMap.set, hk, hk2]

theorem lookup_set (tm0 : TypeMap) (sch nm : String) (cols : GoMap String catalog.Column)
    (s n k : String) :
    TypeMap.lookup (GoMap.set tm0 sch
        (GoMap.set (match tm0 sch with
          | some m => m
          | none => GoMap.empty) nm cols)) s n k =
      if s = sch ∧ n = nm then cols k else tm0.lookup s n k := by
  unfold TypeMap.lookup
  by_cases hs : s = sch
  · subst hs
    by_cases hn : n = nm
    · subst hn
      simp [GoMap.set]
    · cases ht : tm0 s <;> simp [GoMap.set, hn, GoMap.empty]
  · simp [GoMap.set, hs]

theorem buildTypeMap_lookup (c : Catalog) (l : List TableName) (tm0 : TypeMap)
    (s n k : String) :
    (buildTypeMap c l tm0).lookup s n k =
      match c.GetTable { Schema := s, Name := n } with
      | .ok _ =>
        if ({ Schema := s, Name := n } : TableName) ∈ l
        then columnOf c { Schema := s, Name := n } k
        else tm0.lookup s n k
      | .error _ => tm0.lookup s n k := by
  induction l generalizing tm0 with
  | nil =>
    simp only [buildTypeMap]
    cases c.GetTable { Schema := s, Name := n } <;> simp
  | cons fqn rest ih =>
    simp only [buildTypeMap]
    cases hg : c.GetTable fqn with
    | error e =>
      simp only []
      rw [ih]
      cases hq : c.GetTable { Schema := s, Name := n } with
      | error e2 => simp
      | ok t =>
        have hne : ({ Schema := s, Name := n } : TableName) ≠ fqn := by
          intro e
          rw [e, hg] at hq
          cases hq
        simp [hne]
    | ok table =>
      simp only []
      rw [ih, lookup_set]
      cases hq : c.GetTable { Schema := s, Name := n } with
      | error e2 =>
        have hne : ¬ (s = fqn.Schema ∧ n = fqn.Name) := by
          rintro ⟨e1, e2⟩
          subst e1 e2
          rw [hg] at hq
          cases hq
        simp [hne]
      | ok t =>
        by_cases hin : ({ Schema := s, Name := n } : TableName) ∈ rest
        · simp [hin]
        · by_cases he : s = fqn.Schema ∧ n = fqn.Name
          · obtain ⟨e1, e2⟩ := he
            subst e1 e2
            simp only [hin, if_false, and_self, if_true, List.mem_cons, true_or]
            simp only [columnOf, hg]
            rw [columns_foldl_set]
            cases table.Columns.reverse.find? (fun col => col.Name = k) <;> simp [GoMap.empty]
          · have hne : ({ Schema := s, Name := n } : TableName) ≠ fqn := by
              intro e
              apply he
              rw [← e]
              exact ⟨rfl, rfl⟩
            simp [hin, he, hne]

/-- For a referenced table, the three-level look-up returns the catalog's
column of that name (and nothing when the catalog does not return the
table). -/
theorem typeMap_lookup_eq (c : Catalog) (tables : List TableName) (t : TableName)
    (k : String) (ht : t ∈ tables) :
    (buildTypeMap c tables GoMap.empty).lookup t.Schema t.Name k = columnOf c t k := by
  rw [buildTypeMap_lookup]
  have et : ({ Schema := t.Schema, Name := t.Name } : TableName) = t := rfl
  rw [et]
  cases hg : c.GetTable t with
  | error e => simp [columnOf, hg, TypeMap.lookup, GoMap.empty]
  | ok tb => simp [ht]

/-! ## The range variables -/

theorem collectTables_spec (h : Helpers) (rvs : List RangeVar) (st refs : Refs)
    (hc : collectTables h rvs st = .ok refs) :
    (∀ t, t ∈ st.tables → t ∈ refs.tables) ∧
    (∀ t, t ∈ refs.tables → t ∈ st.tables ∨
      ∃ rv ∈ rvs, rv.Relname.isSome = true ∧ h.parseTableName rv = .ok t) ∧
    (∀ q t, refs.aliasMap q = some t → st.aliasMap q = some t ∨
      (t ∈ refs.tables ∧ ∃ rv ∈ rvs, rv.Relname.isSome = true ∧ rv.Alias = some q ∧
        h.parseTableName rv = .ok t)) := by
  induction rvs generalizing st with
  | nil =>
    simp only [collectTables, Result.ok.injEq] at hc
    subst hc
    exact ⟨fun _ ht => ht, fun _ ht => Or.inl ht, fun _ _ hq => Or.inl hq⟩
  | cons rv rest ih =>
    simp only [collectTables] at hc
    cases hrel : rv.Relname with
    | none =>
      simp only [hrel] at hc
      obtain ⟨h1, h2, h3⟩ := ih st hc
      refine ⟨h1, ?_, ?_⟩
      · intro t ht
        rcases h2 t ht with hl | ⟨r, hr, hr2⟩
        · exact Or.inl hl
        · exact Or.inr ⟨r, List.mem_cons_of_mem _ hr, hr2⟩
      · intro q t hq
        rcases h3 q t hq with hl | ⟨hm, r, hr, hr2⟩
        · exact Or.inl hl
        · exact Or.inr ⟨hm, r, List.mem_cons_of_mem _ hr, hr2⟩
    | some rel =>
      simp only [hrel] at hc
      cases hp : h.parseTableName rv with
      | error e => simp [hp] at hc
      | ok fqn =>
        simp only [hp] at hc
        cases hal : rv.Alias with
        | none =>
          simp only [hal] at hc
          obtain ⟨h1, h2, h3⟩ := ih _ hc
          refine ⟨fun t ht => h1 t (by simp [ht]), ?_, ?_⟩
          · intro t ht
            rcases h2 t ht with hl | ⟨r, hr, hr2⟩
            · simp only [List.mem_append, List.mem_singleton] at hl
              rcases hl with hl | hl
              · exact Or.inl hl
              · subst hl
                exact Or.inr ⟨rv, List.mem_cons_self _ _, by simp [hrel], hp⟩
            · exact Or.inr ⟨r, List.mem_cons_of_mem _ hr, hr2⟩
          · intro q t hq
            rcases h3 q t hq with hl | ⟨hm, r, hr, hr2⟩
            · exact Or.inl hl
            · exact Or.inr ⟨hm, r, List.mem_cons_of_mem _ hr, hr2⟩
        | some al =>
          simp only [hal] at hc
          obtain ⟨h1, h2, h3⟩ := ih _ hc
          refine ⟨fun t ht => h1 t (by simp [ht]), ?_, ?_⟩
          · intro t ht
            rcases h2 t ht with hl | ⟨r, hr, hr2⟩
            · simp only [List.mem_append, List.mem_singleton] at hl
              rcases hl with hl | hl
              · exact Or.inl hl
              · subst hl
                exact Or.inr ⟨rv, List.mem_cons_self _ _, by simp [hrel], hp⟩
            · exact Or.inr ⟨r, List.mem_cons_of_mem _ hr, hr2⟩
          · intro q t hq
            rcases h3 q t hq with hl | ⟨hm, r, hr, hr2⟩
            · simp only [GoMap.set] at hl
              by_cases hqa : q = al
              · simp only [hqa, if_true, Option.some.injEq] at hl
                subst hl
                refine Or.inr ⟨h1 _ (by simp), rv, List.mem_cons_self _ _, by simp [hrel], ?_, hp⟩
                rw [hal, hqa]
              · simp only [hqa, if_false] at hl
                exact Or.inl hl
            · exact Or.inr ⟨hm, r, List.mem_cons_of_mem _ hr, hr2⟩

theorem pick_named (q : String) (l init : List TableName) :
    (l.foldl (fun search fqn => if fqn.Name = q then [fqn] else search) init = init ∧
      ∀ x ∈ l, x.Name ≠ q) ∨
    ∃ x ∈ l, x.Name = q ∧
      l.foldl (fun search fqn => if fqn.Name = q then [fqn] else search) init = [x] := by
  induction l generalizing init with
  | nil => exact Or.inl ⟨rfl, by simp⟩
  | cons y ys ih =>
    simp only [List.foldl_cons]
    rcases ih (if y.Name = q then [y] else init) with ⟨he, hn⟩ | ⟨x, hx, hxq, he⟩
    · by_cases hy : y.Name = q
      · refine Or.inr ⟨y, List.mem_cons_self _ _, hy, ?_⟩
        rw [he]
        simp [hy]
      · refine Or.inl ⟨?_, ?_⟩
        · rw [he]
          simp [hy]
        · intro x hx
          rcases List.mem_cons.mp hx with e | e
          · rw [e]
            exact hy
          · exact hn x e
    · exact Or.inr ⟨x, List.mem_cons_of_mem _ hx, hxq, he⟩

/-- Every candidate table is a referenced table. -/
theorem candidateTables_subset (h : Helpers) (rvs : List RangeVar) (q : String)
    (t : TableName) (ht : t ∈ candidateTables h rvs q) : t ∈ referencedTables h rvs := by
  unfold candidateTables at ht
  unfold referencedTables
  cases hc : collectTables h rvs Refs.init with
  | error e => simp [hc] at ht
  | panic m => simp [hc] at ht
  | ok refs =>
    simp only [hc] at ht ⊢
    obtain ⟨_, _, h3⟩ := collectTables_spec h rvs _ refs hc
    unfold searchTables at ht
    by_cases hq : q = ""
    · simpa [hq] using ht
    · simp only [ne_eq, hq, not_false_eq_true, if_true] at ht
      cases ha : refs.aliasMap q with
      | some o =>
        simp only [ha, List.mem_singleton] at ht
        subst ht
        rcases h3 q t ha with hl | ⟨hm, _⟩
        · simp [Refs.init, GoMap.empty] at hl
        · exact hm
      | none =>
        simp only [ha] at ht
        rcases pick_named q refs.tables refs.tables with ⟨he, _⟩ | ⟨x, hx, _, he⟩
        · rw [he] at ht
          exact ht
        · rw [he] at ht
          simp only [List.mem_singleton] at ht
          subst ht
          exact hx

/-! ## The loop over the candidate tables -/

theorem searchLoop_none (tm : TypeMap) (names : GoMap Int String) (ref : paramRef)
    (l : List TableName) (st : SearchState)
    (hn : ∀ t ∈ l, tm.lookup t.Schema t.Name st.key = none) :
    searchLoop tm names ref l st = st := by
  induction l with
  | nil => rfl
  | cons t rest ih =>
    simp only [searchLoop]
    rw [hn t (List.mem_cons_self _ _)]
    exact ih (fun x hx => hn x (List.mem_cons_of_mem _ hx))

theorem searchLoop_length (tm : TypeMap) (names : GoMap Int String) (ref : paramRef)
    (l : List TableName) (k : String) :
    (searchLoop tm names ref l { key := k, found := 0, a := [] }).a.length =
      (searchLoop tm names ref l { key := k, found := 0, a := [] }).found := by
  induction l generalizing k with
  | nil => rfl
  | cons t rest ih =>
    simp only [searchLoop]
    cases hl : tm.lookup t.Schema t.Name k with
    | none => exact ih k
    | some col =>
      simp only []
      rw [searchLoop_acc]
      simp only [List.length_append, ih]
      simp [Nat.add_comm]

/-- When the loop counts exactly one match, that match is for the original
key, in a table of the list, and its parameter is all the loop appends. -/
theorem searchLoop_one (tm : TypeMap) (names : GoMap Int String) (ref : paramRef)
    (l : List TableName) (k : String)
    (h1 : (searchLoop tm names ref l { key := k, found := 0, a := [] }).found = 1) :
    ∃ t ∈ l, ∃ col, tm.lookup t.Schema t.Name k = some col ∧
      (searchLoop tm names ref l { key := k, found := 0, a := [] }).a =
        [columnParameter names ref (if ref.name ≠ "" then ref.name else k) col t] := by
  induction l with
  | nil => simp [searchLoop] at h1
  | cons t rest ih =>
    simp only [searchLoop] at h1 ⊢
    cases hl : tm.lookup t.Schema t.Name k with
    | none =>
      simp only [hl] at h1 ⊢
      obtain ⟨x, hx, col, hc, ha⟩ := ih h1
      exact ⟨x, List.mem_cons_of_mem _ hx, col, hc, ha⟩
    | some col =>
      simp only [hl] at h1 ⊢
      rw [searchLoop_acc] at h1 ⊢
      simp only at h1 ⊢
      have hz : (searchLoop tm names ref rest
          { key := if ref.name ≠ "" then ref.name else k, found := 0, a := [] }).found = 0 := by
        omega
      have hlen := searchLoop_length tm names ref rest (if ref.name ≠ "" then ref.name else k)
      rw [hz] at hlen
      refine ⟨t, List.mem_cons_self _ _, col, hl, ?_⟩
      rw [List.length_eq_zero.mp hlen]
      simp

theorem resolveCatalogRefs_ok_refs (c : Catalog) (h : Helpers) (rvs : List RangeVar)
    (names : GoMap Int String) (args : List paramRef) (a : List Parameter)
    (hok : resolveCatalogRefs c h rvs args names = .ok a) :
    ∃ refs, collectTables h rvs Refs.init = .ok refs := by
  unfold resolveCatalogRefs at hok
  cases hc : collectTables h rvs Refs.init with
  | ok refs => exact ⟨refs, rfl⟩
  | error e =>
    have hc2 : collectTables h rvs
        { aliasMap := GoMap.empty, defaultTable := none, tables := [] } = .error e := hc
    simp [hc2] at hok
  | panic m =>
    have hc2 : collectTables h rvs
        { aliasMap := GoMap.empty, defaultTable := none, tables := [] } = .panic m := hc
    simp [hc2] at hok

/-- An error on one occurrence, after occurrences that resolved, is the
result of the whole call. -/
theorem resolveCatalogRefs_error_at (c : Catalog) (h : Helpers) (rvs : List RangeVar)
    (names : GoMap Int String) (pre post : List paramRef) (ref : paramRef)
    (a : List Parameter) (e : GoError)
    (hpre : resolveCatalogRefs c h rvs pre names = .ok a)
    (href : resolveCatalogRefs c h rvs [ref] names = .error e) :
    resolveCatalogRefs c h rvs (pre ++ ref :: post) names = .error e := by
  rw [resolveCatalogRefs_occurrence c h rvs names pre post ref a hpre, href]
  rfl

/-- The call on a single binary-expression occurrence whose left operand's
first column reference has the fields `fields`. -/
theorem resolveCatalogRefs_columnRef (c : Catalog) (h : Helpers) (rvs : List RangeVar)
    (names : GoMap Int String) (ref : paramRef) (refs : Refs)
    (nm : NodeList) (lx rx : Node) (loc cloc : Int) (fields : NodeList) (more : List Node)
    (hrefs : collectTables h rvs Refs.init = .ok refs)
    (hparent : ref.parent = .A_Expr nm lx rx loc)
    (hsearch : Search isColumnRef lx = .ColumnRef fields cloc :: more) :
    resolveCatalogRefs c h rvs [ref] names =
      resolveColumnRef names refs (buildTypeMap c refs.tables GoMap.empty) [] ref fields cloc := by
  rw [resolveCatalogRefs_single c h rvs names ref refs hrefs]
  unfold resolveRef
  rw [hparent]
  simp only [resolveAExpr, hsearch]

/-- Success on a list extended by one occurrence: the earlier occurrences
resolved, the last one resolved, and the result is the two lists appended. -/
theorem resolveCatalogRefs_snoc_ok (c : Catalog) (h : Helpers) (rvs : List RangeVar)
    (names : GoMap Int String) (pre : List paramRef) (ref : paramRef) (r : List Parameter)
    (hok : resolveCatalogRefs c h rvs (pre ++ [ref]) names = .ok r) :
    ∃ a b, resolveCatalogRefs c h rvs pre names = .ok a ∧
      resolveCatalogRefs c h rvs [ref] names = .ok b ∧ r = a ++ b := by
  rw [resolveCatalogRefs_append] at hok
  cases hp : resolveCatalogRefs c h rvs pre names with
  | error e => simp [hp, Result.bind] at hok
  | panic m => simp [hp, Result.bind] at hok
  | ok a =>
    cases hr : resolveCatalogRefs c h rvs [ref] names with
    | error e => simp [hp, hr, Result.bind, Result.map] at hok
    | panic m => simp [hp, hr, Result.bind, Result.map] at hok
    | ok b =>
      simp only [hp, hr, Result.bind, Result.map, Result.ok.injEq] at hok
      exact ⟨a, b, rfl, rfl, hok.symm⟩

/-- A column reference that resolves: exactly one parameter, for a match of
the original key in one of the tables searched. -/
theorem resolveColumnRef_ok (names : GoMap Int String) (refs : Refs) (tm : TypeMap)
    (ref : paramRef) (fields : NodeList) (cloc : Int) (key q : String) (b : List Parameter)
    (hk : keyAlias (stringSlice fields) = .ok (key, q))
    (hok : resolveColumnRef names refs tm [] ref fields cloc = .ok b) :
    ∃ t ∈ searchTables refs.aliasMap refs.tables q, ∃ col,
      tm.lookup t.Schema t.Name key = some col ∧
      b = [columnParameter names ref (if ref.name ≠ "" then ref.name else key) col t] := by
  unfold resolveColumnRef at hok
  rw [hk] at hok
  simp only [] at hok
  by_cases h0 : (searchLoop tm names ref (searchTables refs.aliasMap refs.tables q)
      { key := key, found := 0, a := [] }).found = 0
  · simp [h0] at hok
  · by_cases h1 : (searchLoop tm names ref (searchTables refs.aliasMap refs.tables q)
        { key := key, found := 0, a := [] }).found > 1
    · simp [h0, h1] at hok
    · simp only [h0, h1, if_false, Result.ok.injEq] at hok
      have hone : (searchLoop tm names ref (searchTables refs.aliasMap refs.tables q)
          { key := key, found := 0, a := [] }).found = 1 := by omega
      obtain ⟨t, ht, col, hc, ha⟩ := searchLoop_one tm names ref _ key hone
      exact ⟨t, ht, col, hc, by rw [← hok, ha]⟩

/-! ## The loop over the call arguments -/

theorem funcArgsLoop_append (names : GoMap Int String) (ref : paramRef)
    (fn : catalog.Function) (i : Nat) (xs ys : List Node) (a : List Parameter) :
    funcArgsLoop names ref fn i (xs ++ ys) a =
      (funcArgsLoop names ref fn i xs a).bind (funcArgsLoop names ref fn (i + xs.length) ys) := by
  induction xs generalizing i a with
  | nil => simp [funcArgsLoop, Result.bind]
  | cons x rest ih =>
    simp only [List.cons_append, funcArgsLoop, List.length_cons]
    have e : i + (rest.length + 1) = i + 1 + rest.length := by omega
    rw [e]
    cases hd : argDefaultName ref fn x with
    | none => simpa using ih (i + 1) a
    | some d =>
      simp only []
      cases hp : argParameter names ref fn i d with
      | error e => simp [Result.bind]
      | ok p => simpa using ih (i + 1) (a ++ [p])

/-- The only error of the loop over the call arguments is the arity error,
and the loop does not panic. -/
theorem funcArgsLoop_outcome (names : GoMap Int String) (ref : paramRef)
    (fn : catalog.Function) (i : Nat) (items : List Node) (a : List Parameter) :
    (∃ b, funcArgsLoop names ref fn i items a = .ok b) ∨
      funcArgsLoop names ref fn i items a =
        .error (.errorf ("incorrect number of arguments to " ++ fn.Name)) := by
  induction items generalizing i a with
  | nil => exact Or.inl ⟨a, rfl⟩
  | cons x rest ih =>
    simp only [funcArgsLoop]
    cases hd : argDefaultName ref fn x with
    | none => exact ih (i + 1) a
    | some d =>
      simp only []
      cases hp : argParameter names ref fn i d with
      | error e =>
        right
        simp only []
        unfold argParameter at hp
        cases hargs : fn.Args with
        | none => simp [hargs] at hp
        | some args =>
          simp only [hargs] at hp
          cases hg : args.get? i with
          | none =>
            rw [hg] at hp
            simp only [Except.error.injEq] at hp
            rw [hp]
          | some arg =>
            rw [hg] at hp
            cases hp
      | ok p => exact ih (i + 1) (a ++ [p])

/-- Against a function all of whose arguments have type "any" and that has
an argument for each remaining position, the loop succeeds, and each
parameter it appends has type "any" and is marked not-null. -/
theorem funcArgsLoop_any (names : GoMap Int String) (ref : paramRef)
    (fn : catalog.Function) (args : List catalog.Argument)
    (hargs : fn.Args = some args)
    (hany : ∀ arg ∈ args, arg.Type_ = { Schema := "", Name := "any" })
    (i : Nat) (items : List Node) (a : List Parameter)
    (hlen : i + items.length ≤ args.length) :
    ∃ b, funcArgsLoop names ref fn i items a = .ok (a ++ b) ∧
      ∀ p ∈ b, ∃ col, p.Column = some col ∧ col.DataType = "any" ∧ col.NotNull = true := by
  induction items generalizing i a with
  | nil => exact ⟨[], by simp [funcArgsLoop], by simp⟩
  | cons x rest ih =>
    simp only [List.length_cons] at hlen
    simp only [funcArgsLoop]
    cases hd : argDefaultName ref fn x with
    | none => exact ih (i + 1) a (by omega)
    | some d =>
      have hi : i < args.length := by omega
      have hg : args.get? i = some (args.get ⟨i, hi⟩) := List.get?_eq_get hi
      have hty : (args.get ⟨i, hi⟩).Type_ = { Schema := "", Name := "any" } :=
        hany _ (List.get_mem args i hi)
      obtain ⟨b, hb, hall⟩ := ih (i + 1)
        (a ++ [{ Number := ref.ref.Number
                 Column := some
                   { Name := parameterName names ref.ref.Number
                       (if (args.get ⟨i, hi⟩).Name = "" then d else (args.get ⟨i, hi⟩).Name)
                     DataType := dataType (args.get ⟨i, hi⟩).Type_
                     NotNull := true
                     IsArray := false
                     Table := none } }]) (by omega)
      refine ⟨{ Number := ref.ref.Number
                Column := some
                  { Name := parameterName names ref.ref.Number
                      (if (args.get ⟨i, hi⟩).Name = "" then d else (args.get ⟨i, hi⟩).Name)
                    DataType := dataType (args.get ⟨i, hi⟩).Type_
                    NotNull := true
                    IsArray := false
                    Table := none } } :: b, ?_, ?_⟩
      · simp only [argParameter, hargs, hg]
        rw [hb]
        simp
      · intro p hp
        rcases List.mem_cons.mp hp with e | e
        · subst e
          exact ⟨_, rfl, by rw [hty]; rfl, rfl⟩
        · exact hall p e

/-- The call on a single function-call occurrence. -/
theorem resolveCatalogRefs_funcCall (c : Catalog) (h : Helpers) (rvs : List RangeVar)
    (names : GoMap Int String) (ref : paramRef) (refs : Refs)
    (func : FuncName) (args : NodeList) (loc : Int)
    (hrefs : collectTables h rvs Refs.init = .ok refs)
    (hparent : ref.parent = .FuncCall func args loc) :
    resolveCatalogRefs c h rvs [ref] names =
      funcArgsLoop names ref (resolvedFunction c func args.toList) 0 args.toList [] := by
  rw [resolveCatalogRefs_single c h rvs names ref refs hrefs]
  unfold resolveRef
  rw [hparent]
  simp only [resolveFuncCall]

/-- A panic on one occurrence, after occurrences that resolved, is the
outcome of the whole call. -/
theorem resolveCatalogRefs_panic_at (c : Catalog) (h : Helpers) (rvs : List RangeVar)
    (names : GoMap Int String) (pre post : List paramRef) (ref : paramRef)
    (a : List Parameter) (m : String)
    (hpre : resolveCatalogRefs c h rvs pre names = .ok a)
    (href : resolveCatalogRefs c h rvs [ref] names = .panic m) :
    resolveCatalogRefs c h rvs (pre ++ ref :: post) names = .panic m := by
  rw [resolveCatalogRefs_occurrence c h rvs names pre post ref a hpre, href]
  rfl

/-- The loop over the call arguments at a position that is not skipped: the
parameters of the positions before it, then the parameter of the position,
then those of the positions after it. -/
theorem funcArgsLoop_at (names : GoMap Int String) (ref : paramRef)
    (fn : catalog.Function) (front back : List Node) (item : Node) (d : String)
    (r : List Parameter)
    (hd : argDefaultName ref fn item = some d)
    (hok : funcArgsLoop names ref fn 0 (front ++ item :: back) [] = .ok r) :
    ∃ b1 p b2, funcArgsLoop names ref fn 0 front [] = .ok b1 ∧
      argParameter names ref fn front.length d = .ok p ∧ r = b1 ++ p :: b2 := by
  rw [funcArgsLoop_append] at hok
  cases hf : funcArgsLoop names ref fn 0 front [] with
  | error e => simp [hf, Result.bind] at hok
  | panic m => simp [hf, Result.bind] at hok
  | ok b1 =>
    simp only [hf, Result.bind, Nat.zero_add, funcArgsLoop, hd] at hok
    cases hp : argParameter names ref fn front.length d with
    | error e => simp [hp] at hok
    | ok p =>
      simp only [hp] at hok
      rw [funcArgsLoop_acc] at hok
      cases hb : funcArgsLoop names ref fn (front.length + 1) back [] with
      | error e => simp [hb, Result.map] at hok
      | panic m => simp [hb, Result.map] at hok
      | ok b2 =>
        simp only [hb, Result.map, Result.ok.injEq] at hok
        exact ⟨b1, p, b2, rfl, rfl, by rw [← hok]; simp⟩

/-- Without a per-occurrence rename the loop keeps its key and counts the
tables of the list that have the column. -/
theorem searchLoop_count (tm : TypeMap) (names : GoMap Int String) (ref : paramRef)
    (l : List TableName) (k : String) (hname : ref.name = "") :
    (searchLoop tm names ref l { key := k, found := 0, a := [] }).key = k ∧
    (searchLoop tm names ref l { key := k, found := 0, a := [] }).found =
      (l.filter (fun t => (tm.lookup t.Schema t.Name k).isSome)).length := by
  induction l with
  | nil => exact ⟨rfl, rfl⟩
  | cons t rest ih =>
    simp only [searchLoop, List.filter_cons]
    cases hl : tm.lookup t.Schema t.Name k with
    | none => simpa using ih
    | some col =>
      simp only [hname, ne_eq, not_true_eq_false, if_false, Option.isSome_some, if_true,
        List.length_cons]
      rw [searchLoop_acc]
      simp only [ih.1, ih.2]
      exact ⟨trivial, by omega⟩

theorem message_ne (key : String) :
    "column \"" ++ key ++ "\" does not exist" ≠
      "column reference \"" ++ key ++ "\" is ambiguous" := by
  intro h
  have h2 := congrArg String.data h
  simp only [String.data_append] at h2
  simp at h2

/-- Without a per-occurrence rename, an unqualified reference `key` in a
binary expression yields the error `column reference "key" is ambiguous`
exactly when more than one entry of the referenced table list has the column
`key`. -/
theorem ambiguous_iff_without_rename (c : Catalog) (h : Helpers) (rvs : List RangeVar)
    (names : GoMap Int String) (ref : paramRef) (refs : Refs)
    (nm : NodeList) (lx rx : Node) (loc cloc : Int) (fields : NodeList) (more : List Node)
    (key : String)
    (hrefs : collectTables h rvs Refs.init = .ok refs)
    (hname : ref.name = "")
    (hparent : ref.parent = .A_Expr nm lx rx loc)
    (hsearch : Search isColumnRef lx = .ColumnRef fields cloc :: more)
    (hitems : stringSlice fields = [key]) :
    resolveCatalogRefs c h rvs [ref] names =
        .error (.sqlerr "42703" ("column reference \"" ++ key ++ "\" is ambiguous") cloc) ↔
      1 < ((referencedTables h rvs).filter (fun t => (columnOf c t key).isSome)).length := by
  rw [resolveCatalogRefs_columnRef c h rvs names ref refs nm lx rx loc cloc fields more
    hrefs hparent hsearch]
  have hk : keyAlias (stringSlice fields) = .ok (key, "") := by
    rw [hitems]
    rfl
  have href : referencedTables h rvs = refs.tables := by
    simp [referencedTables, hrefs]
  have hs : searchTables refs.aliasMap refs.tables "" = refs.tables := by
    simp [searchTables]
  obtain ⟨hkey, hfound⟩ := searchLoop_count (buildTypeMap c refs.tables GoMap.empty) names ref
    refs.tables key hname
  have hfilter : refs.tables.filter (fun t =>
        ((buildTypeMap c refs.tables GoMap.empty).lookup t.Schema t.Name key).isSome) =
      refs.tables.filter (fun t => (columnOf c t key).isSome) := by
    apply List.filter_congr
    intro t ht
    rw [typeMap_lookup_eq c refs.tables t key ht]
  rw [hfilter] at hfound
  unfold resolveColumnRef
  rw [hk]
  simp only [hs, hkey, hfound, href]
  by_cases h0 : (refs.tables.filter (fun t => (columnOf c t key).isSome)).length = 0
  · simp only [h0, if_true]
    constructor
    · intro he
      simp only [Result.error.injEq, GoError.sqlerr.injEq, true_and, and_true] at he
      exact absurd he (message_ne key)
    · intro hlt
      exact absurd hlt (by decide)
  · by_cases h1 : (refs.tables.filter (fun t => (columnOf c t key).isSome)).length > 1
    · simp [h0, h1]
    · simp only [h0, h1, if_false]
      constructor
      · intro he
        cases he
      · intro hlt
        exact hlt.elim

/-! ## Claims -/

/-- C1 (evaluation at the failing input). The tables `t1` and `t2` both have a
column `id`; for the unqualified `id = $1` with the per-occurrence rename
`foo` the call does not report an ambiguous reference: after the match in
`t1` the look-up key is `foo`, `t2` is not counted, and one parameter is
returned. -/
theorem C1_rename_hides_ambiguity :
    resolveCatalogRefs exCatalog exHelpers [exTable "t1", exTable "t2"]
      [exRef (exEq ["id"] 1) 1 "foo"] GoMap.empty =
      .ok [{ Number := 1
             Column := some { Name := "foo", DataType := "int4", NotNull := true,
                              IsArray := false
                              Table := some { Schema := "", Name := "t1" } } }] := by
  decide

/-- C2. A binary-expression occurrence that is reached (the occurrences
before it resolved), whose left operand's first column reference is `key` or
`q.key`, and whose column `key` is in none of the candidate tables (a table
the catalog does not return has no columns), makes the call return the error
with code 42703 and message `column "key" does not exist` at the location of
the column reference, and no parameter list. -/
theorem C2_column_does_not_exist (c : Catalog) (h : Helpers) (rvs : List RangeVar)
    (names : GoMap Int String) (pre post : List paramRef) (ref : paramRef)
    (a : List Parameter) (nm : NodeList) (lx rx : Node) (loc cloc : Int)
    (fields : NodeList) (more : List Node) (q key : String)
    (hpre : resolveCatalogRefs c h rvs pre names = .ok a)
    (hparent : ref.parent = .A_Expr nm lx rx loc)
    (hsearch : Search isColumnRef lx = .ColumnRef fields cloc :: more)
    (hitems : (stringSlice fields = [key] ∧ q = "") ∨ stringSlice fields = [q, key])
    (hnone : ∀ t ∈ candidateTables h rvs q, columnOf c t key = none) :
    resolveCatalogRefs c h rvs (pre ++ ref :: post) names =
      .error (.sqlerr "42703" ("column \"" ++ key ++ "\" does not exist") cloc) := by
  obtain ⟨refs, hrefs⟩ := resolveCatalogRefs_ok_refs c h rvs names pre a hpre
  apply resolveCatalogRefs_error_at c h rvs names pre post ref a _ hpre
  rw [resolveCatalogRefs_columnRef c h rvs names ref refs nm lx rx loc cloc fields more
    hrefs hparent hsearch]
  have hk : keyAlias (stringSlice fields) = .ok (key, q) := by
    rcases hitems with ⟨h1, h2⟩ | h1
    · rw [h1, h2]
      rfl
    · rw [h1]
      rfl
  have hcand : candidateTables h rvs q = searchTables refs.aliasMap refs.tables q := by
    simp [candidateTables, hrefs]
  have hsub : ∀ t ∈ searchTables refs.aliasMap refs.tables q, t ∈ refs.tables := by
    intro t ht
    have := candidateTables_subset h rvs q t (by rw [hcand]; exact ht)
    simpa [referencedTables, hrefs] using this
  unfold resolveColumnRef
  rw [hk]
  simp only []
  rw [searchLoop_none]
  · simp
  · intro t ht
    simp only []
    rw [typeMap_lookup_eq c refs.tables t key (hsub t ht)]
    exact hnone t (by rw [hcand]; exact ht)

/-- C2 (witness). The column `ghost` against the known table `t1`. -/
theorem C2_column_does_not_exist_witness :
    resolveCatalogRefs exCatalog exHelpers [exTable "t1"]
      ([] ++ exRef (exEq ["ghost"] 1) 1 "renamed" :: []) GoMap.empty =
      .error (.sqlerr "42703" ("column \"" ++ "ghost" ++ "\" does not exist") 7) :=
  C2_column_does_not_exist exCatalog exHelpers [exTable "t1"] GoMap.empty [] []
    (exRef (exEq ["ghost"] 1) 1 "renamed") [] (.cons (.String "=") .nil)
    (.ColumnRef (NodeList.ofList (["ghost"].map Node.String)) 7) (.ParamRef 1 12) 7 7
    (NodeList.ofList (["ghost"].map Node.String)) [] "" "ghost"
    (by decide) rfl rfl (by decide) (by decide)

/-- C3 (counterexample). With the single referenced table `t1`, which has no
alias, the reference `x.id = $1` resolves, and the owning table of its
parameter is `t1`, which is neither aliased as `x` nor named `x`. -/
theorem C3_unknown_qualifier_counterexample :
    resolveCatalogRefs exCatalog exHelpers [exTable "t1"]
        [exRef (exEq ["x", "id"] 1) 1 ""] GoMap.empty =
      .ok [{ Number := 1
             Column := some { Name := "id", DataType := "int4", NotNull := true,
                              IsArray := false
                              Table := some { Schema := "", Name := "t1" } } }] ∧
    aliasedTable exHelpers [exTable "t1"] "x" = none ∧
    (∀ t ∈ referencedTables exHelpers [exTable "t1"], t.Name ≠ "x") := by
  decide

/-- C3 (amended). A binary-expression occurrence whose first column reference
is `q.key` and on which the call succeeds emits exactly one parameter. Its
number is the ordinal; its data type is the type name of column `key` of its
owning table, with the schema and a dot in front when the type has a schema;
its not-null flag and its is-array flag are those of that column; and its
owning table is a referenced table: the table aliased as `q` when `q` is a
non-empty alias, a table named `q` when `q` is non-empty, no alias, and the
name of a referenced table; otherwise (an empty `q`, or a `q` that is
neither) any referenced table, as for an unqualified reference. -/
theorem C3_qualified_reference (c : Catalog) (h : Helpers) (rvs : List RangeVar)
    (names : GoMap Int String) (pre : List paramRef) (ref : paramRef)
    (r : List Parameter) (nm : NodeList) (lx rx : Node) (loc cloc : Int)
    (fields : NodeList) (more : List Node) (q key : String)
    (hparent : ref.parent = .A_Expr nm lx rx loc)
    (hsearch : Search isColumnRef lx = .ColumnRef fields cloc :: more)
    (hitems : stringSlice fields = [q, key])
    (hok : resolveCatalogRefs c h rvs (pre ++ [ref]) names = .ok r) :
    ∃ a t col, resolveCatalogRefs c h rvs pre names = .ok a ∧
      r = a ++ [{ Number := ref.ref.Number
                  Column := some
                    { Name := (match names ref.ref.Number with
                        | some renamed => renamed
                        | none => if ref.name ≠ "" then ref.name else key)
                      DataType := (if col.Type_.Schema ≠ "" then
                          col.Type_.Schema ++ "." ++ col.Type_.Name
                        else col.Type_.Name)
                      NotNull := col.IsNotNull
                      IsArray := col.IsArray
                      Table := some t } }] ∧
      columnOf c t key = some col ∧
      t ∈ referencedTables h rvs ∧
      (q ≠ "" → ∀ o, aliasedTable h rvs q = some o →
        t = o ∧ ∃ rv ∈ rvs, rv.Alias = some q ∧ h.parseTableName rv = .ok t) ∧
      (q ≠ "" → aliasedTable h rvs q = none →
        (∃ x ∈ referencedTables h rvs, x.Name = q) → t.Name = q) := by
  obtain ⟨a, b, hpre, hone, hr⟩ := resolveCatalogRefs_snoc_ok c h rvs names pre ref r hok
  obtain ⟨refs, hrefs⟩ := resolveCatalogRefs_ok_refs c h rvs names pre a hpre
  rw [resolveCatalogRefs_columnRef c h rvs names ref refs nm lx rx loc cloc fields more
    hrefs hparent hsearch] at hone
  have hk : keyAlias (stringSlice fields) = .ok (key, q) := by
    rw [hitems]
    rfl
  obtain ⟨t, ht, col, hc, hb⟩ := resolveColumnRef_ok names refs _ ref fields cloc key q b hk hone
  have hcand : candidateTables h rvs q = searchTables refs.aliasMap refs.tables q := by
    simp [candidateTables, hrefs]
  have href : referencedTables h rvs = refs.tables := by
    simp [referencedTables, hrefs]
  have hal : aliasedTable h rvs q = refs.aliasMap q := by
    simp [aliasedTable, hrefs]
  have htin : t ∈ refs.tables := by
    rw [← href]
    exact candidateTables_subset h rvs q t (by rw [hcand]; exact ht)
  rw [typeMap_lookup_eq c refs.tables t key htin] at hc
  have hparam : columnParameter names ref (if ref.name ≠ "" then ref.name else key) col t =
      { Number := ref.ref.Number
        Column := some
          { Name := (match names ref.ref.Number with
              | some renamed => renamed
              | none => if ref.name ≠ "" then ref.name else key)
            DataType := (if col.Type_.Schema ≠ "" then
                col.Type_.Schema ++ "." ++ col.Type_.Name
              else col.Type_.Name)
            NotNull := col.IsNotNull
            IsArray := col.IsArray
            Table := some t } } := by
    simp only [columnParameter, parameterName, dataType]
  refine ⟨a, t, col, hpre, by rw [hr, hb, hparam], hc, by rw [href]; exact htin, ?_, ?_⟩
  · intro hq o ho
    rw [hal] at ho
    have hs : searchTables refs.aliasMap refs.tables q = [o] := by
      simp [searchTables, hq, ho]
    rw [hs, List.mem_singleton] at ht
    refine ⟨ht, ?_⟩
    obtain ⟨_, _, h3⟩ := collectTables_spec h rvs _ refs hrefs
    rcases h3 q o ho with hl | ⟨_, rv, hrv, _, hra, hrp⟩
    · simp [Refs.init, GoMap.empty] at hl
    · exact ⟨rv, hrv, hra, by rw [ht]; exact hrp⟩
  · intro hq hno hex
    rw [hal] at hno
    rw [href] at hex
    have hs : searchTables refs.aliasMap refs.tables q =
        refs.tables.foldl (fun search fqn => if fqn.Name = q then [fqn] else search)
          refs.tables := by
      simp [searchTables, hq, hno]
    rw [hs] at ht
    rcases pick_named q refs.tables refs.tables with ⟨_, hn⟩ | ⟨x, _, hxq, he⟩
    · obtain ⟨x, hx, hxq⟩ := hex
      exact absurd hxq (hn x hx)
    · rw [he, List.mem_singleton] at ht
      rw [ht]
      exact hxq

/-- C3 (witness). The reference `u.tags = $1` with `t4` aliased as `u` and `t2`
not aliased: the column `t4.tags` has the type `pg_catalog.text`, is
nullable and is an array. -/
theorem C3_qualified_reference_witness :
    ∃ a t col,
      resolveCatalogRefs exCatalog exHelpers
        [{ Schemaname := none, Relname := some "t4", Alias := some "u" }, exTable "t2"]
        [] GoMap.empty = .ok a ∧
      [({ Number := 1
          Column := some { Name := "tags", DataType := "pg_catalog.text", NotNull := false,
                           IsArray := true
                           Table := some { Schema := "", Name := "t4" } } } : Parameter)] =
        a ++ [{ Number := (exRef (exEq ["u", "tags"] 1) 1 "").ref.Number
                Column := some
                  { Name := (match (GoMap.empty : GoMap Int String)
                        (exRef (exEq ["u", "tags"] 1) 1 "").ref.Number with
                      | some renamed => renamed
                      | none => if (exRef (exEq ["u", "tags"] 1) 1 "").name ≠ "" then
                          (exRef (exEq ["u", "tags"] 1) 1 "").name else "tags")
                    DataType := (if col.Type_.Schema ≠ "" then
                        col.Type_.Schema ++ "." ++ col.Type_.Name
                      else col.Type_.Name)
                    NotNull := col.IsNotNull
                    IsArray := col.IsArray
                    Table := some t } }] ∧
      columnOf exCatalog t "tags" = some col ∧
      t ∈ referencedTables exHelpers
        [{ Schemaname := none, Relname := some "t4", Alias := some "u" }, exTable "t2"] ∧
      ("u" ≠ "" → ∀ o, aliasedTable exHelpers
          [{ Schemaname := none, Relname := some "t4", Alias := some "u" }, exTable "t2"]
          "u" = some o →
        t = o ∧ ∃ rv ∈ [({ Schemaname := none, Relname := some "t4", Alias := some "u" } :
            RangeVar), exTable "t2"],
          rv.Alias = some "u" ∧ exHelpers.parseTableName rv = .ok t) ∧
      ("u" ≠ "" → aliasedTable exHelpers
          [{ Schemaname := none, Relname := some "t4", Alias := some "u" }, exTable "t2"]
          "u" = none →
        (∃ x ∈ referencedTables exHelpers
          [{ Schemaname := none, Relname := some "t4", Alias := some "u" }, exTable "t2"],
          x.Name = "u") → t.Name = "u") :=
  C3_qualified_reference exCatalog exHelpers
    [{ Schemaname := none, Relname := some "t4", Alias := some "u" }, exTable "t2"]
    GoMap.empty [] (exRef (exEq ["u", "tags"] 1) 1 "") _ (.cons (.String "=") .nil)
    (.ColumnRef (NodeList.ofList (["u", "tags"].map Node.String)) 7) (.ParamRef 1 12) 7 7
    (NodeList.ofList (["u", "tags"].map Node.String)) [] "u" "tags"
    rfl rfl (by decide) (by decide)

/-- C4 (counterexample). For `id = $1` with the per-occurrence rename `y` and
the rename map entry `1 ↦ x`, the parameter is named `x`: the rename map
wins over the per-occurrence rename. -/
theorem C4_rename_map_wins_counterexample :
    resolveCatalogRefs exCatalog exHelpers [exTable "t1"]
        [exRef (exEq ["id"] 1) 1 "y"] (exNames 1 "x") =
      .ok [{ Number := 1
             Column := some { Name := "x", DataType := "int4", NotNull := true,
                              IsArray := false
                              Table := some { Schema := "", Name := "t1" } } }] ∧
    "x" ≠ "y" := by
  decide

/-- C4 (amended). A binary-expression occurrence with ordinal `n` whose first
column reference is `key` or `q.key` and on which the call succeeds emits
exactly one parameter, numbered `n`, whose name is the rename map's entry
for `n` when there is one; otherwise the per-occurrence rename when it is
non-empty; otherwise the column name `key`. -/
theorem C4_parameter_name (c : Catalog) (h : Helpers) (rvs : List RangeVar)
    (names : GoMap Int String) (pre : List paramRef) (ref : paramRef)
    (r : List Parameter) (nm : NodeList) (lx rx : Node) (loc cloc : Int)
    (fields : NodeList) (more : List Node) (q key : String)
    (hparent : ref.parent = .A_Expr nm lx rx loc)
    (hsearch : Search isColumnRef lx = .ColumnRef fields cloc :: more)
    (hitems : stringSlice fields = [key] ∨ stringSlice fields = [q, key])
    (hok : resolveCatalogRefs c h rvs (pre ++ [ref]) names = .ok r) :
    ∃ a p col, resolveCatalogRefs c h rvs pre names = .ok a ∧ r = a ++ [p] ∧
      p.Number = ref.ref.Number ∧ p.Column = some col ∧
      col.Name = (match names ref.ref.Number with
        | some renamed => renamed
        | none => if ref.name ≠ "" then ref.name else key) := by
  obtain ⟨a, b, hpre, hone, hr⟩ := resolveCatalogRefs_snoc_ok c h rvs names pre ref r hok
  obtain ⟨refs, hrefs⟩ := resolveCatalogRefs_ok_refs c h rvs names pre a hpre
  rw [resolveCatalogRefs_columnRef c h rvs names ref refs nm lx rx loc cloc fields more
    hrefs hparent hsearch] at hone
  have hk : ∃ q2, keyAlias (stringSlice fields) = .ok (key, q2) := by
    rcases hitems with h1 | h1
    · exact ⟨"", by rw [h1]; rfl⟩
    · exact ⟨q, by rw [h1]; rfl⟩
  obtain ⟨q2, hk⟩ := hk
  obtain ⟨t, _, col, _, hb⟩ := resolveColumnRef_ok names refs _ ref fields cloc key q2 b hk hone
  refine ⟨a, _, _, hpre, by rw [hr, hb], rfl, rfl, ?_⟩
  simp only [parameterName]

/-- C4 (witness). The reference `id = $1` with the per-occurrence rename `y`
and no rename map entry. -/
theorem C4_parameter_name_witness :
    ∃ a p col, resolveCatalogRefs exCatalog exHelpers [exTable "t1"] [] GoMap.empty = .ok a ∧
      [({ Number := 1
          Column := some { Name := "y", DataType := "int4", NotNull := true,
                           IsArray := false
                           Table := some { Schema := "", Name := "t1" } } } : Parameter)] =
        a ++ [p] ∧
      p.Number = (exRef (exEq ["id"] 1) 1 "y").ref.Number ∧ p.Column = some col ∧
      col.Name = (match (GoMap.empty : GoMap Int String) (exRef (exEq ["id"] 1) 1 "y").ref.Number with
        | some renamed => renamed
        | none => if (exRef (exEq ["id"] 1) 1 "y").name ≠ "" then
            (exRef (exEq ["id"] 1) 1 "y").name else "id") :=
  C4_parameter_name exCatalog exHelpers [exTable "t1"] GoMap.empty []
    (exRef (exEq ["id"] 1) 1 "y") _ (.cons (.String "=") .nil)
    (.ColumnRef (NodeList.ofList (["id"].map Node.String)) 7) (.ParamRef 1 12) 7 7
    (NodeList.ofList (["id"].map Node.String)) [] "" "id"
    rfl rfl (Or.inl (by decide)) (by decide)

/-- C5. A function-call occurrence that is reached and whose function (name,
argument count) the catalog does not know does not fail: the function it is
resolved against has exactly as many arguments as the call (a nil slice,
with no argument, only for a call without arguments), each of them of type
"any", so no position is beyond them; the occurrence resolves, and every
parameter emitted for it has data type "any". -/
theorem C5_unknown_function (c : Catalog) (h : Helpers) (rvs : List RangeVar)
    (names : GoMap Int String) (pre : List paramRef) (ref : paramRef)
    (a : List Parameter) (func : FuncName) (args : NodeList) (loc : Int) (e : GoError)
    (hpre : resolveCatalogRefs c h rvs pre names = .ok a)
    (hparent : ref.parent = .FuncCall func args loc)
    (hunknown : c.GetFuncN func args.toList.length = .error e) :
    (match (resolvedFunction c func args.toList).Args with
      | some fargs => fargs.length
      | none => 0) = args.toList.length ∧
    (args.toList ≠ [] → ∃ fargs, (resolvedFunction c func args.toList).Args = some fargs ∧
      fargs.length = args.toList.length ∧
      ∀ arg ∈ fargs, arg.Type_ = { Schema := "", Name := "any" }) ∧
    ∃ b, resolveCatalogRefs c h rvs (pre ++ [ref]) names = .ok (a ++ b) ∧
      ∀ p ∈ b, ∃ col, p.Column = some col ∧ col.DataType = "any" := by
  obtain ⟨refs, hrefs⟩ := resolveCatalogRefs_ok_refs c h rvs names pre a hpre
  have hfn : resolvedFunction c func args.toList = fallbackFunction func args.toList := by
    unfold resolvedFunction
    rw [hunknown]
  have hsingle := resolveCatalogRefs_funcCall c h rvs names ref refs func args loc hrefs hparent
  rw [hfn] at hsingle ⊢
  rw [resolveCatalogRefs_append, hpre, hsingle]
  simp only [Result.bind]
  cases hitems : args.toList with
  | nil =>
    refine ⟨by simp [fallbackFunction], by simp, [], ?_, by simp⟩
    simp [funcArgsLoop, Result.map]
  | cons x rest =>
    refine ⟨by simp [fallbackFunction], ?_, ?_⟩
    · intro _
      exact ⟨(x :: rest).map (fun _ => { Name := "", Type_ := { Schema := "", Name := "any" } }),
        rfl, by simp, by simp⟩
    · obtain ⟨b, hb, hall⟩ := funcArgsLoop_any names ref (fallbackFunction func (x :: rest))
        ((x :: rest).map (fun _ => { Name := "", Type_ := { Schema := "", Name := "any" } }))
        rfl (by simp) 0 (x :: rest) [] (by simp)
      refine ⟨b, ?_, ?_⟩
      · rw [hb]
        simp [Result.map]
      · intro p hp
        obtain ⟨col, h1, h2, _⟩ := hall p hp
        exact ⟨col, h1, h2⟩

/-- C5 (witness). The call `unknown_fn ($1, 7)`: the function it is resolved
against has two arguments. -/
theorem C5_unknown_function_witness :
    (match (resolvedFunction exCatalog { Schema := "", Name := "unknown_fn" }
        (NodeList.ofList [Node.ParamRef 1 12, .A_Const (.String "7") 15]).toList).Args with
      | some fargs => fargs.length
      | none => 0) =
      (NodeList.ofList [Node.ParamRef 1 12, .A_Const (.String "7") 15]).toList.length ∧
    ((NodeList.ofList [Node.ParamRef 1 12, .A_Const (.String "7") 15]).toList ≠ [] →
      ∃ fargs, (resolvedFunction exCatalog { Schema := "", Name := "unknown_fn" }
          (NodeList.ofList [Node.ParamRef 1 12, .A_Const (.String "7") 15]).toList).Args =
            some fargs ∧
        fargs.length =
          (NodeList.ofList [Node.ParamRef 1 12, .A_Const (.String "7") 15]).toList.length ∧
        ∀ arg ∈ fargs, arg.Type_ = { Schema := "", Name := "any" }) ∧
    ∃ b, resolveCatalogRefs exCatalog exHelpers []
        ([] ++ [exRef (exCall "unknown_fn" [.ParamRef 1 12, .A_Const (.String "7") 15]) 1 ""])
        GoMap.empty = .ok ([] ++ b) ∧
      ∀ p ∈ b, ∃ col, p.Column = some col ∧ col.DataType = "any" :=
  C5_unknown_function exCatalog exHelpers [] GoMap.empty []
    (exRef (exCall "unknown_fn" [.ParamRef 1 12, .A_Const (.String "7") 15]) 1 "") []
    { Schema := "", Name := "unknown_fn" }
    (NodeList.ofList [Node.ParamRef 1 12, .A_Const (.String "7") 15]) 3
    (.external "function does not exist") (by decide) rfl rfl

/-- C6 (evaluation at the failing input). For the call `unknown_fn ($1)` of a
function the catalog does not know, the parameter has type "any" and is
marked not-null: the synthesized function has a non-nil argument slice, so
the branch for a nil slice (lines 209-218), which leaves the flag unset, is
not taken. -/
theorem C6_fallback_marked_not_null :
    resolveCatalogRefs exCatalog exHelpers []
      [exRef (exCall "unknown_fn" [.ParamRef 1 12]) 1 ""] GoMap.empty =
      .ok [{ Number := 1
             Column := some { Name := "unknown_fn", DataType := "any", NotNull := true,
                              IsArray := false, Table := none } }] := by
  decide

/-- C7 (evaluation at the failing input). For the occurrence of `$1` in the
call `f (7, $1)` two parameters are emitted: the constant at position 0 is
not skipped (the switch on the argument has no default case) and yields a
parameter numbered 1 typed from the first argument of `f`. -/
theorem C7_constant_position_not_skipped :
    resolveCatalogRefs exCatalog exHelpers []
      [exRef (exCall "f" [.A_Const (.String "7") 5, .ParamRef 1 12]) 1 ""] GoMap.empty =
      .ok [{ Number := 1
             Column := some { Name := "a", DataType := "int4", NotNull := true,
                              IsArray := false, Table := none } },
           { Number := 1
             Column := some { Name := "f", DataType := "text", NotNull := true,
                              IsArray := false, Table := none } }] := by
  decide

/-- C8 (counterexample). For the call `q (L => $1)` of the catalog function
`q (x int4)`, with no rename map entry, the parameter is named `x`, not `L`:
the catalog argument's name wins over the label of the named-argument
wrapper. -/
theorem C8_catalog_name_wins_counterexample :
    exCatalog.GetFuncN { Schema := "", Name := "q" } 1 =
      .ok { Name := "q"
            Args := some [{ Name := "x", Type_ := { Schema := "", Name := "int4" } }]
            ReturnType := { Schema := "", Name := "bool" } } ∧
    resolveCatalogRefs exCatalog exHelpers []
        [exRef (exCall "q" [.NamedArgExpr (some "L") (.ParamRef 1 12) 10]) 1 ""] GoMap.empty =
      .ok [{ Number := 1
             Column := some { Name := "x", DataType := "int4", NotNull := true,
                              IsArray := false, Table := none } }] ∧
    "x" ≠ "L" :=
  ⟨rfl, by decide, by decide⟩

/-- C8 (amended). For a function-call occurrence resolved against a catalog
function and on which the call succeeds, the parameter emitted for a position
that holds the occurrence's placeholder, bare or wrapped in a named argument,
is named by the precedence: rename-map entry for the ordinal, then the
catalog argument's name when the function has an argument at that position
and its name is not empty, then the label of the named-argument wrapper when
it has one, then the function's name. In the result it follows the
parameters of the earlier positions. -/
theorem C8_argument_name (c : Catalog) (h : Helpers) (rvs : List RangeVar)
    (names : GoMap Int String) (pre : List paramRef) (ref : paramRef)
    (r : List Parameter) (func : FuncName) (args : NodeList) (loc l1 l2 : Int)
    (fn : catalog.Function) (front back : List Node) (item : Node) (label : Option String)
    (hparent : ref.parent = .FuncCall func args loc)
    (hfound : c.GetFuncN func args.toList.length = .ok fn)
    (hargs : args.toList = front ++ item :: back)
    (hitem : (item = .ParamRef ref.ref.Number l1 ∧ label = none) ∨
      item = .NamedArgExpr label (.ParamRef ref.ref.Number l1) l2)
    (hok : resolveCatalogRefs c h rvs (pre ++ [ref]) names = .ok r) :
    ∃ a b1 p b2 col, resolveCatalogRefs c h rvs pre names = .ok a ∧
      funcArgsLoop names ref fn 0 front [] = .ok b1 ∧
      r = a ++ (b1 ++ p :: b2) ∧ p.Number = ref.ref.Number ∧ p.Column = some col ∧
      col.Name = (match names ref.ref.Number with
        | some renamed => renamed
        | none =>
          match fn.Args.bind (fun fargs => fargs.get? front.length) with
          | some arg => if arg.Name ≠ "" then arg.Name else label.getD fn.Name
          | none => label.getD fn.Name) := by
  obtain ⟨a, b, hpre, hone, hr⟩ := resolveCatalogRefs_snoc_ok c h rvs names pre ref r hok
  obtain ⟨refs, hrefs⟩ := resolveCatalogRefs_ok_refs c h rvs names pre a hpre
  rw [resolveCatalogRefs_funcCall c h rvs names ref refs func args loc hrefs hparent] at hone
  have hfn : resolvedFunction c func args.toList = fn := by
    simp [resolvedFunction, hfound]
  rw [hfn, hargs] at hone
  have hd : argDefaultName ref fn item = some (label.getD fn.Name) := by
    rcases hitem with ⟨h1, h2⟩ | h1
    · rw [h1, h2]
      simp [argDefaultName]
    · rw [h1]
      cases label <;> simp [argDefaultName]
  obtain ⟨b1, p, b2, hb1, hp, hb⟩ := funcArgsLoop_at names ref fn front back item _ b hd hone
  unfold argParameter at hp
  cases hfa : fn.Args with
  | none =>
    simp only [hfa, Except.ok.injEq] at hp
    refine ⟨a, b1, p, b2, _, hpre, hb1, by rw [hr, hb], by rw [← hp], by rw [← hp], ?_⟩
    simp only [parameterName, Option.bind]
  | some fargs =>
    simp only [hfa] at hp
    cases hg : fargs.get? front.length with
    | none =>
      rw [hg] at hp
      cases hp
    | some arg =>
      rw [hg] at hp
      simp only [Except.ok.injEq] at hp
      refine ⟨a, b1, p, b2, _, hpre, hb1, by rw [hr, hb], by rw [← hp], by rw [← hp], ?_⟩
      simp only [parameterName, Option.bind, hg]
      by_cases hn : arg.Name = "" <;> simp [hn]

/-- C8 (witness). The call `f (7, L => $1)`: the second argument of `f` has
no name. -/
theorem C8_argument_name_witness :
    ∃ a b1 p b2 col, resolveCatalogRefs exCatalog exHelpers [] [] GoMap.empty = .ok a ∧
      funcArgsLoop GoMap.empty
        (exRef (exCall "f" [.A_Const (.String "7") 5, .NamedArgExpr (some "L") (.ParamRef 1 12) 10])
          1 "")
        { Name := "f"
          Args := some [{ Name := "a", Type_ := { Schema := "", Name := "int4" } },
                        { Name := "", Type_ := { Schema := "", Name := "text" } }]
          ReturnType := { Schema := "", Name := "bool" } } 0 [.A_Const (.String "7") 5] [] =
        .ok b1 ∧
      [({ Number := 1
          Column := some { Name := "a", DataType := "int4", NotNull := true,
                           IsArray := false, Table := none } } : Parameter),
       { Number := 1
         Column := some { Name := "L", DataType := "text", NotNull := true,
                          IsArray := false, Table := none } }] = a ++ (b1 ++ p :: b2) ∧
      p.Number = (1 : Int) ∧ p.Column = some col ∧
      col.Name = (match (GoMap.empty : GoMap Int String) (1 : Int) with
        | some renamed => renamed
        | none =>
          match (some [({ Name := "a", Type_ := { Schema := "", Name := "int4" } } :
                    catalog.Argument),
                  { Name := "", Type_ := { Schema := "", Name := "text" } }]).bind
              (fun fargs => fargs.get? [Node.A_Const (.String "7") 5].length) with
          | some arg => if arg.Name ≠ "" then arg.Name else (some "L").getD "f"
          | none => (some "L").getD "f") :=
  C8_argument_name exCatalog exHelpers [] GoMap.empty []
    (exRef (exCall "f" [.A_Const (.String "7") 5, .NamedArgExpr (some "L") (.ParamRef 1 12) 10])
      1 "") _
    { Schema := "", Name := "f" }
    (NodeList.ofList [.A_Const (.String "7") 5, .NamedArgExpr (some "L") (.ParamRef 1 12) 10])
    3 12 10 _ [.A_Const (.String "7") 5] [] _ (some "L")
    rfl rfl rfl (Or.inr rfl) (by decide)

/-- The loop over the call arguments succeeds when the function has an
argument for each remaining position. -/
theorem funcArgsLoop_in_range (names : GoMap Int String) (ref : paramRef)
    (fn : catalog.Function) (fargs : List catalog.Argument) (hargs : fn.Args = some fargs)
    (i : Nat) (items : List Node) (a : List Parameter)
    (hlen : i + items.length ≤ fargs.length) :
    ∃ b, funcArgsLoop names ref fn i items a = .ok b := by
  induction items generalizing i a with
  | nil => exact ⟨a, rfl⟩
  | cons x rest ih =>
    simp only [List.length_cons] at hlen
    simp only [funcArgsLoop]
    cases hd : argDefaultName ref fn x with
    | none => exact ih (i + 1) a (by omega)
    | some d =>
      have hi : i < fargs.length := by omega
      have hg : fargs.get? i = some (fargs.get ⟨i, hi⟩) := List.get?_eq_get hi
      simp only [argParameter, hargs, hg]
      exact ih (i + 1) _ (by omega)

/-- With a catalog that finds a function under its number of arguments, a
function-call occurrence that is reached never fails: no position of the
call is at or beyond the number of arguments of the function it is resolved
against, so the arity error `incorrect number of arguments` is not raised. -/
theorem arity_error_unreachable (c : Catalog) (h : Helpers) (rvs : List RangeVar)
    (names : GoMap Int String) (pre : List paramRef) (ref : paramRef)
    (a : List Parameter) (func : FuncName) (args : NodeList) (loc : Int)
    (hexact : c.arityExact)
    (hpre : resolveCatalogRefs c h rvs pre names = .ok a)
    (hparent : ref.parent = .FuncCall func args loc) :
    ∃ b, resolveCatalogRefs c h rvs (pre ++ [ref]) names = .ok (a ++ b) := by
  obtain ⟨refs, hrefs⟩ := resolveCatalogRefs_ok_refs c h rvs names pre a hpre
  have hsingle := resolveCatalogRefs_funcCall c h rvs names ref refs func args loc hrefs hparent
  have hloop : ∃ b, funcArgsLoop names ref (resolvedFunction c func args.toList) 0
      args.toList [] = .ok b := by
    cases hitems : args.toList with
    | nil => exact ⟨[], rfl⟩
    | cons x rest =>
      cases hg : c.GetFuncN func (x :: rest).length with
      | ok fn =>
        have hfn : resolvedFunction c func (x :: rest) = fn := by
          unfold resolvedFunction
          rw [hg]
        have hn := hexact func (x :: rest).length fn hg
        rw [hfn]
        cases hfa : fn.Args with
        | none => simp [hfa] at hn
        | some fargs =>
          simp only [hfa] at hn
          exact funcArgsLoop_in_range names ref fn fargs hfa 0 (x :: rest) [] (by omega)
      | error e =>
        have hfn : resolvedFunction c func (x :: rest) = fallbackFunction func (x :: rest) := by
          unfold resolvedFunction
          rw [hg]
        rw [hfn]
        exact funcArgsLoop_in_range names ref _
          ((x :: rest).map (fun _ => { Name := "", Type_ := { Schema := "", Name := "any" } }))
          rfl 0 (x :: rest) [] (by simp)
  obtain ⟨b, hb⟩ := hloop
  refine ⟨b, ?_⟩
  rw [resolveCatalogRefs_append, hpre, hsingle, hb]
  rfl

/-- The example catalog finds a function under its number of arguments. -/
theorem exCatalog_arityExact : exCatalog.arityExact := by
  intro fn n f hf
  simp only [exCatalog] at hf
  by_cases h1 : fn.Name = "f" ∧ n = 2
  · simp only [h1, and_self, if_true, Except.ok.injEq] at hf
    rw [← hf]
    simp [h1.2]
  · simp only [h1, if_false] at hf
    by_cases h2 : fn.Name = "q" ∧ n = 1
    · simp only [h2, and_self, if_true, Except.ok.injEq] at hf
      rw [← hf]
      simp [h2.2]
    · simp [h2] at hf

/-- C10 (counterexample). For `a.b.c = $1` the call does not return an error
value: it panics. -/
theorem C10_panic_counterexample :
    resolveCatalogRefs exCatalog exHelpers [exTable "t1"]
      [exRef (exEq ["a", "b", "c"] 1) 1 ""] GoMap.empty =
      .panic "too many field items: 3" := by
  decide

/-- C10 (amended). A binary-expression occurrence that is reached and whose
first column reference has more than two name components makes the call
panic with the message `too many field items: ` followed by the number of
components; neither a parameter list nor an error value is returned. -/
theorem C10_too_many_items_panics (c : Catalog) (h : Helpers) (rvs : List RangeVar)
    (names : GoMap Int String) (pre post : List paramRef) (ref : paramRef)
    (a : List Parameter) (nm : NodeList) (lx rx : Node) (loc cloc : Int)
    (fields : NodeList) (more : List Node)
    (hpre : resolveCatalogRefs c h rvs pre names = .ok a)
    (hparent : ref.parent = .A_Expr nm lx rx loc)
    (hsearch : Search isColumnRef lx = .ColumnRef fields cloc :: more)
    (hmany : 2 < (stringSlice fields).length) :
    resolveCatalogRefs c h rvs (pre ++ ref :: post) names =
      .panic ("too many field items: " ++ toString (stringSlice fields).length) := by
  obtain ⟨refs, hrefs⟩ := resolveCatalogRefs_ok_refs c h rvs names pre a hpre
  apply resolveCatalogRefs_panic_at c h rvs names pre post ref a _ hpre
  rw [resolveCatalogRefs_columnRef c h rvs names ref refs nm lx rx loc cloc fields more
    hrefs hparent hsearch]
  unfold resolveColumnRef
  have hk : keyAlias (stringSlice fields) =
      .panic ("too many field items: " ++ toString (stringSlice fields).length) := by
    cases hs : stringSlice fields with
    | nil => simp [hs] at hmany
    | cons x xs =>
      cases xs with
      | nil => simp [hs] at hmany
      | cons y ys =>
        cases ys with
        | nil => simp [hs] at hmany
        | cons z zs => rfl
  rw [hk]

/-- C10 (witness). The reference `a.b.c.d = $1`. -/
theorem C10_too_many_items_panics_witness :
    resolveCatalogRefs exCatalog exHelpers [exTable "t1"]
      ([] ++ exRef (exEq ["a", "b", "c", "d"] 1) 1 "" :: []) GoMap.empty =
      .panic ("too many field items: " ++
        toString (stringSlice (NodeList.ofList (["a", "b", "c", "d"].map Node.String))).length) :=
  C10_too_many_items_panics exCatalog exHelpers [exTable "t1"] GoMap.empty [] []
    (exRef (exEq ["a", "b", "c", "d"] 1) 1 "") [] (.cons (.String "=") .nil)
    (.ColumnRef (NodeList.ofList (["a", "b", "c", "d"].map Node.String)) 7) (.ParamRef 1 12) 7 7
    (NodeList.ofList (["a", "b", "c", "d"].map Node.String)) []
    (by decide) rfl rfl (by decide)

/-! ## Result targets, limits, and the shape of the result -/

/-- The default table is the table of the first range variable that has a
relation name. -/
theorem collectTables_default (h : Helpers) (rvs : List RangeVar) (st refs : Refs)
    (hc : collectTables h rvs st = .ok refs) :
    refs.defaultTable = (match st.defaultTable with
      | some d => some d
      | none => (refs.tables.drop st.tables.length).head?) ∧
    st.tables.length ≤ refs.tables.length ∧
    refs.tables.take st.tables.length = st.tables := by
  induction rvs generalizing st with
  | nil =>
    simp only [collectTables, Result.ok.injEq] at hc
    subst hc
    cases st.defaultTable <;> simp
  | cons rv rest ih =>
    simp only [collectTables] at hc
    cases hrel : rv.Relname with
    | none =>
      simp only [hrel] at hc
      exact ih st hc
    | some rel =>
      simp only [hrel] at hc
      cases hp : h.parseTableName rv with
      | error e => simp [hp] at hc
      | ok fqn =>
        simp only [hp] at hc
        have key : ∀ (am : GoMap String TableName),
            collectTables h rest
              { aliasMap := am
                defaultTable := match st.defaultTable with
                  | none => some fqn
                  | some d => some d
                tables := st.tables ++ [fqn] } = .ok refs →
            refs.defaultTable = (match st.defaultTable with
              | some d => some d
              | none => (refs.tables.drop st.tables.length).head?) ∧
            st.tables.length ≤ refs.tables.length ∧
            refs.tables.take st.tables.length = st.tables := by
          intro am hcc
          obtain ⟨h1, h2, h3⟩ := ih _ hcc
          simp only [List.length_append, List.length_singleton] at h1 h2 h3
          have h4 : refs.tables.take st.tables.length = st.tables := by
            have := congrArg (List.take st.tables.length) h3
            simpa [List.take_take] using this
          have h5 : (refs.tables.drop st.tables.length).head? = some fqn := by
            have e1 : refs.tables.take (st.tables.length + 1) =
                refs.tables.take st.tables.length ++
                  (refs.tables.drop st.tables.length).take 1 := by
              rw [List.take_add]
            rw [h3, h4] at e1
            have e2 := List.append_cancel_left e1
            cases hd : refs.tables.drop st.tables.length with
            | nil => simp [hd] at e2
            | cons y ys =>
              simp only [hd, List.take_succ_cons, List.take_zero, List.cons.injEq,
                and_true] at e2
              simp [e2]
          refine ⟨?_, by omega, h4⟩
          cases hdt : st.defaultTable with
          | none =>
            simp only [hdt] at h1
            rw [h1, h5]
          | some d =>
            simp only [hdt] at h1
            exact h1
        cases hal : rv.Alias with
        | none =>
          simp only [hal] at hc
          exact key _ hc
        | some al =>
          simp only [hal] at hc
          exact key _ hc

/-- The default table is the first referenced table. -/
theorem defaultTableOf_eq_head (h : Helpers) (rvs : List RangeVar) :
    defaultTableOf h rvs = (referencedTables h rvs).head? := by
  unfold defaultTableOf referencedTables
  cases hc : collectTables h rvs Refs.init with
  | error e => rfl
  | panic m => rfl
  | ok refs =>
    obtain ⟨h1, _, _⟩ := collectTables_default h rvs _ refs hc
    simpa [Refs.init] using h1

mutual
/-- Every node a search returns passes the test of the search. -/
theorem Search_all (f : Node → Bool) : ∀ (n x : Node), x ∈ Search f n → f x = true
  | .nil, x, hx => by simp [Search] at hx
  | .String s, x, hx => by
    simp only [Search] at hx
    split at hx <;> simp_all
  | .A_Const v l, x, hx => by
    simp only [Search, List.mem_append] at hx
    rcases hx with hx | hx
    · split at hx <;> simp_all
    · exact Search_all f v x hx
  | .ColumnRef fs l, x, hx => by
    simp only [Search, List.mem_append] at hx
    rcases hx with hx | hx
    · split at hx <;> simp_all
    · exact SearchList_all f fs x hx
  | .ParamRef n l, x, hx => by
    simp only [Search] at hx
    split at hx <;> simp_all
  | .NamedArgExpr nm a l, x, hx => by
    simp only [Search, List.mem_append] at hx
    rcases hx with hx | hx
    · split at hx <;> simp_all
    · exact Search_all f a x hx
  | .A_Expr nm lx rx l, x, hx => by
    simp only [Search, List.mem_append] at hx
    rcases hx with ((hx | hx) | hx) | hx
    · split at hx <;> simp_all
    · exact SearchList_all f nm x hx
    · exact Search_all f lx x hx
    · exact Search_all f rx x hx
  | .FuncCall fn as l, x, hx => by
    simp only [Search, List.mem_append] at hx
    rcases hx with hx | hx
    · split at hx <;> simp_all
    · exact SearchList_all f as x hx
  | .TypeCast a t l, x, hx => by
    simp only [Search, List.mem_append] at hx
    rcases hx with hx | hx
    · split at hx <;> simp_all
    · exact Search_all f a x hx
  | .ResTarget nm v l, x, hx => by
    simp only [Search, List.mem_append] at hx
    rcases hx with hx | hx
    · split at hx <;> simp_all
    · exact Search_all f v x hx
  | .List is, x, hx => by
    simp only [Search, List.mem_append] at hx
    rcases hx with hx | hx
    · split at hx <;> simp_all
    · exact SearchList_all f is x hx
  | .limitOffset, x, hx => by
    simp only [Search] at hx
    split at hx <;> simp_all
  | .limitCount, x, hx => by
    simp only [Search] at hx
    split at hx <;> simp_all
  | .other k cs, x, hx => by
    simp only [Search, List.mem_append] at hx
    rcases hx with hx | hx
    · split at hx <;> simp_all
    · exact SearchList_all f cs x hx
/-- Every node a search over a list returns passes the test of the search. -/
theorem SearchList_all (f : Node → Bool) : ∀ (l : NodeList) (x : Node),
    x ∈ SearchList f l → f x = true
  | .nil, x, hx => by simp [SearchList] at hx
  | .cons hd tl, x, hx => by
    simp only [SearchList, List.mem_append] at hx
    rcases hx with hx | hx
    · exact Search_all f hd x hx
    · exact SearchList_all f tl x hx
end

/-- The three-level look-up for any table: the catalog's column when the
table is a referenced table, nothing otherwise. -/
theorem typeMap_lookup_any (c : Catalog) (tables : List TableName) (t : TableName)
    (k : String) :
    (buildTypeMap c tables GoMap.empty).lookup t.Schema t.Name k =
      if t ∈ tables then columnOf c t k else none := by
  by_cases ht : t ∈ tables
  · simp only [ht, if_true]
    exact typeMap_lookup_eq c tables t k ht
  · simp only [ht, if_false]
    rw [buildTypeMap_lookup]
    have et : ({ Schema := t.Schema, Name := t.Name } : TableName) = t := rfl
    rw [et]
    cases c.GetTable t <;> simp [ht, TypeMap.lookup, GoMap.empty]

/-- The call on a single result-target occurrence. -/
theorem resolveCatalogRefs_resTarget (c : Catalog) (h : Helpers) (rvs : List RangeVar)
    (names : GoMap Int String) (ref : paramRef) (refs : Refs)
    (name : Option String) (v : Node) (loc : Int)
    (hrefs : collectTables h rvs Refs.init = .ok refs)
    (hparent : ref.parent = .ResTarget name v loc) :
    resolveCatalogRefs c h rvs [ref] names =
      resolveResTarget h names refs (buildTypeMap c refs.tables GoMap.empty) [] ref name loc := by
  rw [resolveCatalogRefs_single c h rvs names ref refs hrefs]
  unfold resolveRef
  rw [hparent]

/-- Success on one occurrence, after occurrences that resolved to `a`. -/
theorem resolveCatalogRefs_ok_at (c : Catalog) (h : Helpers) (rvs : List RangeVar)
    (names : GoMap Int String) (pre : List paramRef) (ref : paramRef)
    (a b : List Parameter)
    (hpre : resolveCatalogRefs c h rvs pre names = .ok a)
    (href : resolveCatalogRefs c h rvs [ref] names = .ok b) :
    resolveCatalogRefs c h rvs (pre ++ [ref]) names = .ok (a ++ b) := by
  rw [resolveCatalogRefs_append, hpre, href]
  rfl

/-- When a default table exists, a result target named `k` is looked up in
the table `T` of its range variable, or in the default table when it has
none: one parameter from column `k` of `T` when `T` is a referenced table
whose column `k` the catalog returns, the error `column "k" does not exist`
otherwise. -/
theorem resTarget_with_default_table (c : Catalog) (h : Helpers) (rvs : List RangeVar)
    (names : GoMap Int String) (pre post : List paramRef) (ref : paramRef)
    (a : List Parameter) (k : String) (v : Node) (loc : Int) (dt T : TableName)
    (hpre : resolveCatalogRefs c h rvs pre names = .ok a)
    (hparent : ref.parent = .ResTarget (some k) v loc)
    (hdefault : defaultTableOf h rvs = some dt)
    (hT : (ref.rv = none ∧ T = dt) ∨ ∃ rv, ref.rv = some rv ∧ h.parseTableName rv = .ok T) :
    (∀ col, T ∈ referencedTables h rvs → columnOf c T k = some col →
      resolveCatalogRefs c h rvs (pre ++ [ref]) names =
        .ok (a ++ [{ Number := ref.ref.Number
                     Column := some { Name := (match names ref.ref.Number with
                                        | some renamed => renamed
                                        | none => k)
                                      DataType := dataType col.Type_
                                      NotNull := col.IsNotNull
                                      IsArray := col.IsArray
                                      Table := some T } }])) ∧
    ((T ∉ referencedTables h rvs ∨ columnOf c T k = none) →
      resolveCatalogRefs c h rvs (pre ++ ref :: post) names =
        .error (.sqlerr "42703" ("column \"" ++ k ++ "\" does not exist") loc)) := by
  obtain ⟨refs, hrefs⟩ := resolveCatalogRefs_ok_refs c h rvs names pre a hpre
  have hsingle := resolveCatalogRefs_resTarget c h rvs names ref refs (some k) v loc hrefs hparent
  have href : referencedTables h rvs = refs.tables := by
    simp [referencedTables, hrefs]
  have hdt : refs.defaultTable = some dt := by
    simpa [defaultTableOf, hrefs] using hdefault
  have htab : resTargetTable h refs ref = .ok T := by
    unfold resTargetTable
    rw [hdt]
    rcases hT with ⟨h1, h2⟩ | ⟨rv, h1, h2⟩
    · simp [h1, h2]
    · simp [h1, h2]
  unfold resolveResTarget at hsingle
  simp only [htab] at hsingle
  rw [typeMap_lookup_any, ← href] at hsingle
  constructor
  · intro col hin hcol
    apply resolveCatalogRefs_ok_at c h rvs names pre ref a _ hpre
    rw [hsingle]
    simp only [hin, if_true, hcol, parameterName, List.nil_append]
  · intro hno
    apply resolveCatalogRefs_error_at c h rvs names pre post ref a _ hpre
    rw [hsingle]
    rcases hno with hno | hno
    · simp [hno]
    · by_cases hin : T ∈ referencedTables h rvs
      · simp [hin, hno]
      · simp [hin]

/-- C11 (evaluation at the failing input). No range variable is referenced,
so there is no default table; for the result target `id` with the associated
range variable `t1` the call panics on reading the default table instead of
emitting the parameter of `t1.id`. -/
theorem C11_result_target_panics_without_default :
    resolveCatalogRefs exCatalog exHelpers []
      [exTarget "id" 1 (some (exTable "t1"))] GoMap.empty = .panic nilDeref := by
  decide

/-- C12. A limit-count or limit-offset occurrence that is reached emits exactly
one parameter: its number is the ordinal, its type "integer", not-null set,
is-array unset, no owning table, and its name the rename map's entry for
the ordinal when there is one, otherwise "limit" for the count and "offset"
for the offset. -/
theorem C12_limit_parameters (c : Catalog) (h : Helpers) (rvs : List RangeVar)
    (names : GoMap Int String) (pre : List paramRef) (ref : paramRef)
    (a : List Parameter) (d : String)
    (hpre : resolveCatalogRefs c h rvs pre names = .ok a)
    (hparent : (ref.parent = .limitCount ∧ d = "limit") ∨
      (ref.parent = .limitOffset ∧ d = "offset")) :
    resolveCatalogRefs c h rvs (pre ++ [ref]) names =
      .ok (a ++ [{ Number := ref.ref.Number
                   Column := some { Name := (match names ref.ref.Number with
                                      | some renamed => renamed
                                      | none => d)
                                    DataType := "integer"
                                    NotNull := true
                                    IsArray := false
                                    Table := none } }]) := by
  obtain ⟨refs, hrefs⟩ := resolveCatalogRefs_ok_refs c h rvs names pre a hpre
  apply resolveCatalogRefs_ok_at c h rvs names pre ref a _ hpre
  rw [resolveCatalogRefs_single c h rvs names ref refs hrefs]
  unfold resolveRef
  rcases hparent with ⟨h1, h2⟩ | ⟨h1, h2⟩
  · rw [h1, h2]
    simp only [parameterName, List.nil_append]
  · rw [h1, h2]
    simp only [parameterName, List.nil_append]

/-- C12 (witness). The occurrences of `LIMIT $1 OFFSET $2`, the second one
after the first, with an unknown table among the range variables. -/
theorem C12_limit_parameters_witness :
    resolveCatalogRefs exCatalog exHelpers [exTable "nowhere"]
      ([exRef .limitCount 1 ""] ++ [exRef .limitOffset 2 ""]) GoMap.empty =
      .ok ([({ Number := 1
               Column := some { Name := "limit", DataType := "integer", NotNull := true,
                                IsArray := false, Table := none } } : Parameter)] ++
           [{ Number := (exRef .limitOffset 2 "").ref.Number
              Column := some { Name := (match (GoMap.empty : GoMap Int String)
                                   (exRef .limitOffset 2 "").ref.Number with
                                 | some renamed => renamed
                                 | none => "offset")
                               DataType := "integer"
                               NotNull := true
                               IsArray := false
                               Table := none } }]) :=
  C12_limit_parameters exCatalog exHelpers [exTable "nowhere"] GoMap.empty
    [exRef .limitCount 1 ""] (exRef .limitOffset 2 "") _ "offset"
    (by decide) (Or.inr ⟨rfl, rfl⟩)

/-- C13. The call is the in-order, fail-fast concatenation of the results on
its parts: when it succeeds on `xs` and on `ys` it succeeds on `xs ++ ys` with
the two lists appended; when it fails on `xs`, or succeeds on `xs` and fails
on `ys`, it fails on `xs ++ ys` with that error, and an error carries no
parameter list. -/
theorem C13_concatenation (c : Catalog) (h : Helpers) (rvs : List RangeVar)
    (names : GoMap Int String) (xs ys : List paramRef) :
    (∀ a b, resolveCatalogRefs c h rvs xs names = .ok a →
      resolveCatalogRefs c h rvs ys names = .ok b →
      resolveCatalogRefs c h rvs (xs ++ ys) names = .ok (a ++ b)) ∧
    (∀ e, resolveCatalogRefs c h rvs xs names = .error e →
      resolveCatalogRefs c h rvs (xs ++ ys) names = .error e) ∧
    (∀ a e, resolveCatalogRefs c h rvs xs names = .ok a →
      resolveCatalogRefs c h rvs ys names = .error e →
      resolveCatalogRefs c h rvs (xs ++ ys) names = .error e) := by
  refine ⟨?_, ?_, ?_⟩
  · intro a b hx hy
    rw [resolveCatalogRefs_append, hx, hy]
    rfl
  · intro e hx
    rw [resolveCatalogRefs_append, hx]
    rfl
  · intro a e hx hy
    rw [resolveCatalogRefs_append, hx, hy]
    rfl

/-- C13 (witness). The occurrence of `$2` under OFFSET before the one of `$1`
under LIMIT: the result keeps the occurrence order; and a failing second
part. -/
theorem C13_concatenation_witness :
    resolveCatalogRefs exCatalog exHelpers [exTable "t1"]
        ([exRef .limitOffset 2 ""] ++ [exRef .limitCount 1 ""]) GoMap.empty =
      .ok ([({ Number := 2
               Column := some { Name := "offset", DataType := "integer", NotNull := true,
                                IsArray := false, Table := none } } : Parameter)] ++
           [{ Number := 1
              Column := some { Name := "limit", DataType := "integer", NotNull := true,
                               IsArray := false, Table := none } }]) ∧
    resolveCatalogRefs exCatalog exHelpers [exTable "t1"]
        ([exRef .limitOffset 2 ""] ++ [exRef (exEq ["ghost"] 1) 1 ""]) GoMap.empty =
      .error (.sqlerr "42703" "column \"ghost\" does not exist" 7) :=
  ⟨(C13_concatenation exCatalog exHelpers [exTable "t1"] GoMap.empty
      [exRef .limitOffset 2 ""] [exRef .limitCount 1 ""]).1
      [{ Number := 2
         Column := some { Name := "offset", DataType := "integer", NotNull := true,
                          IsArray := false, Table := none } }]
      [{ Number := 1
         Column := some { Name := "limit", DataType := "integer", NotNull := true,
                          IsArray := false, Table := none } }]
      (by decide) (by decide),
   (C13_concatenation exCatalog exHelpers [exTable "t1"] GoMap.empty
      [exRef .limitOffset 2 ""] [exRef (exEq ["ghost"] 1) 1 ""]).2.2
      [{ Number := 2
         Column := some { Name := "offset", DataType := "integer", NotNull := true,
                          IsArray := false, Table := none } }]
      (.sqlerr "42703" "column \"ghost\" does not exist" 7)
      (by decide) (by decide)⟩

/-- An occurrence with an unsupported parent leaves `a` as it is. -/
theorem resolveRef_unsupported (c : Catalog) (h : Helpers) (names : GoMap Int String)
    (refs : Refs) (tm : TypeMap) (a : List Parameter) (ref : paramRef)
    (hparent : unsupportedParent ref.parent = true) :
    resolveRef c h names refs tm a ref = .ok a := by
  unfold resolveRef
  cases hp : ref.parent <;> simp_all [unsupportedParent]

/-- C14. An occurrence whose parent is of none of the supported kinds emits
no parameter and does not fail: the call returns the same outcome with and
without it. -/
theorem C14_unsupported_parent_dropped (c : Catalog) (h : Helpers) (rvs : List RangeVar)
    (names : GoMap Int String) (pre post : List paramRef) (ref : paramRef)
    (hparent : unsupportedParent ref.parent = true) :
    resolveCatalogRefs c h rvs (pre ++ ref :: post) names =
      resolveCatalogRefs c h rvs (pre ++ post) names := by
  unfold resolveCatalogRefs
  cases collectTables h rvs
      { aliasMap := GoMap.empty, defaultTable := none, tables := [] } with
  | error e => rfl
  | panic m => rfl
  | ok refs =>
    simp only []
    rw [resolveLoop_append, resolveLoop_append]
    cases resolveLoop c h names refs (buildTypeMap c refs.tables GoMap.empty) pre [] with
    | error e => rfl
    | panic m => rfl
    | ok a =>
      simp only [Result.bind, resolveLoop]
      rw [resolveRef_unsupported c h names refs _ a ref hparent]

/-- C14 (witness). An occurrence under a column reference, between a limit
and an offset occurrence: three occurrences, two parameters. -/
theorem C14_unsupported_parent_dropped_witness :
    resolveCatalogRefs exCatalog exHelpers []
        ([exRef .limitCount 1 ""] ++
          exRef (.ColumnRef (.cons (.String "id") .nil) 7) 3 "" :: [exRef .limitOffset 2 ""])
        GoMap.empty =
      resolveCatalogRefs exCatalog exHelpers []
        ([exRef .limitCount 1 ""] ++ [exRef .limitOffset 2 ""]) GoMap.empty :=
  C14_unsupported_parent_dropped exCatalog exHelpers [] GoMap.empty
    [exRef .limitCount 1 ""] [exRef .limitOffset 2 ""]
    (exRef (.ColumnRef (.cons (.String "id") .nil) 7) 3 "") rfl

/-- A supported occurrence other than a function call, when it resolves,
yields exactly one parameter, numbered with its ordinal. -/
theorem resolveRef_single_entry (c : Catalog) (h : Helpers) (names : GoMap Int String)
    (refs : Refs) (tm : TypeMap) (ref : paramRef) (b : List Parameter)
    (hsup : unsupportedParent ref.parent = false) (hfun : isFuncCall ref.parent = false)
    (hok : resolveRef c h names refs tm [] ref = .ok b) :
    ∃ p, b = [p] ∧ p.Number = ref.ref.Number := by
  unfold resolveRef at hok
  cases hp : ref.parent with
  | limitOffset =>
    simp only [hp, List.nil_append, Result.ok.injEq] at hok
    exact ⟨_, hok.symm, rfl⟩
  | limitCount =>
    simp only [hp, List.nil_append, Result.ok.injEq] at hok
    exact ⟨_, hok.symm, rfl⟩
  | ParamRef n l =>
    simp only [hp, List.nil_append, Result.ok.injEq] at hok
    exact ⟨_, hok.symm, rfl⟩
  | A_Expr nm lx rx loc =>
    simp only [hp, resolveAExpr] at hok
    cases hs : Search isColumnRef lx with
    | nil => simp [hs] at hok
    | cons x xs =>
      have hx : isColumnRef x = true :=
        Search_all isColumnRef lx x (by rw [hs]; exact List.mem_cons_self _ _)
      cases x with
      | ColumnRef fields cloc =>
        simp only [hs] at hok
        cases hk : keyAlias (stringSlice fields) with
        | panic m => simp [resolveColumnRef, hk] at hok
        | error e => simp [resolveColumnRef, hk] at hok
        | ok ka =>
          obtain ⟨key, q⟩ := ka
          obtain ⟨t, _, col, _, hb⟩ :=
            resolveColumnRef_ok names refs tm ref fields cloc key q b hk hok
          exact ⟨_, hb, rfl⟩
      | _ => simp [isColumnRef] at hx
  | ResTarget name v loc =>
    simp only [hp, resolveResTarget] at hok
    cases name with
    | none => simp at hok
    | some key =>
      simp only [] at hok
      cases ht : resTargetTable h refs ref with
      | panic m => simp [ht] at hok
      | error e => simp [ht] at hok
      | ok fqn =>
        simp only [ht] at hok
        cases hl : tm.lookup fqn.Schema fqn.Name key with
        | none => simp [hl] at hok
        | some col =>
          simp only [hl, List.nil_append, Result.ok.injEq] at hok
          exact ⟨_, hok.symm, rfl⟩
  | TypeCast arg tn loc =>
    simp only [hp, resolveTypeCast] at hok
    cases tn with
    | none => simp at hok
    | some t =>
      simp only [] at hok
      cases hc : h.toColumn t with
      | panic m => simp [hc] at hok
      | error e => simp [hc] at hok
      | ok col =>
        simp only [hc, List.nil_append, Result.ok.injEq] at hok
        exact ⟨_, hok.symm, rfl⟩
  | FuncCall fn args loc => simp [hp, isFuncCall] at hfun
  | _ => simp [hp, unsupportedParent] at hsup

/-- Success on a list with a first occurrence: that occurrence resolved, the
others resolved, and the result is the two lists appended. -/
theorem resolveCatalogRefs_cons_ok (c : Catalog) (h : Helpers) (rvs : List RangeVar)
    (names : GoMap Int String) (ref : paramRef) (rest : List paramRef) (r : List Parameter)
    (hok : resolveCatalogRefs c h rvs (ref :: rest) names = .ok r) :
    ∃ b r2, resolveCatalogRefs c h rvs [ref] names = .ok b ∧
      resolveCatalogRefs c h rvs rest names = .ok r2 ∧ r = b ++ r2 := by
  have e : ref :: rest = [ref] ++ rest := rfl
  rw [e, resolveCatalogRefs_append] at hok
  cases hb : resolveCatalogRefs c h rvs [ref] names with
  | error e => simp [hb, Result.bind] at hok
  | panic m => simp [hb, Result.bind] at hok
  | ok b =>
    cases hr : resolveCatalogRefs c h rvs rest names with
    | error e => simp [hb, hr, Result.bind, Result.map] at hok
    | panic m => simp [hb, hr, Result.bind, Result.map] at hok
    | ok r2 =>
      simp only [hb, hr, Result.bind, Result.map, Result.ok.injEq] at hok
      exact ⟨b, r2, rfl, rfl, hok.symm⟩

/-- C15 (counterexample). Two occurrences of the same ordinal, as after the
normalization of a statement that uses `@foo::int4` twice: the call succeeds
and the result has two entries for the ordinal 1. -/
theorem C15_repeated_ordinal_counterexample :
    resolveCatalogRefs exCatalog exHelpers [] [exCast 1, exCast 1] GoMap.empty =
      .ok [{ Number := 1
             Column := some { Name := "", DataType := "int4", NotNull := true,
                              IsArray := false, Table := none } },
           { Number := 1
             Column := some { Name := "", DataType := "int4", NotNull := true,
                              IsArray := false, Table := none } }] := by
  decide

/-- C15 (amended). On an occurrence list without function-call occurrences on
which the call succeeds, the result has exactly one entry per supported
occurrence, carrying that occurrence's ordinal, in occurrence order: the
ordinals of the result are the ordinals of the supported occurrences, with
their repetitions. -/
theorem C15_one_entry_per_occurrence (c : Catalog) (h : Helpers) (rvs : List RangeVar)
    (names : GoMap Int String) (args : List paramRef) (r : List Parameter)
    (hnofun : ∀ ref ∈ args, isFuncCall ref.parent = false)
    (hok : resolveCatalogRefs c h rvs args names = .ok r) :
    r.map (fun p => p.Number) =
      (args.filter (fun ref => !unsupportedParent ref.parent)).map
        (fun ref => ref.ref.Number) := by
  induction args generalizing r with
  | nil =>
    have hr : r = [] := by
      obtain ⟨refs, hrefs⟩ := resolveCatalogRefs_ok_refs c h rvs names [] r hok
      unfold resolveCatalogRefs at hok
      have hr2 : collectTables h rvs
          { aliasMap := GoMap.empty, defaultTable := none, tables := [] } = .ok refs := hrefs
      simp only [hr2, resolveLoop, Result.ok.injEq] at hok
      exact hok.symm
    simp [hr]
  | cons ref rest ih =>
    obtain ⟨b, r2, hb, hr2, hr⟩ := resolveCatalogRefs_cons_ok c h rvs names ref rest r hok
    obtain ⟨refs, hrefs⟩ := resolveCatalogRefs_ok_refs c h rvs names _ r hok
    have ih2 := ih r2 (fun x hx => hnofun x (List.mem_cons_of_mem _ hx)) hr2
    rw [resolveCatalogRefs_single c h rvs names ref refs hrefs] at hb
    rw [hr, List.map_append, ih2, List.filter_cons]
    cases hsup : unsupportedParent ref.parent with
    | true =>
      rw [resolveRef_unsupported c h names refs _ [] ref hsup] at hb
      simp only [Result.ok.injEq] at hb
      simp [← hb]
    | false =>
      obtain ⟨p, hp, hn⟩ := resolveRef_single_entry c h names refs _ ref b hsup
        (hnofun ref (List.mem_cons_self _ _)) hb
      simp [hp, hn]

/-- C15 (witness). A limit occurrence, an occurrence under a column
reference, and two casts of the same ordinal. -/
theorem C15_one_entry_per_occurrence_witness :
    ([({ Number := 2
         Column := some { Name := "limit", DataType := "integer", NotNull := true,
                          IsArray := false, Table := none } } : Parameter),
      { Number := 1
        Column := some { Name := "", DataType := "int4", NotNull := true,
                         IsArray := false, Table := none } },
      { Number := 1
        Column := some { Name := "", DataType := "int4", NotNull := true,
                         IsArray := false, Table := none } }]).map (fun p => p.Number) =
      ([exRef .limitCount 2 "", exRef (.ColumnRef (.cons (.String "id") .nil) 7) 3 "",
        exCast 1, exCast 1].filter (fun ref => !unsupportedParent ref.parent)).map
        (fun ref => ref.ref.Number) :=
  C15_one_entry_per_occurrence exCatalog exHelpers [] GoMap.empty
    [exRef .limitCount 2 "", exRef (.ColumnRef (.cons (.String "id") .nil) 7) 3 "",
      exCast 1, exCast 1] _
    (by
      intro ref href
      simp only [List.mem_cons, List.mem_singleton, List.not_mem_nil, or_false] at href
      rcases href with e | e | e | e <;> rw [e] <;> rfl)
    (by decide)

/-- C20 (evaluation at the failing input). When no range variable has a
relation name there is no default table, and the call panics on a result
target with an explicit column name, whether the occurrence carries its own
range variable (first case: a range-variable list whose only entry lacks a
relation name) or not (second case: the empty list). -/
theorem C20_result_target_nil_default_table :
    resolveCatalogRefs exCatalog exHelpers
        [{ Schemaname := none, Relname := none, Alias := none }]
        [exTarget "id" 1 (some (exTable "t1"))] GoMap.empty = .panic nilDeref ∧
    resolveCatalogRefs exCatalog exHelpers [] [exTarget "id" 1 none] GoMap.empty =
      .panic nilDeref := by
  decide

/-! ## The rewriting of named placeholders -/

/-- Every node the test for the sign with a cast accepts is accepted by the
sign test. -/
theorem isNamedParamSignCast_sign (n : Node) (hc : isNamedParamSignCast n = true) :
    IsParamSign n = true := by
  cases n with
  | A_Expr nm lx rx l =>
    cases rx <;> simp_all [isNamedParamSignCast, IsParamSign]
  | _ => simp [isNamedParamSignCast] at hc

theorem applyParamFunc_eq (loc : Int) (st : Rewrite) (args : NodeList) (l : Int) :
    applyParamFunc loc st args l =
      (.ParamRef (st.number (flatten (.List args)).1).1 l,
        st.record loc { kind := if (flatten (.List args)).2 then .quotedCall else .bareCall
                        param := (flatten (.List args)).1
                        location := l }) := by
  unfold applyParamFunc Rewrite.record Marker.oldText
  cases (flatten (.List args)).2 <;> rfl

theorem applySignCast_eq (loc : Int) (st : Rewrite) (l : Int) (castArg : Node)
    (castType : Option TypeName) (castLocation : Int) :
    applySignCast loc st l castArg castType castLocation =
      (.TypeCast (.ParamRef (st.number (flatten castArg).1).1 l) castType castLocation,
        st.record loc { kind := .signCast, param := (flatten castArg).1, location := l }) := rfl

theorem applySign_eq (loc : Int) (st : Rewrite) (l : Int) (rx : Node) :
    applySign loc st l rx =
      (.ParamRef (st.number (flatten rx).1).1 l,
        st.record loc { kind := .sign, param := (flatten rx).1, location := l }) := rfl

mutual
/-- The variables after the rewriting of a subtree: each of its markers has
been handled, in traversal order. -/
theorem applyNode_state (loc : Int) : ∀ (n : Node) (st : Rewrite),
    (applyNode loc n st).2 = (markers n).foldl (Rewrite.record loc) st
  | .nil, st => rfl
  | .String _, st => rfl
  | .A_Const v _, st => by
    simp only [applyNode, markers]
    exact applyNode_state loc v st
  | .ColumnRef fs _, st => by
    simp only [applyNode, markers]
    exact applyList_state loc fs st
  | .ParamRef _ _, st => rfl
  | .NamedArgExpr _ a _, st => by
    simp only [applyNode, markers]
    exact applyNode_state loc a st
  | .A_Expr nm lx rx l, st => by
    simp only [applyNode, markers]
    by_cases hc : isNamedParamSignCast (.A_Expr nm lx rx l) = true
    · simp only [hc, if_true]
      cases rx with
      | TypeCast castArg castType castLocation =>
        simp only [applySignCast_eq, List.foldl_cons, List.foldl_nil]
      | _ => simp [isNamedParamSignCast] at hc
    · simp only [hc, Bool.false_eq_true, if_false]
      by_cases hs : IsParamSign (.A_Expr nm lx rx l) = true
      · simp only [hs, if_true, applySign_eq, List.foldl_cons, List.foldl_nil]
      · simp only [hs, Bool.false_eq_true, if_false, List.foldl_append]
        rw [applyNode_state loc rx, applyNode_state loc lx, applyList_state loc nm]
  | .FuncCall fn as l, st => by
    simp only [applyNode, markers]
    by_cases hf : IsParamFunc (.FuncCall fn as l) = true
    · simp only [hf, if_true, applyParamFunc_eq, List.foldl_cons, List.foldl_nil]
    · simp only [hf, Bool.false_eq_true, if_false]
      exact applyList_state loc as st
  | .TypeCast a _ _, st => by
    simp only [applyNode, markers]
    exact applyNode_state loc a st
  | .ResTarget _ v _, st => by
    simp only [applyNode, markers]
    exact applyNode_state loc v st
  | .List is, st => by
    simp only [applyNode, markers]
    exact applyList_state loc is st
  | .limitOffset, st => rfl
  | .limitCount, st => rfl
  | .other _ cs, st => by
    simp only [applyNode, markers]
    exact applyList_state loc cs st
/-- The variables after the rewriting of the items of a list. -/
theorem applyList_state (loc : Int) : ∀ (l : NodeList) (st : Rewrite),
    (applyList loc l st).2 = (markersList l).foldl (Rewrite.record loc) st
  | .nil, st => rfl
  | .cons h t, st => by
    simp only [applyList, markersList, List.foldl_append]
    rw [applyList_state loc t, applyNode_state loc h]
end

theorem number_lookup (st : Rewrite) (p : String) :
    (st.number p).2.args.lookup p = some (st.number p).1 := by
  unfold Rewrite.number
  cases hl : st.args.lookup p with
  | some num => simp [hl]
  | none => simp [List.lookup_append, hl]

theorem number_preserves (st : Rewrite) (p x : String) (n : Int)
    (hx : st.args.lookup x = some n) : (st.number p).2.args.lookup x = some n := by
  unfold Rewrite.number
  cases hl : st.args.lookup p with
  | some num => simpa [hl] using hx
  | none => simp [List.lookup_append, hx]

theorem record_args (loc : Int) (st : Rewrite) (m : Marker) :
    (st.record loc m).args = (st.number m.param).2.args := rfl

theorem record_get (st : Rewrite) (m : Marker) :
    (st.number m.param).2.get m.param = (st.number m.param).1 := by
  unfold Rewrite.get
  rw [number_lookup]

theorem number_edits (st : Rewrite) (p : String) : (st.number p).2.edits = st.edits := by
  unfold Rewrite.number
  cases st.args.lookup p <;> rfl

theorem agrees_record (ord : String → Int) (loc : Int) (st : Rewrite) (m : Marker)
    (ha : Agrees ord (st.record loc m)) :
    Agrees ord st ∧ ord m.param = (st.number m.param).1 := by
  constructor
  · intro x n hx
    exact ha x n (by rw [record_args]; exact number_preserves st m.param x n hx)
  · exact ha m.param _ (by rw [record_args]; exact number_lookup st m.param)

theorem agrees_foldl (ord : String → Int) (loc : Int) (ms : List Marker) (st : Rewrite)
    (ha : Agrees ord (ms.foldl (Rewrite.record loc) st)) : Agrees ord st := by
  induction ms generalizing st with
  | nil => exact ha
  | cons m rest ih =>
    simp only [List.foldl_cons] at ha
    exact (agrees_record ord loc st m (ih _ ha)).1

/-- The edits after a list of markers has been handled: those before, then
one per marker, in order, with the ordinal its name has in the end. -/
theorem foldl_record_edits (ord : String → Int) (loc : Int) (ms : List Marker)
    (st : Rewrite) (ha : Agrees ord (ms.foldl (Rewrite.record loc) st)) :
    (ms.foldl (Rewrite.record loc) st).edits = st.edits ++ ms.map (Marker.edit loc ord) := by
  induction ms generalizing st with
  | nil => simp
  | cons m rest ih =>
    simp only [List.foldl_cons] at ha ⊢
    rw [ih _ ha]
    have hm := (agrees_record ord loc st m (agrees_foldl ord loc rest _ ha)).2
    have he : (st.record loc m).edits = st.edits ++ [Marker.edit loc ord m] := by
      show (st.number m.param).2.edits ++
          [{ Location := wrapInt (m.location - loc), Old := m.oldText,
             New := "$" ++ toString ((st.number m.param).2.get m.param) }] =
        st.edits ++ [{ Location := wrapInt (m.location - loc), Old := m.oldText,
                       New := "$" ++ toString (ord m.param) }]
      rw [record_get, number_edits, hm]
    rw [he]
    simp

theorem agrees_applyNode (ord : String → Int) (loc : Int) (n : Node) (st : Rewrite)
    (ha : Agrees ord (applyNode loc n st).2) : Agrees ord st := by
  rw [applyNode_state] at ha
  exact agrees_foldl ord loc _ st ha

theorem agrees_applyList (ord : String → Int) (loc : Int) (l : NodeList) (st : Rewrite)
    (ha : Agrees ord (applyList loc l st).2) : Agrees ord st := by
  rw [applyList_state] at ha
  exact agrees_foldl ord loc _ st ha

mutual
/-- The rewritten subtree: each marker replaced by the placeholder with the
ordinal its name has in the end. -/
theorem applyNode_tree (ord : String → Int) (loc : Int) : ∀ (n : Node) (st : Rewrite),
    Agrees ord (applyNode loc n st).2 → (applyNode loc n st).1 = substitute ord n
  | .nil, st, _ => rfl
  | .String _, st, _ => rfl
  | .A_Const v l, st, ha => by
    simp only [applyNode] at ha
    simp only [applyNode, substitute]
    rw [applyNode_tree ord loc v st ha]
  | .ColumnRef fs l, st, ha => by
    simp only [applyNode] at ha
    simp only [applyNode, substitute]
    rw [applyList_tree ord loc fs st ha]
  | .ParamRef _ _, st, _ => rfl
  | .NamedArgExpr nm a l, st, ha => by
    simp only [applyNode] at ha
    simp only [applyNode, substitute]
    rw [applyNode_tree ord loc a st ha]
  | .A_Expr nm lx rx l, st, ha => by
    simp only [applyNode] at ha
    simp only [applyNode, substitute]
    by_cases hc : isNamedParamSignCast (.A_Expr nm lx rx l) = true
    · simp only [hc, if_true] at ha ⊢
      cases rx with
      | TypeCast castArg castType castLocation =>
        simp only [applySignCast_eq] at ha ⊢
        rw [(agrees_record ord loc st _ ha).2]
      | _ => simp [isNamedParamSignCast] at hc
    · simp only [hc, Bool.false_eq_true, if_false] at ha ⊢
      by_cases hs : IsParamSign (.A_Expr nm lx rx l) = true
      · simp only [hs, if_true, applySign_eq] at ha ⊢
        rw [(agrees_record ord loc st _ ha).2]
      · simp only [hs, Bool.false_eq_true, if_false] at ha ⊢
        have h3 := agrees_applyNode ord loc rx _ ha
        have h2 := agrees_applyNode ord loc lx _ h3
        rw [applyNode_tree ord loc rx _ ha, applyNode_tree ord loc lx _ h3,
          applyList_tree ord loc nm st h2]
  | .FuncCall fn as l, st, ha => by
    simp only [applyNode] at ha
    simp only [applyNode, substitute]
    by_cases hf : IsParamFunc (.FuncCall fn as l) = true
    · simp only [hf, if_true, applyParamFunc_eq] at ha ⊢
      rw [(agrees_record ord loc st _ ha).2]
    · simp only [hf, Bool.false_eq_true, if_false] at ha ⊢
      rw [applyList_tree ord loc as st ha]
  | .TypeCast a t l, st, ha => by
    simp only [applyNode] at ha
    simp only [applyNode, substitute]
    rw [applyNode_tree ord loc a st ha]
  | .ResTarget nm v l, st, ha => by
    simp only [applyNode] at ha
    simp only [applyNode, substitute]
    rw [applyNode_tree ord loc v st ha]
  | .List is, st, ha => by
    simp only [applyNode] at ha
    simp only [applyNode, substitute]
    rw [applyList_tree ord loc is st ha]
  | .limitOffset, st, _ => rfl
  | .limitCount, st, _ => rfl
  | .other k cs, st, ha => by
    simp only [applyNode] at ha
    simp only [applyNode, substitute]
    rw [applyList_tree ord loc cs st ha]
/-- The rewritten items of a list. -/
theorem applyList_tree (ord : String → Int) (loc : Int) : ∀ (l : NodeList) (st : Rewrite),
    Agrees ord (applyList loc l st).2 → (applyList loc l st).1 = substituteList ord l
  | .nil, st, _ => rfl
  | .cons hd tl, st, ha => by
    simp only [applyList] at ha
    simp only [applyList, substituteList]
    have h1 := agrees_applyList ord loc tl _ ha
    rw [applyList_tree ord loc tl _ ha, applyNode_tree ord loc hd st h1]
end

/-! ## The numbering of the names -/

theorem numberedFrom_append (s : Int) (ks : List String) (k : String) :
    numberedFrom s (ks ++ [k]) = numberedFrom s ks ++ [(k, s + ks.length)] := by
  induction ks generalizing s with
  | nil => simp [numberedFrom]
  | cons y ys ih =>
    have e : s + 1 + (ys.length : Int) = s + ((ys.length + 1 : Nat) : Int) := by omega
    show numberedFrom s (y :: (ys ++ [k])) =
      numberedFrom s (y :: ys) ++ [(k, s + ((ys.length + 1 : Nat) : Int))]
    simp only [numberedFrom]
    rw [ih, e]
    rfl

theorem numberedFrom_lookup (s : Int) (ks : List String) (x : String) :
    (numberedFrom s ks).lookup x =
      if x ∈ ks then some (s + (ks.indexOf x : Int)) else none := by
  induction ks generalizing s with
  | nil => simp [numberedFrom]
  | cons y ys ih =>
    simp only [numberedFrom, List.lookup_cons]
    by_cases hxy : x = y
    · subst hxy
      simp
    · have hyx : ¬ y = x := fun e => hxy e.symm
      have hb : (x == y) = false := by simpa using hxy
      rw [hb, ih, List.indexOf_cons_ne _ hyx]
      simp only [List.mem_cons, hxy, false_or, Nat.succ_eq_add_one, Nat.cast_add, Nat.cast_one]
      by_cases hm : x ∈ ys
      · simp only [hm, if_true, Option.some.injEq]
        omega
      · simp [hm]

theorem numberedFrom_keys (s : Int) (ks : List String) :
    (numberedFrom s ks).map Prod.fst = ks := by
  induction ks generalizing s with
  | nil => rfl
  | cons y ys ih => simp [numberedFrom, ih]

/-- One step of the numbering: a name already numbered changes nothing, a
new one gets the next number. -/
theorem number_numbered (st : Rewrite) (p : String) (ks : List String)
    (hargs : st.args = numberedFrom 1 ks) (hargn : st.argn = ks.length) :
    (st.number p).2.args = numberedFrom 1 (if p ∈ ks then ks else ks ++ [p]) ∧
    (st.number p).2.argn = ((if p ∈ ks then ks else ks ++ [p]).length : Int) := by
  unfold Rewrite.number
  rw [hargs, numberedFrom_lookup]
  by_cases hp : p ∈ ks
  · simp only [hp, if_true]
    exact ⟨hargs, hargn⟩
  · simp only [hp, if_false]
    rw [numberedFrom_append, hargn]
    refine ⟨?_, by simp⟩
    have e : (ks.length : Int) + 1 = 1 + (ks.length : Int) := by omega
    rw [e]

theorem foldl_record_numbered (loc : Int) (ms : List Marker) (st : Rewrite)
    (ks : List String) (hargs : st.args = numberedFrom 1 ks) (hargn : st.argn = ks.length) :
    (ms.foldl (Rewrite.record loc) st).args =
      numberedFrom 1 ((ms.map (fun m => m.param)).foldl
        (fun acc x => if x ∈ acc then acc else acc ++ [x]) ks) := by
  induction ms generalizing st ks with
  | nil => simpa using hargs
  | cons m rest ih =>
    simp only [List.foldl_cons, List.map_cons]
    obtain ⟨h1, h2⟩ := number_numbered st m.param ks hargs hargn
    exact ih (st.record loc m) _ h1 h2

/-- The map `args` after the rewriting of a statement: its distinct marker
names in the order of first occurrence, numbered from 1. -/
theorem applyNode_args (loc : Int) (n : Node) :
    (applyNode loc n { args := [], argn := 0, edits := [] }).2.args =
      numberedFrom 1 (firstOccurrences (markerNames n)) := by
  rw [applyNode_state]
  exact foldl_record_numbered loc (markers n) _ [] rfl rfl

theorem agrees_ordinalOf (loc : Int) (n : Node) :
    Agrees (ordinalOf (markerNames n))
      (applyNode loc n { args := [], argn := 0, edits := [] }).2 := by
  intro x k hx
  rw [applyNode_args, numberedFrom_lookup] at hx
  by_cases hm : x ∈ firstOccurrences (markerNames n)
  · simp only [hm, if_true, Option.some.injEq] at hx
    unfold ordinalOf
    omega
  · simp [hm] at hx

theorem firstOccurrences_acc (ns acc : List String) (hacc : acc.Nodup) :
    (ns.foldl (fun acc x => if x ∈ acc then acc else acc ++ [x]) acc).Nodup ∧
    ∀ x, x ∈ ns.foldl (fun acc x => if x ∈ acc then acc else acc ++ [x]) acc ↔
      x ∈ acc ∨ x ∈ ns := by
  induction ns generalizing acc with
  | nil => simp [hacc]
  | cons y ys ih =>
    simp only [List.foldl_cons]
    by_cases hy : y ∈ acc
    · simp only [hy, if_true]
      obtain ⟨h1, h2⟩ := ih acc hacc
      refine ⟨h1, fun x => ?_⟩
      rw [h2 x, List.mem_cons]
      constructor
      · rintro (h | h)
        · exact Or.inl h
        · exact Or.inr (Or.inr h)
      · rintro (h | h | h)
        · exact Or.inl h
        · exact Or.inl (h ▸ hy)
        · exact Or.inr h
    · simp only [hy, if_false]
      have hn : (acc ++ [y]).Nodup := by
        rw [List.nodup_append]
        refine ⟨hacc, List.nodup_singleton y, ?_⟩
        intro a ha hb
        rw [List.mem_singleton] at hb
        exact hy (hb ▸ ha)
      obtain ⟨h1, h2⟩ := ih (acc ++ [y]) hn
      refine ⟨h1, fun x => ?_⟩
      rw [h2 x, List.mem_append, List.mem_singleton, List.mem_cons]
      constructor
      · rintro ((h | h) | h)
        · exact Or.inl h
        · exact Or.inr (Or.inl h)
        · exact Or.inr (Or.inr h)
      · rintro (h | h | h)
        · exact Or.inl (Or.inl h)
        · exact Or.inl (Or.inr h)
        · exact Or.inr h

theorem firstOccurrences_nodup (ns : List String) : (firstOccurrences ns).Nodup :=
  (firstOccurrences_acc ns [] List.nodup_nil).1

theorem mem_firstOccurrences (ns : List String) (x : String) :
    x ∈ firstOccurrences ns ↔ x ∈ ns := by
  have := (firstOccurrences_acc ns [] List.nodup_nil).2 x
  simpa [firstOccurrences] using this

theorem invertArgs_snoc (l : List (String × Int)) (k : String) (v : Int) :
    invertArgs (l ++ [(k, v)]) = (invertArgs l).set v k := by
  simp [invertArgs, List.foldl_append]

/-- The inverted map of a numbering of distinct names: the number of a name
is mapped to the name, and nothing else is a key. -/
theorem invertArgs_numbered (s : Int) (ks : List String) (hnd : ks.Nodup) (n : Int)
    (x : String) :
    invertArgs (numberedFrom s ks) n = some x ↔ x ∈ ks ∧ s + (ks.indexOf x : Int) = n := by
  induction ks using List.reverseRecOn with
  | nil => simp [numberedFrom, invertArgs, GoMap.empty]
  | append_singleton ks k ih =>
    have hnd2 : ks.Nodup := (List.nodup_append.mp hnd).1
    have hk : k ∉ ks := by
      intro hin
      exact (List.nodup_append.mp hnd).2.2 hin (List.mem_singleton_self k) 
    rw [numberedFrom_append, invertArgs_snoc]
    simp only [GoMap.set]
    by_cases hn : n = s + (ks.length : Int)
    · simp only [hn, if_true, Option.some.injEq, List.mem_append, List.mem_singleton]
      constructor
      · intro e
        subst e
        refine ⟨Or.inr rfl, ?_⟩
        rw [List.indexOf_append_of_not_mem hk]
        simp
      · rintro ⟨hx, he⟩
        rcases hx with hx | hx
        · rw [List.indexOf_append_of_mem hx] at he
          have := List.indexOf_lt_length.mpr hx
          omega
        · exact hx.symm
    · simp only [hn, if_false, List.mem_append, List.mem_singleton]
      rw [ih hnd2]
      constructor
      · rintro ⟨hx, he⟩
        exact ⟨Or.inl hx, by rw [List.indexOf_append_of_mem hx]; exact he⟩
      · rintro ⟨hx, he⟩
        rcases hx with hx | hx
        · exact ⟨hx, by rw [List.indexOf_append_of_mem hx] at he; exact he⟩
        · subst hx
          rw [List.indexOf_append_of_not_mem hk] at he
          simp at he
          omega

mutual
/-- A subtree in which the two searches of the pre-check find nothing has no
marker and is left as it is by the substitution. -/
theorem no_match (ord : String → Int) : ∀ (n : Node),
    Search IsParamFunc n = [] → Search IsParamSign n = [] →
    markers n = [] ∧ substitute ord n = n
  | .nil, _, _ => ⟨rfl, rfl⟩
  | .String _, _, _ => ⟨rfl, rfl⟩
  | .A_Const v l, hf, hs => by
    simp only [Search, List.append_eq_nil] at hf hs
    obtain ⟨h1, h2⟩ := no_match ord v hf.2 hs.2
    simp only [markers, substitute, h1, h2, and_self]
  | .ColumnRef fs l, hf, hs => by
    simp only [Search, List.append_eq_nil] at hf hs
    obtain ⟨h1, h2⟩ := no_matchList ord fs hf.2 hs.2
    simp only [markers, substitute, h1, h2, and_self]
  | .ParamRef _ _, _, _ => ⟨rfl, rfl⟩
  | .NamedArgExpr nm a l, hf, hs => by
    simp only [Search, List.append_eq_nil] at hf hs
    obtain ⟨h1, h2⟩ := no_match ord a hf.2 hs.2
    simp only [markers, substitute, h1, h2, and_self]
  | .A_Expr nm lx rx l, hf, hs => by
    simp only [Search, List.append_eq_nil] at hf hs
    obtain ⟨⟨⟨_, hf1⟩, hf2⟩, hf3⟩ := hf
    obtain ⟨⟨⟨hs0, hs1⟩, hs2⟩, hs3⟩ := hs
    have hsign : IsParamSign (.A_Expr nm lx rx l) = false := by
      cases hb : IsParamSign (.A_Expr nm lx rx l) with
      | false => rfl
      | true => simp [hb] at hs0
    have hcast : isNamedParamSignCast (.A_Expr nm lx rx l) = false := by
      cases hb : isNamedParamSignCast (.A_Expr nm lx rx l) with
      | false => rfl
      | true =>
        have := isNamedParamSignCast_sign _ hb
        rw [hsign] at this
        cases this
    obtain ⟨a1, a2⟩ := no_matchList ord nm hf1 hs1
    obtain ⟨b1, b2⟩ := no_match ord lx hf2 hs2
    obtain ⟨c1, c2⟩ := no_match ord rx hf3 hs3
    simp only [markers, substitute, hsign, hcast, Bool.false_eq_true, if_false, a1, a2, b1,
      b2, c1, c2, List.append_nil, and_self]
  | .FuncCall fn as l, hf, hs => by
    simp only [Search, List.append_eq_nil] at hf hs
    have hfun : IsParamFunc (.FuncCall fn as l) = false := by
      cases hb : IsParamFunc (.FuncCall fn as l) with
      | false => rfl
      | true => simp [hb] at hf
    obtain ⟨h1, h2⟩ := no_matchList ord as hf.2 hs.2
    simp only [markers, substitute, hfun, Bool.false_eq_true, if_false, h1, h2, and_self]
  | .TypeCast a t l, hf, hs => by
    simp only [Search, List.append_eq_nil] at hf hs
    obtain ⟨h1, h2⟩ := no_match ord a hf.2 hs.2
    simp only [markers, substitute, h1, h2, and_self]
  | .ResTarget nm v l, hf, hs => by
    simp only [Search, List.append_eq_nil] at hf hs
    obtain ⟨h1, h2⟩ := no_match ord v hf.2 hs.2
    simp only [markers, substitute, h1, h2, and_self]
  | .List is, hf, hs => by
    simp only [Search, List.append_eq_nil] at hf hs
    obtain ⟨h1, h2⟩ := no_matchList ord is hf.2 hs.2
    simp only [markers, substitute, h1, h2, and_self]
  | .limitOffset, _, _ => ⟨rfl, rfl⟩
  | .limitCount, _, _ => ⟨rfl, rfl⟩
  | .other k cs, hf, hs => by
    simp only [Search, List.append_eq_nil] at hf hs
    obtain ⟨h1, h2⟩ := no_matchList ord cs hf.2 hs.2
    simp only [markers, substitute, h1, h2, and_self]
/-- The items of a list in which the two searches find nothing. -/
theorem no_matchList (ord : String → Int) : ∀ (l : NodeList),
    SearchList IsParamFunc l = [] → SearchList IsParamSign l = [] →
    markersList l = [] ∧ substituteList ord l = l
  | .nil, _, _ => ⟨rfl, rfl⟩
  | .cons hd tl, hf, hs => by
    simp only [SearchList, List.append_eq_nil] at hf hs
    obtain ⟨h1, h2⟩ := no_match ord hd hf.1 hs.1
    obtain ⟨h3, h4⟩ := no_matchList ord tl hf.2 hs.2
    simp only [markersList, substituteList, h1, h2, h3, h4, List.append_nil, and_self]
end

/-- What `NamedParameters` returns, in terms of the markers of the statement:
the statement with each marker replaced by the placeholder of its name's
ordinal, one edit per marker, and the map from each ordinal to its name. -/
theorem NamedParameters_spec (raw : RawStmt) :
    (NamedParameters raw).stmt =
      { Stmt := substitute (ordinalOf (markerNames raw.Stmt)) raw.Stmt
        StmtLocation := raw.StmtLocation } ∧
    (NamedParameters raw).edits =
      (markers raw.Stmt).map
        (Marker.edit raw.StmtLocation (ordinalOf (markerNames raw.Stmt))) ∧
    ∀ n x, (NamedParameters raw).named n = some x ↔
      x ∈ markerNames raw.Stmt ∧ ordinalOf (markerNames raw.Stmt) x = n := by
  unfold NamedParameters
  by_cases h0 : (Search IsParamFunc raw.Stmt).length + (Search IsParamSign raw.Stmt).length = 0
  · have hf : Search IsParamFunc raw.Stmt = [] := List.length_eq_zero.mp (by omega)
    have hs : Search IsParamSign raw.Stmt = [] := List.length_eq_zero.mp (by omega)
    obtain ⟨h1, h2⟩ := no_match (ordinalOf (markerNames raw.Stmt)) raw.Stmt hf hs
    simp only [h0, if_true]
    refine ⟨by rw [h2], by rw [h1]; rfl, fun n x => ?_⟩
    simp [GoMap.empty, markerNames, h1]
  · simp only [h0, if_false]
    have hag := agrees_ordinalOf raw.StmtLocation raw.Stmt
    refine ⟨?_, ?_, ?_⟩
    · rw [applyNode_tree _ _ _ _ hag]
    · rw [applyNode_state] at hag ⊢
      rw [foldl_record_edits _ _ _ _ hag]
      rfl
    · intro n x
      rw [applyNode_args, invertArgs_numbered 1 _ (firstOccurrences_nodup _), mem_firstOccurrences]
      unfold ordinalOf
      constructor
      · rintro ⟨h1, h2⟩
        exact ⟨h1, by omega⟩
      · rintro ⟨h1, h2⟩
        exact ⟨h1, by omega⟩

/-! ## Claims on the normalizer -/

/-- C16. In the statement `NamedParameters` returns, every matched marker,
whatever its syntax, is replaced by the placeholder whose number is the
ordinal of the marker's flattened name; two names of markers have the same
ordinal exactly when they are equal; and the returned map sends a number to
a name exactly when the name is a marker's name and the number its ordinal,
so it is the inverse of the assignment, with one entry per distinct name. -/
theorem C16_same_ordinal_iff_same_name (raw : RawStmt) :
    (NamedParameters raw).stmt.Stmt =
      substitute (ordinalOf (markerNames raw.Stmt)) raw.Stmt ∧
    (∀ x ∈ markerNames raw.Stmt, ∀ y ∈ markerNames raw.Stmt,
      (ordinalOf (markerNames raw.Stmt) x = ordinalOf (markerNames raw.Stmt) y ↔ x = y)) ∧
    (∀ n x, (NamedParameters raw).named n = some x ↔
      x ∈ markerNames raw.Stmt ∧ ordinalOf (markerNames raw.Stmt) x = n) := by
  obtain ⟨h1, _, h3⟩ := NamedParameters_spec raw
  refine ⟨by rw [h1], ?_, h3⟩
  intro x hx y hy
  unfold ordinalOf
  have hx2 := (mem_firstOccurrences _ x).mpr hx
  have hy2 := (mem_firstOccurrences _ y).mpr hy
  rw [← List.indexOf_inj hx2 hy2]
  constructor
  · intro e
    omega
  · intro e
    rw [e]

/-- C16 (witness). The statement `a = @foo::int4 AND b = sqlc.arg('bar') AND
c = @foo AND d = sqlc.arg(foo)`: the three markers named `foo` get the number
1, the one named `bar` the number 2. -/
theorem C16_same_ordinal_iff_same_name_witness :
    (NamedParameters (exStmt [exCompare "a" (exSignCast "foo" 30),
        exCompare "b" (exArg "bar" true 50), exCompare "c" (exSign "foo" 70),
        exCompare "d" (exArg "foo" false 90)])).stmt.Stmt =
      (exStmt [exCompare "a" (.TypeCast (.ParamRef 1 30)
            (some { Schema := "", Name := "int4" }) 31),
        exCompare "b" (.ParamRef 2 50), exCompare "c" (.ParamRef 1 70),
        exCompare "d" (.ParamRef 1 90)]).Stmt :=
  (C16_same_ordinal_iff_same_name (exStmt [exCompare "a" (exSignCast "foo" 30),
    exCompare "b" (exArg "bar" true 50), exCompare "c" (exSign "foo" 70),
    exCompare "d" (exArg "foo" false 90)])).1.trans rfl

theorem strings_append (xs ys : List Node) : strings (xs ++ ys) = strings xs ++ strings ys := by
  induction xs with
  | nil => simp [strings]
  | cons x rest ih =>
    cases x <;> simp [strings, ih, String.append_assoc]

theorem anyConst_append (xs ys : List Node) :
    anyConst (xs ++ ys) = (anyConst xs || anyConst ys) := by
  induction xs with
  | nil => simp [anyConst]
  | cons x rest ih =>
    cases x <;> simp [anyConst, ih]

mutual
/-- What the walker holds after a subtree: the strings of its nodes appended,
and the flag set when one of its nodes is a constant. -/
theorem Walk_eq : ∀ (n : Node) (s : stringWalker),
    Walk s n = { Str := s.Str ++ strings (nodes n)
                 IsConst := s.IsConst || anyConst (nodes n) }
  | .nil, s => by simp [Walk, nodes, Search, strings, anyConst]
  | .String str, s => by
    simp [Walk, nodes, Search, strings, anyConst, stringWalker.Visit]
  | .A_Const v l, s => by
    simp only [Walk]
    rw [Walk_eq v]
    simp [nodes, Search, strings, anyConst, stringWalker.Visit]
  | .ColumnRef fs l, s => by
    simp only [Walk]
    rw [WalkList_eq fs]
    simp [nodes, Search, strings, anyConst, stringWalker.Visit]
  | .ParamRef n l, s => by
    simp [Walk, nodes, Search, strings, anyConst, stringWalker.Visit]
  | .NamedArgExpr nm a l, s => by
    simp only [Walk]
    rw [Walk_eq a]
    simp [nodes, Search, strings, anyConst, stringWalker.Visit]
  | .A_Expr nm lx rx l, s => by
    simp only [Walk]
    rw [Walk_eq rx, Walk_eq lx, WalkList_eq nm]
    simp [nodes, Search, strings, anyConst, stringWalker.Visit, strings_append,
      anyConst_append, String.append_assoc, Bool.or_assoc]
  | .FuncCall fn as l, s => by
    simp only [Walk]
    rw [WalkList_eq as]
    simp [nodes, Search, strings, anyConst, stringWalker.Visit]
  | .TypeCast a t l, s => by
    simp only [Walk]
    rw [Walk_eq a]
    simp [nodes, Search, strings, anyConst, stringWalker.Visit]
  | .ResTarget nm v l, s => by
    simp only [Walk]
    rw [Walk_eq v]
    simp [nodes, Search, strings, anyConst, stringWalker.Visit]
  | .List is, s => by
    simp only [Walk]
    rw [WalkList_eq is]
    simp [nodes, Search, strings, anyConst, stringWalker.Visit]
  | .limitOffset, s => by
    simp [Walk, nodes, Search, strings, anyConst, stringWalker.Visit]
  | .limitCount, s => by
    simp [Walk, nodes, Search, strings, anyConst, stringWalker.Visit]
  | .other k cs, s => by
    simp only [Walk]
    rw [WalkList_eq cs]
    simp [nodes, Search, strings, anyConst, stringWalker.Visit]
/-- What the walker holds after the items of a list. -/
theorem WalkList_eq : ∀ (l : NodeList) (s : stringWalker),
    WalkList s l = { Str := s.Str ++ strings (SearchList (fun _ => true) l)
                     IsConst := s.IsConst || anyConst (SearchList (fun _ => true) l) }
  | .nil, s => by simp [WalkList, SearchList, strings, anyConst]
  | .cons hd tl, s => by
    simp only [WalkList]
    rw [WalkList_eq tl, Walk_eq hd]
    simp [nodes, SearchList, strings_append, anyConst_append, String.append_assoc,
      Bool.or_assoc]
end

/-- The two results of `flatten`: the text of the strings of the subtree, and
whether the subtree has a constant. -/
theorem flatten_eq (n : Node) : flatten n = (flatName n, quoted n) := by
  simp [flatten, Walk_eq, flatName, quoted]

mutual
/-- The markers as the rewriting finds them are the markers as described. -/
theorem markers_eq : ∀ (n : Node), markers n = markersOf n
  | .nil => rfl
  | .String _ => rfl
  | .A_Const v _ => by
    simp only [markers, markersOf]
    exact markers_eq v
  | .ColumnRef fs _ => by
    simp only [markers, markersOf]
    exact markersList_eq fs
  | .ParamRef _ _ => rfl
  | .NamedArgExpr _ a _ => by
    simp only [markers, markersOf]
    exact markers_eq a
  | .A_Expr nm lx rx l => by
    simp only [markers, markersOf, flatten_eq]
    rw [markersList_eq nm, markers_eq lx, markers_eq rx]
  | .FuncCall fn as l => by
    simp only [markers, markersOf, flatten_eq]
    rw [markersList_eq as]
  | .TypeCast a _ _ => by
    simp only [markers, markersOf]
    exact markers_eq a
  | .ResTarget _ v _ => by
    simp only [markers, markersOf]
    exact markers_eq v
  | .List is => by
    simp only [markers, markersOf]
    exact markersList_eq is
  | .limitOffset => rfl
  | .limitCount => rfl
  | .other _ cs => by
    simp only [markers, markersOf]
    exact markersList_eq cs
/-- The markers of the items of a list, found and described. -/
theorem markersList_eq : ∀ (l : NodeList), markersList l = markersOfList l
  | .nil => rfl
  | .cons hd tl => by
    simp only [markersList, markersOfList]
    rw [markers_eq hd, markersList_eq tl]
end

/-- Go's subtraction is the difference of the integers when that difference
is an `int`. -/
theorem wrapInt_of_fits (x : Int) (hlo : -9223372036854775808 ≤ x)
    (hhi : x < 9223372036854775808) : wrapInt x = x := by
  unfold wrapInt
  omega

/-- C18. The edit list of `NamedParameters` has exactly one edit per outermost
matched marker of the statement, in traversal order, and none for a marker
inside a matched marker. The edit's location is the marker's location minus
the start of the statement, in Go's `int` arithmetic, which is the
difference of the two whenever that difference is an `int`. Its old text is
`sqlc.arg('name')` for a call marker whose arguments have a constant,
`sqlc.arg(name)` for a call marker without one, and `@name` for both sign
forms, the name being the text of the strings in the marker's name-bearing
subtree. Its new text is `$` followed by the decimal ordinal of the
marker's name, which is also the number of the placeholder that replaces the
marker and the key of the name in the returned map. -/
theorem C18_one_edit_per_marker (raw : RawStmt) :
    (NamedParameters raw).edits =
      (markersOf raw.Stmt).map (fun m =>
        { Location := wrapInt (m.location - raw.StmtLocation)
          Old := (match m.kind with
            | .quotedCall => "sqlc.arg('" ++ m.param ++ "')"
            | .bareCall => "sqlc.arg(" ++ m.param ++ ")"
            | .signCast => "@" ++ m.param
            | .sign => "@" ++ m.param)
          New := "$" ++ toString
            (ordinalOf ((markersOf raw.Stmt).map (fun k => k.param)) m.param) }) ∧
    (∀ m ∈ markersOf raw.Stmt,
      -9223372036854775808 ≤ m.location - raw.StmtLocation →
      m.location - raw.StmtLocation < 9223372036854775808 →
      wrapInt (m.location - raw.StmtLocation) = m.location - raw.StmtLocation) ∧
    (NamedParameters raw).stmt.Stmt =
      substitute (ordinalOf ((markersOf raw.Stmt).map (fun k => k.param))) raw.Stmt ∧
    (∀ n x, (NamedParameters raw).named n = some x ↔
      x ∈ (markersOf raw.Stmt).map (fun k => k.param) ∧
      ordinalOf ((markersOf raw.Stmt).map (fun k => k.param)) x = n) := by
  obtain ⟨h1, h2, h3⟩ := NamedParameters_spec raw
  simp only [markerNames, markers_eq] at h1 h2 h3
  refine ⟨?_, fun m _ hlo hhi => wrapInt_of_fits _ hlo hhi, by rw [h1], h3⟩
  rw [h2]
  rfl

/-- C18 (witness). A statement that uses `@foo::int4` twice: two placeholders
numbered 1, two edits from `@foo` to `$1`, and the map with the entry
`1 ↦ foo`. A statement with the quoted call `sqlc.arg('bar')`, the bare call
`sqlc.arg(baz)` and the bare sign `@bar`: the old texts keep the quotes of
the first and only of the first. And a statement with the sign marker `@bar`
inside the call marker `sqlc.arg(@bar)`: one edit, for the call, whose name
is `@bar`. -/
theorem C18_one_edit_per_marker_witness :
    ((NamedParameters (exStmt [exCompare "a" (exSignCast "foo" 30),
        exCompare "b" (exSignCast "foo" 50)])).edits =
      [{ Location := 20, Old := "@foo", New := "$1" },
       { Location := 40, Old := "@foo", New := "$1" }] ∧
    (NamedParameters (exStmt [exCompare "a" (exSignCast "foo" 30),
        exCompare "b" (exSignCast "foo" 50)])).stmt.Stmt =
      (exStmt [exCompare "a" (.TypeCast (.ParamRef 1 30)
            (some { Schema := "", Name := "int4" }) 31),
        exCompare "b" (.TypeCast (.ParamRef 1 50)
            (some { Schema := "", Name := "int4" }) 51)]).Stmt ∧
    (NamedParameters (exStmt [exCompare "a" (exSignCast "foo" 30),
        exCompare "b" (exSignCast "foo" 50)])).named 1 = some "foo") ∧
    (NamedParameters (exStmt [exCompare "a" (exArg "bar" true 30),
        exCompare "b" (exArg "baz" false 50), exCompare "c" (exSign "bar" 70)])).edits =
      [{ Location := 20, Old := "sqlc.arg('bar')", New := "$1" },
       { Location := 40, Old := "sqlc.arg(baz)", New := "$2" },
       { Location := 60, Old := "@bar", New := "$1" }] ∧
    (NamedParameters (exStmt [exCompare "c" (.FuncCall { Schema := "sqlc", Name := "arg" }
        (.cons (exSign "bar" 79) .nil) 70)])).edits =
      [{ Location := 60, Old := "sqlc.arg(@bar)", New := "$1" }] :=
  ⟨⟨(C18_one_edit_per_marker (exStmt [exCompare "a" (exSignCast "foo" 30),
        exCompare "b" (exSignCast "foo" 50)])).1.trans (by decide),
    (C18_one_edit_per_marker (exStmt [exCompare "a" (exSignCast "foo" 30),
        exCompare "b" (exSignCast "foo" 50)])).2.2.1.trans rfl,
    ((C18_one_edit_per_marker (exStmt [exCompare "a" (exSignCast "foo" 30),
        exCompare "b" (exSignCast "foo" 50)])).2.2.2 1 "foo").mpr ⟨by decide, by decide⟩⟩,
   (C18_one_edit_per_marker (exStmt [exCompare "a" (exArg "bar" true 30),
      exCompare "b" (exArg "baz" false 50), exCompare "c" (exSign "bar" 70)])).1.trans
      (by decide),
   (C18_one_edit_per_marker (exStmt [exCompare "c"
      (.FuncCall { Schema := "sqlc", Name := "arg" }
        (.cons (exSign "bar" 79) .nil) 70)])).1.trans (by decide)⟩

mutual
/-- A search returns the nodes of the subtree that pass its test. -/
theorem Search_filter (f : Node → Bool) : ∀ (n : Node), Search f n = (nodes n).filter f
  | .nil => rfl
  | .String s => by
    simp only [nodes, Search, if_true, List.filter_cons, List.filter_nil]
  | .A_Const v l => by
    have h := Search_filter f v
    simp only [nodes] at h
    simp only [nodes, Search, if_true, List.filter_append, List.filter_cons, List.filter_nil, h]
  | .ColumnRef fs l => by
    have h := SearchList_filter f fs
    simp only [nodes, Search, if_true, List.filter_append, List.filter_cons, List.filter_nil, h]
  | .ParamRef n l => by
    simp only [nodes, Search, if_true, List.filter_cons, List.filter_nil]
  | .NamedArgExpr nm a l => by
    have h := Search_filter f a
    simp only [nodes] at h
    simp only [nodes, Search, if_true, List.filter_append, List.filter_cons, List.filter_nil, h]
  | .A_Expr nm lx rx l => by
    have h1 := SearchList_filter f nm
    have h2 := Search_filter f lx
    have h3 := Search_filter f rx
    simp only [nodes] at h2 h3
    simp only [nodes, Search, if_true, List.filter_append, List.filter_cons, List.filter_nil,
      h1, h2, h3]
  | .FuncCall fn as l => by
    have h := SearchList_filter f as
    simp only [nodes, Search, if_true, List.filter_append, List.filter_cons, List.filter_nil, h]
  | .TypeCast a t l => by
    have h := Search_filter f a
    simp only [nodes] at h
    simp only [nodes, Search, if_true, List.filter_append, List.filter_cons, List.filter_nil, h]
  | .ResTarget nm v l => by
    have h := Search_filter f v
    simp only [nodes] at h
    simp only [nodes, Search, if_true, List.filter_append, List.filter_cons, List.filter_nil, h]
  | .List is => by
    have h := SearchList_filter f is
    simp only [nodes, Search, if_true, List.filter_append, List.filter_cons, List.filter_nil, h]
  | .limitOffset => by
    simp only [nodes, Search, if_true, List.filter_cons, List.filter_nil]
  | .limitCount => by
    simp only [nodes, Search, if_true, List.filter_cons, List.filter_nil]
  | .other k cs => by
    have h := SearchList_filter f cs
    simp only [nodes, Search, if_true, List.filter_append, List.filter_cons, List.filter_nil, h]
/-- A search over a list returns the nodes of its items that pass the test. -/
theorem SearchList_filter (f : Node → Bool) : ∀ (l : NodeList),
    SearchList f l = (SearchList (fun _ => true) l).filter f
  | .nil => rfl
  | .cons hd tl => by
    have h1 := Search_filter f hd
    have h2 := SearchList_filter f tl
    simp only [nodes] at h1
    simp only [SearchList, List.filter_append, h1, h2]
end

/-- C19. When no node of the statement is a call-style marker or a sign marker
(with or without a cast), `NamedParameters` returns the statement itself, the
empty map and no edit; and every node the test for the sign with a cast
accepts is accepted by the sign test of the pre-check, so that form cannot
be missed by the early return. -/
theorem C19_no_marker_no_change (raw : RawStmt)
    (hnone : ∀ x ∈ nodes raw.Stmt, IsParamFunc x = false ∧ IsParamSign x = false) :
    (NamedParameters raw).stmt = raw ∧
    (∀ n, (NamedParameters raw).named n = none) ∧
    (NamedParameters raw).edits = [] ∧
    (∀ x ∈ nodes raw.Stmt, isNamedParamSignCast x = false) ∧
    (∀ node, isNamedParamSignCast node = true → IsParamSign node = true) := by
  have hf : Search IsParamFunc raw.Stmt = [] := by
    rw [Search_filter, List.filter_eq_nil_iff]
    intro x hx
    simp [(hnone x hx).1]
  have hs : Search IsParamSign raw.Stmt = [] := by
    rw [Search_filter, List.filter_eq_nil_iff]
    intro x hx
    simp [(hnone x hx).2]
  refine ⟨?_, ?_, ?_, ?_, isNamedParamSignCast_sign⟩
  · simp [NamedParameters, hf, hs]
  · intro n
    simp [NamedParameters, hf, hs, GoMap.empty]
  · simp [NamedParameters, hf, hs]
  · intro x hx
    cases hb : isNamedParamSignCast x with
    | false => rfl
    | true =>
      have := isNamedParamSignCast_sign x hb
      rw [(hnone x hx).2] at this
      cases this

/-- C19 (witness). The statement `a = $1 AND b = 7`. -/
theorem C19_no_marker_no_change_witness :
    (NamedParameters (exStmt [exCompare "a" (.ParamRef 1 30),
        exCompare "b" (.A_Const (.String "7") 50)])).stmt =
      exStmt [exCompare "a" (.ParamRef 1 30), exCompare "b" (.A_Const (.String "7") 50)] ∧
    (∀ n, (NamedParameters (exStmt [exCompare "a" (.ParamRef 1 30),
        exCompare "b" (.A_Const (.String "7") 50)])).named n = none) ∧
    (NamedParameters (exStmt [exCompare "a" (.ParamRef 1 30),
        exCompare "b" (.A_Const (.String "7") 50)])).edits = [] ∧
    (∀ x ∈ nodes (exStmt [exCompare "a" (.ParamRef 1 30),
        exCompare "b" (.A_Const (.String "7") 50)]).Stmt, isNamedParamSignCast x = false) ∧
    (∀ node, isNamedParamSignCast node = true → IsParamSign node = true) :=
  C19_no_marker_no_change
    (exStmt [exCompare "a" (.ParamRef 1 30), exCompare "b" (.A_Const (.String "7") 50)])
    (by
      intro x hx
      simp only [nodes, exStmt, exCompare, NodeList.ofList, Search, SearchList, if_true,
        List.cons_append, List.nil_append, List.append_nil, List.mem_cons, List.mem_singleton,
        List.not_mem_nil, or_false] at hx
      rcases hx with e | e | e | e | e | e | e | e | e | e | e | e <;> rw [e] <;> decide)

/-! ## The order of the ordinals -/

theorem firstOccurrences_cons (y : String) (ys : List String) :
    firstOccurrences (y :: ys) =
      ys.foldl (fun acc x => if x ∈ acc then acc else acc ++ [x]) [y] := by
  simp [firstOccurrences]

theorem foldl_addKey_eq (ns acc : List String) :
    ns.foldl (fun acc x => if x ∈ acc then acc else acc ++ [x]) acc =
      acc ++ (firstOccurrences ns).filter (fun z => decide (z ∉ acc)) := by
  induction ns generalizing acc with
  | nil => simp [firstOccurrences]
  | cons y ys ih =>
    rw [firstOccurrences_cons, ih [y]]
    simp only [List.foldl_cons]
    by_cases hy : y ∈ acc
    · simp only [hy, if_true]
      rw [ih acc, List.filter_append, List.filter_filter]
      have e1 : [y].filter (fun z => decide (z ∉ acc)) = [] := by simp [hy]
      rw [e1, List.nil_append]
      congr 1
      apply List.filter_congr
      intro z _
      by_cases hz : z ∈ acc
      · simp [hz]
      · have hzy : z ≠ y := fun e => hz (e ▸ hy)
        simp [hz, hzy]
    · simp only [hy, if_false]
      rw [ih (acc ++ [y]), List.filter_append, List.filter_filter]
      have e1 : [y].filter (fun z => decide (z ∉ acc)) = [y] := by simp [hy]
      rw [e1, List.append_assoc]
      congr 2
      apply List.filter_congr
      intro z _
      by_cases hz : z ∈ acc <;> by_cases hzy : z = y <;> simp [hz, hzy]

theorem firstOccurrences_cons_filter (y : String) (ys : List String) :
    firstOccurrences (y :: ys) =
      y :: (firstOccurrences ys).filter (fun z => decide (z ≠ y)) := by
  rw [firstOccurrences_cons, foldl_addKey_eq]
  simp only [List.singleton_append, List.cons.injEq, true_and]
  apply List.filter_congr
  intro z _
  simp

theorem indexOf_filter_lt (p : String → Bool) (l : List String) (x y : String)
    (hx : x ∈ l) (hpx : p x = true) (hlt : l.indexOf x < l.indexOf y) :
    (l.filter p).indexOf x < (l.filter p).indexOf y := by
  induction l with
  | nil => simp at hx
  | cons z zs ih =>
    by_cases hzx : z = x
    · subst hzx
      have hzy : z ≠ y := by
        intro e
        rw [e] at hlt
        exact absurd hlt (Nat.lt_irrefl _)
      simp only [List.filter_cons, hpx, if_true]
      rw [List.indexOf_cons_self, List.indexOf_cons_ne _ hzy]
      omega
    · have hzy : z ≠ y := by
        intro e
        rw [List.indexOf_cons_ne _ hzx, List.indexOf_cons_eq _ e] at hlt
        omega
      rw [List.indexOf_cons_ne _ hzx, List.indexOf_cons_ne _ hzy] at hlt
      have hx2 : x ∈ zs := by
        rcases List.mem_cons.mp hx with e | e
        · exact absurd e.symm hzx
        · exact e
      have ih2 := ih hx2 (by omega)
      by_cases hpz : p z = true
      · simp only [List.filter_cons, hpz, if_true]
        rw [List.indexOf_cons_ne _ hzx, List.indexOf_cons_ne _ hzy]
        omega
      · simp only [List.filter_cons, hpz, Bool.false_eq_true, if_false]
        exact ih2

/-- A name whose first occurrence comes earlier is earlier among the distinct
names. -/
theorem firstOccurrences_order (ns : List String) (x y : String) (hx : x ∈ ns)
    (hlt : ns.indexOf x < ns.indexOf y) :
    (firstOccurrences ns).indexOf x < (firstOccurrences ns).indexOf y := by
  induction ns with
  | nil => simp at hx
  | cons z zs ih =>
    rw [firstOccurrences_cons_filter]
    by_cases hzx : z = x
    · subst hzx
      have hzy : z ≠ y := by
        intro e
        rw [e] at hlt
        exact absurd hlt (Nat.lt_irrefl _)
      rw [List.indexOf_cons_self, List.indexOf_cons_ne _ hzy]
      omega
    · have hzy : z ≠ y := by
        intro e
        rw [List.indexOf_cons_ne _ hzx, List.indexOf_cons_eq _ e] at hlt
        omega
      rw [List.indexOf_cons_ne _ hzx, List.indexOf_cons_ne _ hzy] at hlt
      have hx2 : x ∈ zs := by
        rcases List.mem_cons.mp hx with e | e
        · exact absurd e.symm hzx
        · exact e
      have ih2 := ih hx2 (by omega)
      rw [List.indexOf_cons_ne _ hzx, List.indexOf_cons_ne _ hzy]
      have hf := indexOf_filter_lt (fun w => decide (w ≠ z)) (firstOccurrences zs) x y
        ((mem_firstOccurrences zs x).mpr hx2)
        (by simpa using fun e => hzx e.symm) ih2
      omega

theorem firstOccurrences_length (ns : List String) :
    (firstOccurrences ns).length = ns.dedup.length := by
  apply List.Perm.length_eq
  rw [List.perm_ext_iff_of_nodup (firstOccurrences_nodup ns) (List.nodup_dedup ns)]
  intro a
  rw [mem_firstOccurrences, List.mem_dedup]

/-- C17. With `k` the number of distinct flattened names among the matched
markers of the statement, the ordinals of the names (the numbers of the
placeholders that replace the markers, and the keys of the returned map) are
exactly 1, ..., k: each name's ordinal lies between 1 and k, each number
between 1 and k is the ordinal of a name and a key of the map, and nothing
else is a key; and a name whose first occurrence in traversal order comes
before that of another name has a strictly smaller ordinal. -/
theorem C17_ordinals_consecutive_in_order (raw : RawStmt) :
    (NamedParameters raw).stmt.Stmt =
      substitute (ordinalOf (markerNames raw.Stmt)) raw.Stmt ∧
    (∀ x ∈ markerNames raw.Stmt,
      1 ≤ ordinalOf (markerNames raw.Stmt) x ∧
      ordinalOf (markerNames raw.Stmt) x ≤ ((markerNames raw.Stmt).dedup.length : Int)) ∧
    (∀ n : Int, (1 ≤ n ∧ n ≤ ((markerNames raw.Stmt).dedup.length : Int)) ↔
      ∃ x, x ∈ markerNames raw.Stmt ∧ ordinalOf (markerNames raw.Stmt) x = n) ∧
    (∀ n : Int, (1 ≤ n ∧ n ≤ ((markerNames raw.Stmt).dedup.length : Int)) ↔
      ∃ x, (NamedParameters raw).named n = some x) ∧
    (∀ x ∈ markerNames raw.Stmt, ∀ y ∈ markerNames raw.Stmt,
      (markerNames raw.Stmt).indexOf x < (markerNames raw.Stmt).indexOf y →
      ordinalOf (markerNames raw.Stmt) x < ordinalOf (markerNames raw.Stmt) y) := by
  obtain ⟨h1, _, h3⟩ := NamedParameters_spec raw
  have hlen := firstOccurrences_length (markerNames raw.Stmt)
  have hrange : ∀ x ∈ markerNames raw.Stmt,
      1 ≤ ordinalOf (markerNames raw.Stmt) x ∧
      ordinalOf (markerNames raw.Stmt) x ≤ ((markerNames raw.Stmt).dedup.length : Int) := by
    intro x hx
    have hlt := List.indexOf_lt_length.mpr ((mem_firstOccurrences _ x).mpr hx)
    unfold ordinalOf
    omega
  have honto : ∀ n : Int, (1 ≤ n ∧ n ≤ ((markerNames raw.Stmt).dedup.length : Int)) ↔
      ∃ x, x ∈ markerNames raw.Stmt ∧ ordinalOf (markerNames raw.Stmt) x = n := by
    intro n
    constructor
    · rintro ⟨hn1, hn2⟩
      have hi : (n - 1).toNat < (firstOccurrences (markerNames raw.Stmt)).length := by omega
      refine ⟨(firstOccurrences (markerNames raw.Stmt))[(n - 1).toNat], ?_, ?_⟩
      · exact (mem_firstOccurrences _ _).mp (List.getElem_mem _)
      · unfold ordinalOf
        rw [List.indexOf_getElem (firstOccurrences_nodup _)]
        omega
    · rintro ⟨x, hx, he⟩
      rw [← he]
      exact hrange x hx
  refine ⟨by rw [h1], hrange, honto, ?_, ?_⟩
  · intro n
    rw [honto n]
    constructor
    · rintro ⟨x, hx, he⟩
      exact ⟨x, (h3 n x).mpr ⟨hx, he⟩⟩
    · rintro ⟨x, hx⟩
      exact ⟨x, (h3 n x).mp hx⟩
  · intro x hx y _ hlt
    have := firstOccurrences_order (markerNames raw.Stmt) x y hx hlt
    unfold ordinalOf
    omega

/-- C17 (witness). The statement `a = @second AND b = sqlc.arg('first') AND
c = @second AND d = @third`: the names in traversal order are `second`,
`first`, `second`, `third`; the ordinals are 1 for `second`, 2 for `first`
and 3 for `third`. -/
theorem C17_ordinals_consecutive_in_order_witness :
    (NamedParameters (exStmt [exCompare "a" (exSign "second" 30),
        exCompare "b" (exArg "first" true 50), exCompare "c" (exSign "second" 70),
        exCompare "d" (exSign "third" 90)])).stmt.Stmt =
      (exStmt [exCompare "a" (.ParamRef 1 30), exCompare "b" (.ParamRef 2 50),
        exCompare "c" (.ParamRef 1 70), exCompare "d" (.ParamRef 3 90)]).Stmt ∧
    ordinalOf (markerNames (exStmt [exCompare "a" (exSign "second" 30),
        exCompare "b" (exArg "first" true 50), exCompare "c" (exSign "second" 70),
        exCompare "d" (exSign "third" 90)]).Stmt) "first" <
      ordinalOf (markerNames (exStmt [exCompare "a" (exSign "second" 30),
        exCompare "b" (exArg "first" true 50), exCompare "c" (exSign "second" 70),
        exCompare "d" (exSign "third" 90)]).Stmt) "third" :=
  ⟨(C17_ordinals_consecutive_in_order (exStmt [exCompare "a" (exSign "second" 30),
      exCompare "b" (exArg "first" true 50), exCompare "c" (exSign "second" 70),
      exCompare "d" (exSign "third" 90)])).1.trans rfl,
   (C17_ordinals_consecutive_in_order (exStmt [exCompare "a" (exSign "second" 30),
      exCompare "b" (exArg "first" true 50), exCompare "c" (exSign "second" 70),
      exCompare "d" (exSign "third" 90)])).2.2.2.2 "first" (by decide) "third" (by decide)
      (by decide)⟩

end Sqlc
